import Mathlib

/-!
# libdcp: a shallow embedding of the package model

The development follows the C++ sources:

* `src/asset.cc`   : `Asset::hash`, `Asset::equals`
* `src/dcp.cc`     : `DCP::assets`, `CPL::assets`, the parsing constructor of `CPL`,
                     `CPL::equals`, `DCP::equals`
* `src/mono_picture_asset.cc` : `MonoPictureAsset::equals`
* `src/certificate.cc` : `Certificate::read_string`, the constructor from a string,
                     `Certificate::certificate`
* `src/modified_gamma_transfer_function.cc` : `about_equal`, `make_lut`
* `src/dcp_time.cc` : the constructor of `Time`, `operator==`, `operator<=`
* `src/stereo_picture_mxf.cc` : `StereoPictureMXF::equals`

Values of type `float` are finite rationals, infinities or not a number, and every operation
on them rounds its exact result to single precision (round to nearest, ties to even).

Objects held through `shared_ptr` are represented by their address (a natural number)
whenever the code compares the pointers themselves; the attributes of the pointed-to object
are then read through an explicit store.  Mutable members of `const` methods are modelled by
state passing.  Collaborators whose code is outside the repository sources (file digests,
MXF containers, the asset map) appear as parameters.
-/

namespace Libdcp

/-! ## Notes -/

/-- Severity of a note handed to the note sink (`NoteType` of `types.h`). -/
inductive NoteType
  | PROGRESS
  | ERROR
  | NOTE
  deriving DecidableEq, Repr

/-- The options of an equality check; `flags` is the bit mask tested against
`LIBDCP_METADATA` in `CPL::equals`. -/
structure EqualityOptions where
  flags : Nat
  deriving DecidableEq, Repr

/-! ## `Asset` (src/asset.cc) -/

/-- The members of `Asset` used by `hash` and `equals`: the identifier, the backing file and
the mutable digest cache `_hash`. -/
structure Asset where
  _id : String
  _file : String
  _hash : String
  deriving DecidableEq, Repr

/-- `Asset::hash`.  The method is `const` and writes the mutable member `_hash`, so the
embedding returns the digest together with the asset after the call.  `make_digest` is the
digest of a file's bytes (util.h), a function of the file name for a fixed file system.

```
if (!_hash.empty ()) { _hash = make_digest (_file, 0); }
return _hash;
``` -/
def Asset.hash (make_digest : String → String) (a : Asset) : String × Asset :=
  if a._hash ≠ "" then
    let a1 := { a with _hash := make_digest a._file }
    (a1._hash, a1)
  else
    (a._hash, a)

/-- `Asset::equals`.  The note sink is modelled by the list of notes emitted, in order.

```
if (_hash != other->_hash) { note (ERROR, "Asset hashes differ"); return false; }
return true;
``` -/
def Asset.equals (a other : Asset) (_opt : EqualityOptions) : Bool × List (NoteType × String) :=
  if a._hash ≠ other._hash then
    (false, [(NoteType.ERROR, "Asset hashes differ")])
  else
    (true, [])

/-! ## `std::list` operations used by src/dcp.cc -/

/-- `std::list::merge (other)` with `operator<`: walk both lists; whenever the head of
`other` is smaller than the current element of `this` it is spliced in front of it, otherwise
the cursor of `this` advances; what is left of `other` is appended.  The code calls it on
lists that are not sorted, where it still interleaves the two lists in this way. -/
def listMerge {α : Type} [LT α] [DecidableRel (fun a b : α => a < b)] :
    List α → List α → List α
  | [], ys => ys
  | x :: xs, [] => x :: xs
  | x :: xs, y :: ys =>
    if y < x then y :: listMerge (x :: xs) ys else x :: listMerge xs (y :: ys)
termination_by xs ys => xs.length + ys.length

/-- `std::list::sort ()` with `operator<`: a stable sort into ascending order. -/
def listSort {α : Type} [LT α] [DecidableRel (fun a b : α => a < b)] (l : List α) : List α :=
  l.insertionSort (fun a b => ¬ b < a)

/-- The loop of `std::list::unique ()`: `first` is the last element kept, the argument is
what follows it; an element equal to `first` is erased, any other element is kept and becomes
`first`. -/
def listUniqueFrom {α : Type} [DecidableEq α] (first : α) : List α → List α
  | [] => []
  | next :: rest =>
    if first = next then listUniqueFrom first rest else next :: listUniqueFrom next rest

/-- `std::list::unique ()` with `operator==`: of every run of consecutive equal elements only
the first is kept. -/
def listUnique {α : Type} [DecidableEq α] : List α → List α
  | [] => []
  | x :: rest => x :: listUniqueFrom x rest

/-! ## Reels, CPLs and DCPs (src/dcp.cc) -/

/-- A `shared_ptr<const Asset>` as the code of `DCP::assets` sees it: `operator<` and
`operator==` of `shared_ptr` compare the pointers, so the pointer is its address. -/
abbrev AssetPtr := Nat

/-- The kinds of content of a CPL (`ContentKind` of `types.h`). -/
inductive ContentKind
  | FEATURE
  | SHORT
  | TRAILER
  | TEST
  | TRANSITIONAL
  | RATING
  | TEASER
  | POLICY
  | PUBLIC_SERVICE_ANNOUNCEMENT
  | ADVERTISEMENT
  deriving DecidableEq, Repr

/-- A `Reel`: three `shared_ptr` slots, each of which may be null.  `α` is the type of the
handles held in the slots. -/
structure Reel (α : Type) where
  main_picture : Option α
  main_sound : Option α
  main_subtitle : Option α
  deriving DecidableEq, Repr

/-- The members of `CPL`. -/
structure CPL (α : Type) where
  _directory : String
  _name : String
  _content_kind : ContentKind
  _length : Int
  _fps : Int
  _reels : List (Reel α)
  _uuid : String
  _digest : String
  deriving DecidableEq, Repr

/-- The members of `DCP`. -/
structure DCP (α : Type) where
  _directory : String
  _cpls : List (CPL α)
  deriving DecidableEq, Repr

/-- The body of the loop of `CPL::assets` for one reel: every non-null slot is pushed to the
back of `a`, picture first, then sound, then subtitle. -/
def CPL.assetsStep {α : Type} (a : List α) (r : Reel α) : List α :=
  let a1 := match r.main_picture with
    | some p => a ++ [p]
    | none => a
  let a2 := match r.main_sound with
    | some s => a1 ++ [s]
    | none => a1
  match r.main_subtitle with
  | some t => a2 ++ [t]
  | none => a2

/-- `CPL::assets`. -/
def CPL.assets {α : Type} (c : CPL α) : List α :=
  c._reels.foldl CPL.assetsStep []

/-- `DCP::assets`:

```
for (i in _cpls) { t = (*i)->assets (); a.merge (t); }
a.sort ();
a.unique ();
return a;
```

`sort` and `unique` are called without a comparator or predicate, so they order and compare
the `shared_ptr`s themselves. -/
def DCP.assets (d : DCP AssetPtr) : List AssetPtr :=
  listUnique (listSort (d._cpls.foldl (fun a c => listMerge a c.assets) []))

/-- `AssetComparator::operator()`: `a->uuid() < b->uuid()`, where `uuid` reads the identifier
of the object at an address. -/
def AssetComparator (uuid : AssetPtr → String) (a b : AssetPtr) : Bool :=
  decide (uuid a < uuid b)

/-- The asset `x` sits in one of the three slots of a reel of a CPL of `d`. -/
def DCP.references {α : Type} (d : DCP α) (x : α) : Prop :=
  ∃ c ∈ d._cpls, ∃ r ∈ c._reels,
    r.main_picture = some x ∨ r.main_sound = some x ∨ r.main_subtitle = some x

/-! ## Parsing a CPL file (second constructor of `CPL`, src/dcp.cc) -/

/-- A rational rate of a CPL file (`Fraction` of `types.h`); `operator==` compares numerator
and denominator. -/
structure Fraction where
  numerator : Int
  denominator : Int
  deriving DecidableEq, Repr

/-- A picture node of a reel entry (`Picture` of `cpl_file.h`): the members read by the
constructor. -/
structure Picture where
  id : String
  edit_rate : Fraction
  frame_rate : Fraction
  entry_point : Int
  duration : Int
  deriving DecidableEq, Repr

/-- The sound node of a reel entry. -/
structure MainSound where
  id : String
  entry_point : Int
  duration : Int
  deriving DecidableEq, Repr

/-- The subtitle node of a reel entry. -/
structure MainSubtitle where
  id : String
  deriving DecidableEq, Repr

/-- The asset list of a reel entry; each node may be absent (a null `shared_ptr`). -/
structure CPLAssetList where
  main_picture : Option Picture
  main_stereoscopic_picture : Option Picture
  main_sound : Option MainSound
  main_subtitle : Option MainSubtitle
  deriving DecidableEq, Repr

/-- A reel entry of a CPL file (`CPLReel`). -/
structure CPLReel where
  asset_list : CPLAssetList
  deriving DecidableEq, Repr

/-- A CPL file as read by `CPLFile`. -/
structure CPLFile where
  annotation_text : String
  content_kind : ContentKind
  reels : List CPLReel
  deriving DecidableEq, Repr

/-- The asset objects the constructor creates, with the arguments they are created from. -/
inductive AssetObj
  | MonoPictureAsset (directory mxf_name : String) (fps entry_point duration : Int)
  | StereoPictureAsset (directory mxf_name : String) (fps entry_point duration : Int)
  | SoundAsset (directory mxf_name : String) (fps entry_point duration : Int)
  | SubtitleAsset (directory xml_file : String)
  deriving DecidableEq, Repr

/-- The ways the constructor can end without a CPL: an `MXFFileError` that is let through,
or the dereference of a null picture node. -/
inductive ParseError
  | MXFFileError
  | NullDereference
  deriving DecidableEq, Repr

/-- The MXF collaborator at the boundary of the constructor: whether the container
`directory/mxf_name` can be opened as a mono picture, a stereo picture or a sound file. -/
structure Essence where
  mono_opens : String → String → Bool
  stereo_opens : String → String → Bool
  sound_opens : String → String → Bool

/-- Modelled from the spec: the five-argument constructor of `MonoPictureAsset` (its code is
not among the sources) opens the MXF container and fails with `MXFFileError` when the
container cannot be opened. -/
def newMonoPictureAsset (ess : Essence) (directory mxf_name : String)
    (fps entry_point duration : Int) : Except ParseError AssetObj :=
  if ess.mono_opens directory mxf_name then
    .ok (.MonoPictureAsset directory mxf_name fps entry_point duration)
  else .error .MXFFileError

/-- Modelled from the spec: the five-argument constructor of `StereoPictureAsset`, as
`newMonoPictureAsset`. -/
def newStereoPictureAsset (ess : Essence) (directory mxf_name : String)
    (fps entry_point duration : Int) : Except ParseError AssetObj :=
  if ess.stereo_opens directory mxf_name then
    .ok (.StereoPictureAsset directory mxf_name fps entry_point duration)
  else .error .MXFFileError

/-- Modelled from the spec: the five-argument constructor of `SoundAsset`, as
`newMonoPictureAsset`. -/
def newSoundAsset (ess : Essence) (directory mxf_name : String)
    (fps entry_point duration : Int) : Except ParseError AssetObj :=
  if ess.sound_opens directory mxf_name then
    .ok (.SoundAsset directory mxf_name fps entry_point duration)
  else .error .MXFFileError

/-- The pattern `try { slot.reset (new T (...)); } catch (MXFFileError) { if (require_mxfs)
throw; }`: on success the slot is set, an `MXFFileError` is rethrown when `require_mxfs` is
set and otherwise leaves the slot null. -/
def tryReset {α : Type} (require_mxfs : Bool) (r : Except ParseError α) :
    Except ParseError (Option α) :=
  match r with
  | .ok a => .ok (some a)
  | .error .MXFFileError => if require_mxfs then .error .MXFFileError else .ok none
  | .error e => .error e

/-- The picture node `p` of a reel entry: `main_picture` when it is there, otherwise
`main_stereoscopic_picture`. -/
def resolvePicture (i : CPLReel) : Option Picture :=
  if i.asset_list.main_picture.isSome then i.asset_list.main_picture
  else i.asset_list.main_stereoscopic_picture

/-- The picture slot of a reel entry (lines 351-385): mono when there is no
`main_stereoscopic_picture` and `p->edit_rate == p->frame_rate`, stereo otherwise. -/
def parsePicture (directory : String) (asset_map : String → String) (ess : Essence)
    (require_mxfs : Bool) (fps : Int) (i : CPLReel) (p : Picture) :
    Except ParseError (Option AssetObj) :=
  if i.asset_list.main_stereoscopic_picture.isNone ∧ p.edit_rate = p.frame_rate then
    match i.asset_list.main_picture with
    | some mp =>
      tryReset require_mxfs
        (newMonoPictureAsset ess directory (asset_map p.id) fps mp.entry_point mp.duration)
    | none => .error .NullDereference
  else
    tryReset require_mxfs
      (newStereoPictureAsset ess directory (asset_map p.id) fps p.entry_point p.duration)

/-- The sound slot of a reel entry (lines 387-403). -/
def parseSound (directory : String) (asset_map : String → String) (ess : Essence)
    (require_mxfs : Bool) (fps : Int) (i : CPLReel) : Except ParseError (Option AssetObj) :=
  match i.asset_list.main_sound with
  | some s =>
    tryReset require_mxfs
      (newSoundAsset ess directory (asset_map s.id) fps s.entry_point s.duration)
  | none => .ok none

/-- The subtitle slot of a reel entry (lines 405-412); no exception is caught here. -/
def parseSubtitle (directory : String) (asset_map : String → String) (i : CPLReel) :
    Option AssetObj :=
  match i.asset_list.main_subtitle with
  | some t => some (.SubtitleAsset directory (asset_map t.id))
  | none => none

/-- One iteration of the loop over the reel entries (lines 328-415), on the CPL under
construction: `_fps` and `_length` are updated from the picture node, the three slots are
built and the reel is pushed to the back of `_reels`.  `asset_map id` stands for
`asset_map->asset_from_id (id)->chunks.front()->path`. -/
def CPL.parseReel (directory : String) (asset_map : String → String) (ess : Essence)
    (require_mxfs : Bool) (c : CPL AssetObj) (i : CPLReel) : Except ParseError (CPL AssetObj) :=
  match resolvePicture i with
  | none => .error .NullDereference
  | some p =>
    let fps := p.edit_rate.numerator
    let length := c._length + p.duration
    match parsePicture directory asset_map ess require_mxfs fps i p with
    | .error e => .error e
    | .ok picture =>
      match parseSound directory asset_map ess require_mxfs fps i with
      | .error e => .error e
      | .ok sound =>
        .ok { c with
              _fps := fps
              _length := length
              _reels := c._reels ++ [⟨picture, sound, parseSubtitle directory asset_map i⟩] }

/-- The loop over the reel entries, in file order; the first error ends it. -/
def CPL.parseReels (directory : String) (asset_map : String → String) (ess : Essence)
    (require_mxfs : Bool) : CPL AssetObj → List CPLReel → Except ParseError (CPL AssetObj)
  | c, [] => .ok c
  | c, i :: rest =>
    match CPL.parseReel directory asset_map ess require_mxfs c i with
    | .error e => .error e
    | .ok c1 => CPL.parseReels directory asset_map ess require_mxfs c1 rest

/-- `CPL::CPL (directory, file, asset_map, require_mxfs)` from the point where the CPL file
has been read: `_length` and `_fps` start at 0, name and content kind are copied, then the
reel entries are processed. -/
def CPL.parse (directory : String) (cpl : CPLFile) (asset_map : String → String)
    (ess : Essence) (require_mxfs : Bool) : Except ParseError (CPL AssetObj) :=
  CPL.parseReels directory asset_map ess require_mxfs
    { _directory := directory, _name := cpl.annotation_text,
      _content_kind := cpl.content_kind, _length := 0, _fps := 0, _reels := [],
      _uuid := "", _digest := "" }
    cpl.reels

/-! ## `CPL::equals` (src/dcp.cc) -/

/-- The statement `if (cond) { notes.push_back (s); }`. -/
def pushIf (cond : Prop) [Decidable cond] (notes : List String) (s : String) : List String :=
  if cond then notes ++ [s] else notes

/-- The notes `CPL::equals` pushes itself, before the reels are compared (lines 515-534).
`LIBDCP_METADATA` is the flag bit of `types.h`. -/
def CPL.ownNotes {α : Type} (LIBDCP_METADATA : Nat) (c other : CPL α) (opt : EqualityOptions) :
    List String :=
  let notes : List String := []
  let notes :=
    if opt.flags &&& LIBDCP_METADATA ≠ 0 then
      let n1 := pushIf (c._name ≠ other._name) notes "names differ"
      let n2 := pushIf (c._content_kind ≠ other._content_kind) n1 "content kinds differ"
      let n3 := pushIf (c._fps ≠ other._fps) n2 "frames per second differ"
      pushIf (c._length ≠ other._length) n3 "lengths differ"
    else notes
  pushIf (c._reels.length ≠ other._reels.length) notes "reel counts differ"

/-- The loop of `CPL::equals` over the reels (lines 536-544): it runs until the reels of
`this` are exhausted, and each round merges the notes of `Reel::equals` into `notes` with
`std::list::merge`.  When the reels of `other` end first, `*b` reads `other._reels.end ()`:
the behaviour is undefined and the embedding gives `none`.  `reelEquals` is `Reel::equals`. -/
def CPL.equalsReels {α : Type} (reelEquals : Reel α → Reel α → EqualityOptions → List String)
    (opt : EqualityOptions) : List (Reel α) → List (Reel α) → List String → Option (List String)
  | [], _, notes => some notes
  | _ :: _, [], _ => none
  | a :: as, b :: bs, notes =>
    CPL.equalsReels reelEquals opt as bs (listMerge notes (reelEquals a b opt))

/-- `CPL::equals`. -/
def CPL.equals {α : Type} (LIBDCP_METADATA : Nat)
    (reelEquals : Reel α → Reel α → EqualityOptions → List String)
    (c other : CPL α) (opt : EqualityOptions) : Option (List String) :=
  CPL.equalsReels reelEquals opt c._reels other._reels
    (CPL.ownNotes LIBDCP_METADATA c other opt)

/-! ## Inputs used in the evaluations below -/

/-- A file system in which every file has the digest of the empty file. -/
def emptyFileDigest : String → String := fun _ => "2jmj7l5rSw0yVb/vlWAYkK/YBwk="

/-- An asset whose digest was never computed. -/
def freshAsset : Asset := { _id := "a", _file := "picture.mxf", _hash := "" }

/-- A stand-in for a digest that tells files with different names apart. -/
def nameDigest : String → String := fun f => "sha1:" ++ f

/-- Two assets with the same cached digest and different files. -/
def cachedA : Asset := { _id := "a", _file := "a.mxf", _hash := "x" }

/-- The second asset, see `cachedA`. -/
def cachedB : Asset := { _id := "b", _file := "b.mxf", _hash := "x" }

/-- A CPL with the given reels and no other content. -/
def cplOf {α : Type} (reels : List (Reel α)) : CPL α :=
  { _directory := "dcp", _name := "title", _content_kind := .FEATURE, _length := 0, _fps := 24,
    _reels := reels, _uuid := "cpl", _digest := "" }

/-- A DCP with one reel whose picture is the object at address 1 and whose sound is the
object at address 2. -/
def swappedDCP : DCP AssetPtr :=
  { _directory := "dcp", _cpls := [cplOf [⟨some 1, some 2, none⟩]] }

/-- The identifiers of the objects of `swappedDCP`: the object at the lower address has the
greater UUID. -/
def swappedUuid : AssetPtr → String := fun p => if p = 1 then "b" else "a"

/-- A DCP with two reels whose pictures are two distinct objects, at addresses 1 and 2. -/
def twinDCP : DCP AssetPtr :=
  { _directory := "dcp", _cpls := [cplOf [⟨some 1, none, none⟩, ⟨some 2, none, none⟩]] }

/-- Both objects of `twinDCP` were read from the same asset file and carry its UUID. -/
def twinUuid : AssetPtr → String := fun _ => "u"

/-- A DCP with two CPLs: a sound and a picture shared by two reels, then a subtitle. -/
def orderA : DCP AssetPtr :=
  { _directory := "dcp",
    _cpls := [cplOf [⟨some 7, some 3, none⟩, ⟨some 7, none, none⟩], cplOf [⟨some 7, none, some 5⟩]] }

/-- The same asset objects as in `orderA`, referenced from one CPL in another order. -/
def orderB : DCP AssetPtr :=
  { _directory := "dcp", _cpls := [cplOf [⟨some 5, none, some 3⟩, ⟨some 3, some 7, some 5⟩]] }

/-! ## The outcome of parsing, stated per reel entry -/

/-- The test of line 351: no `main_stereoscopic_picture` and `edit_rate == frame_rate` of the
picture node `p`. -/
def monoSelected (i : CPLReel) (p : Picture) : Bool :=
  i.asset_list.main_stereoscopic_picture.isNone && decide (p.edit_rate = p.frame_rate)

/-- Whether an asset object is a `MonoPictureAsset`. -/
def AssetObj.isMono : AssetObj → Bool
  | .MonoPictureAsset .. => true
  | _ => false

/-- Whether an asset object is a `StereoPictureAsset`. -/
def AssetObj.isStereo : AssetObj → Bool
  | .StereoPictureAsset .. => true
  | _ => false

/-- Whether the picture MXF of a reel entry can be opened, as the variant the entry is read
as; true for an entry without picture node. -/
def pictureOpens (directory : String) (asset_map : String → String) (ess : Essence)
    (i : CPLReel) : Bool :=
  match resolvePicture i with
  | some p =>
    if monoSelected i p then ess.mono_opens directory (asset_map p.id)
    else ess.stereo_opens directory (asset_map p.id)
  | none => true

/-- Whether the sound MXF of a reel entry can be opened; true for an entry without sound. -/
def soundOpens (directory : String) (asset_map : String → String) (ess : Essence)
    (i : CPLReel) : Bool :=
  match i.asset_list.main_sound with
  | some s => ess.sound_opens directory (asset_map s.id)
  | none => true

/-- The picture asset of a reel entry when its MXF opens: mono or stereo by `monoSelected`,
created from the file the asset map gives for the picture's id, the edit rate numerator, the
entry point and the duration of the picture node. -/
def pictureAsset (directory : String) (asset_map : String → String) (i : CPLReel) :
    Option AssetObj :=
  match resolvePicture i with
  | some p =>
    if monoSelected i p then
      some (.MonoPictureAsset directory (asset_map p.id) p.edit_rate.numerator
        p.entry_point p.duration)
    else
      some (.StereoPictureAsset directory (asset_map p.id) p.edit_rate.numerator
        p.entry_point p.duration)
  | none => none

/-- The sound asset of a reel entry when its MXF opens. -/
def soundAsset (directory : String) (asset_map : String → String) (i : CPLReel) :
    Option AssetObj :=
  match resolvePicture i, i.asset_list.main_sound with
  | some p, some s =>
    some (.SoundAsset directory (asset_map s.id) p.edit_rate.numerator s.entry_point s.duration)
  | _, _ => none

/-- The reel a reel entry yields when MXF failures are swallowed: a slot whose MXF does not
open is empty, the other slots are built as usual. -/
def lenientReel (directory : String) (asset_map : String → String) (ess : Essence)
    (i : CPLReel) : Reel AssetObj :=
  { main_picture :=
      if pictureOpens directory asset_map ess i then pictureAsset directory asset_map i
      else none
    main_sound :=
      if soundOpens directory asset_map ess i then soundAsset directory asset_map i else none
    main_subtitle := parseSubtitle directory asset_map i }

/-- The duration of the resolved picture node of a reel entry. -/
def pictureDuration (i : CPLReel) : Int :=
  match resolvePicture i with
  | some p => p.duration
  | none => 0

/-- The edit rate numerator of the resolved picture node of a reel entry. -/
def pictureRate (i : CPLReel) : Int :=
  match resolvePicture i with
  | some p => p.edit_rate.numerator
  | none => 0

/-- The value of `_fps` after the loop over `reels`, started with `fps`: every reel entry
overwrites it. -/
def lastRate (fps : Int) : List CPLReel → Int
  | [] => fps
  | i :: rest => lastRate (pictureRate i) rest

/-- A mono picture node with the given id, rate and duration. -/
def monoNode (id : String) (rate duration : Int) : Picture :=
  { id := id, edit_rate := ⟨rate, 1⟩, frame_rate := ⟨rate, 1⟩, entry_point := 0,
    duration := duration }

/-- A picture node whose frame rate is twice its edit rate. -/
def doubleRateNode (id : String) (rate duration : Int) : Picture :=
  { id := id, edit_rate := ⟨rate, 1⟩, frame_rate := ⟨2 * rate, 1⟩, entry_point := 0,
    duration := duration }

/-- A CPL file with three reels: a mono picture with sound, a picture with doubled frame
rate, and an explicit stereoscopic picture with a subtitle. -/
def threeReelFile : CPLFile :=
  { annotation_text := "title", content_kind := .FEATURE,
    reels :=
      [⟨⟨some (monoNode "p1" 24 100), none, some ⟨"s1", 0, 100⟩, none⟩⟩,
       ⟨⟨some (doubleRateNode "p2" 24 50), none, none, none⟩⟩,
       ⟨⟨none, some (monoNode "p3" 24 25), none, some ⟨"t3"⟩⟩⟩] }

/-- A CPL file whose two reels state different edit rates, 24 and then 48. -/
def mixedRateFile : CPLFile :=
  { annotation_text := "title", content_kind := .FEATURE,
    reels :=
      [⟨⟨some (monoNode "p1" 24 100), none, none, none⟩⟩,
       ⟨⟨some (monoNode "p2" 48 200), none, none, none⟩⟩] }

/-- An asset map that names the file of an asset after its id. -/
def idMap : String → String := fun id => "asset_" ++ id

/-- Every MXF container opens. -/
def allOpen : Essence :=
  { mono_opens := fun _ _ => true, stereo_opens := fun _ _ => true,
    sound_opens := fun _ _ => true }

/-- The CPL parsed from `threeReelFile` when every MXF opens. -/
def threeReelCPL : CPL AssetObj :=
  { _directory := "dcp", _name := "title", _content_kind := .FEATURE, _length := 175,
    _fps := 24,
    _reels :=
      [⟨some (.MonoPictureAsset "dcp" "asset_p1" 24 0 100),
        some (.SoundAsset "dcp" "asset_s1" 24 0 100), none⟩,
       ⟨some (.StereoPictureAsset "dcp" "asset_p2" 24 0 50), none, none⟩,
       ⟨some (.StereoPictureAsset "dcp" "asset_p3" 24 0 25), none,
        some (.SubtitleAsset "dcp" "asset_t3")⟩],
    _uuid := "", _digest := "" }

/-- The CPL parsed from `mixedRateFile`. -/
def mixedRateCPL : CPL AssetObj :=
  { _directory := "dcp", _name := "title", _content_kind := .FEATURE, _length := 300,
    _fps := 48,
    _reels :=
      [⟨some (.MonoPictureAsset "dcp" "asset_p1" 24 0 100), none, none⟩,
       ⟨some (.MonoPictureAsset "dcp" "asset_p2" 48 0 200), none, none⟩],
    _uuid := "", _digest := "" }

/-- A stand-in for `Reel::equals`: one note when the two reels hold different assets. -/
def sampleReelEquals (a b : Reel AssetPtr) (_opt : EqualityOptions) : List String :=
  if a = b then [] else ["reels differ"]

/-- A one-reel CPL. -/
def titleCPL : CPL AssetPtr := cplOf [⟨some 1, none, none⟩]

/-- A one-reel CPL that differs from `titleCPL` in name, frame rate and picture. -/
def retitledCPL : CPL AssetPtr :=
  { cplOf [⟨some 2, none, none⟩] with _name := "other title", _fps := 25 }

/-! ## `DCP::equals` (src/dcp.cc) -/

/-- The loop of `DCP::equals` over the CPLs (lines 257-265): it runs until the CPLs of `this`
are exhausted, and each round merges the notes of `CPL::equals` into `notes` with
`std::list::merge`.  When the CPLs of `other` end first, `*b` reads `other._cpls.end ()`: the
behaviour is undefined and the embedding gives `none`, as it does when `CPL::equals` itself
is undefined. -/
def DCP.equalsCPLs {α : Type} (LIBDCP_METADATA : Nat)
    (reelEquals : Reel α → Reel α → EqualityOptions → List String) (opt : EqualityOptions) :
    List (CPL α) → List (CPL α) → List String → Option (List String)
  | [], _, notes => some notes
  | _ :: _, [], _ => none
  | a :: as, b :: bs, notes =>
    match CPL.equals LIBDCP_METADATA reelEquals a b opt with
    | none => none
    | some n => DCP.equalsCPLs LIBDCP_METADATA reelEquals opt as bs (listMerge notes n)

/-- The note `DCP::equals` pushes itself (lines 251-255). -/
def DCP.ownNotes {α : Type} (d other : DCP α) : List String :=
  pushIf (d._cpls.length ≠ other._cpls.length) [] "CPL counts differ"

/-- `DCP::equals`. -/
def DCP.equals {α : Type} (LIBDCP_METADATA : Nat)
    (reelEquals : Reel α → Reel α → EqualityOptions → List String)
    (d other : DCP α) (opt : EqualityOptions) : Option (List String) :=
  DCP.equalsCPLs LIBDCP_METADATA reelEquals opt d._cpls other._cpls (DCP.ownNotes d other)

/-- The notes of the pairwise `Reel::equals` of two reel lists, in reel order. -/
def reelNotes {α : Type} (reelEquals : Reel α → Reel α → EqualityOptions → List String)
    (opt : EqualityOptions) (as bs : List (Reel α)) : List (List String) :=
  List.zipWith (fun a b => reelEquals a b opt) as bs

/-- A CPL without reels, with the given name and frame rate. -/
def emptyCPL (name : String) (fps : Int) : CPL AssetPtr :=
  { _directory := "dcp", _name := name, _content_kind := .FEATURE, _length := 0, _fps := fps,
    _reels := [], _uuid := "cpl", _digest := "" }

/-- A DCP with two CPLs. -/
def pairDCP : DCP AssetPtr :=
  { _directory := "a", _cpls := [emptyCPL "title" 24, emptyCPL "trailer" 24] }

/-- A DCP whose first CPL differs from that of `pairDCP` in its name and whose second CPL
differs in its frame rate. -/
def otherPairDCP : DCP AssetPtr :=
  { _directory := "b", _cpls := [emptyCPL "title 2" 24, emptyCPL "trailer" 25] }

/-- A DCP with one CPL, which has one reel. -/
def singleDCP : DCP AssetPtr := { _directory := "a", _cpls := [titleCPL] }

/-- A DCP without CPLs. -/
def noCPLsDCP : DCP AssetPtr := { _directory := "b", _cpls := [] }

/-! ## `MonoPictureAsset::equals` (src/mono_picture_asset.cc) -/

/-- The notes handed to a note sink, in the order they are emitted. -/
abbrev Notes := List (NoteType × String)

/-- The members of `MonoPictureAsset` used by `equals`: the number of frames and, for every
frame index, the compressed bytes `get_frame (n)->j2k_data ()` of length `j2k_size ()`. -/
structure MonoPictureAsset where
  _intrinsic_duration : Int
  j2k_data : Nat → List Nat

/-- The note emitted before frame `i` is compared (line 136). -/
def progressNote (a : MonoPictureAsset) (i : Nat) : NoteType × String :=
  (NoteType.PROGRESS,
    "Comparing video frame " ++ toString i ++ " of " ++ toString a._intrinsic_duration)

/-- The loop of `MonoPictureAsset::equals` (lines 131-147), with `n` rounds to go from
frame index `i`.  `frame_buffer_equals` is the method of `PictureAsset` of that name; it
returns its result and the notes it emits. -/
def MonoPictureAsset.equalsFrames
    (frame_buffer_equals : Nat → EqualityOptions → List Nat → List Nat → Bool × Notes)
    (a other : MonoPictureAsset) (opt : EqualityOptions) : Nat → Nat → Notes → Bool × Notes
  | 0, _, notes => (true, notes)
  | n + 1, i, notes =>
    if (i : Int) ≥ other._intrinsic_duration then (false, notes)
    else
      let r := frame_buffer_equals i opt (a.j2k_data i) (other.j2k_data i)
      if r.1 then
        MonoPictureAsset.equalsFrames frame_buffer_equals a other opt n (i + 1)
          (notes ++ [progressNote a i] ++ r.2)
      else (false, notes ++ [progressNote a i] ++ r.2)

/-- `MonoPictureAsset::equals`.  `base` is the outcome of `PictureAsset::equals (other, opt,
note)`: its result and the notes it emits.  The loop runs for `i` from 0 while
`i < _intrinsic_duration`. -/
def MonoPictureAsset.equals (base : Bool × Notes)
    (frame_buffer_equals : Nat → EqualityOptions → List Nat → List Nat → Bool × Notes)
    (a other : MonoPictureAsset) (opt : EqualityOptions) : Bool × Notes :=
  if base.1 then
    MonoPictureAsset.equalsFrames frame_buffer_equals a other opt
      a._intrinsic_duration.toNat 0 base.2
  else (false, base.2)

/-- The notes of the comparison of the frames `i`, ..., `i + n - 1`: for each frame the
progress note and then the notes of `frame_buffer_equals`. -/
def frameNotes
    (frame_buffer_equals : Nat → EqualityOptions → List Nat → List Nat → Bool × Notes)
    (a other : MonoPictureAsset) (opt : EqualityOptions) (i n : Nat) : Notes :=
  (List.range' i n).flatMap
    (fun j => progressNote a j :: (frame_buffer_equals j opt (a.j2k_data j) (other.j2k_data j)).2)

/-- Modelled from the spec: `frame_buffer_equals` of `PictureAsset` (its code is not among
the sources) compares the compressed byte buffers of a frame; byte-identical buffers are
equal. -/
def bytewiseEquals (_frame : Nat) (_opt : EqualityOptions) (data_A data_B : List Nat) :
    Bool × Notes :=
  (decide (data_A = data_B), [])

/-- A mono picture asset with `n` frames, all with the same bytes. -/
def flatPicture (n : Int) : MonoPictureAsset :=
  { _intrinsic_duration := n, j2k_data := fun _ => [255, 79, 255, 81] }

/-! ## `Certificate` (src/certificate.cc) -/

/-- A `std::string`, as its sequence of characters. -/
abbrev Str := List Char

/-- The line that opens a PEM certificate block. -/
def begin_certificate : Str := "-----BEGIN CERTIFICATE-----".toList

/-- The line that closes a PEM certificate block. -/
def end_certificate : Str := "-----END CERTIFICATE-----".toList

/-- A `MiscError` with its message. -/
structure MiscError where
  what : String
  deriving DecidableEq, Repr

/-- The characters removed by `boost::algorithm::trim`: those for which `std::isspace` holds
in the classic locale (space, tab, line feed, vertical tab, form feed, carriage return). -/
def isSpace (c : Char) : Bool :=
  c = ' ' || c = '\t' || c = '\n' || c = Char.ofNat 11 || c = Char.ofNat 12 || c = '\r'

/-- `boost::algorithm::trim`: the string without its leading and trailing white space. -/
def trim (s : Str) : Str :=
  ((s.dropWhile isSpace).reverse.dropWhile isSpace).reverse

/-- The loop that splits `cert` into lines (lines 107-122): every character is appended to
`line`; after a carriage return or line feed the line is trimmed and pushed to `lines`; a
non-empty last line is trimmed and pushed at the end.  The result is the list `lines`. -/
def readLines : Str → Str → List Str
  | [], line => if line ≠ [] then [trim line] else []
  | c :: rest, line =>
    if c = '\r' ∨ c = '\n' then trim (line ++ [c]) :: readLines rest []
    else readLines rest (line ++ [c])

/-- The loop that looks for the BEGIN line (lines 127-129): the lines from the first one that
equals `begin_certificate` on. -/
def skipToBegin : List Str → List Str
  | [] => []
  | l :: rest => if l ≠ begin_certificate then skipToBegin rest else l :: rest

/-- The loop that collects the base64 data (lines 139-148) and the step over the END line
(line 155): the lines up to the first one that equals `end_certificate` are appended to
`base64`; the result is `base64` and the lines after the END line, or `none` when `got_end`
stays false. -/
def readBase64 : List Str → Str → Option (Str × List Str)
  | [], _ => none
  | l :: rest, base64 =>
    if l = end_certificate then some (base64, rest) else readBase64 rest (base64 ++ l)

/-- The loop that re-wraps the base64 data (lines 160-164): while `base64` is not empty, its
first `t = min (64, length)` characters and a line feed are appended to `fixed` and removed
from `base64`. -/
def wrapLoop (fixed : Str) : Str → Str
  | [] => fixed
  | c :: cs =>
    wrapLoop (fixed ++ ((c :: cs).take (min 64 (c :: cs).length) ++ ['\n']))
      ((c :: cs).drop (min 64 (c :: cs).length))
termination_by base64 => base64.length
decreasing_by
  simp only [List.length_drop, List.length_cons]
  omega

/-- The loop that collects what follows the END line (lines 182-187). -/
def extraLoop : List Str → Str → Str
  | [], extra => extra
  | l :: rest, extra => extraLoop rest (if l ≠ [] then extra ++ (l ++ ['\n']) else extra)

/-- The first part of `Certificate::read_string` (lines 107-166): the text `fixed` that is
handed to the decoder, and the lines that follow the END line. -/
def Certificate.fixed (cert : Str) : Except MiscError (Str × List Str) :=
  match skipToBegin (readLines cert []) with
  | [] => .error ⟨"missing BEGIN line in certificate"⟩
  | _ :: i =>
    match readBase64 i [] with
    | none => .error ⟨"missing END line in certificate"⟩
    | some (base64, i2) =>
      .ok (wrapLoop (begin_certificate ++ ['\n']) base64 ++ end_certificate, i2)

/-- The members of `Certificate`: the parsed X.509 structure, null when there is none.  `X`
is the type of parsed certificates. -/
structure Certificate (X : Type) where
  _certificate : Option X

/-- `Certificate::read_string`, on the object `c`: the result and the object after the call.
`decode` is `PEM_read_bio_X509` applied to a memory buffer over `fixed.c_str ()`. -/
def Certificate.read_string {X : Type} (decode : Str → Option X) (c : Certificate X)
    (cert : Str) : Except MiscError Str × Certificate X :=
  match Certificate.fixed cert with
  | .error e => (.error e, c)
  | .ok (fixed, i) =>
    match decode fixed with
    | none =>
      (.error ⟨"could not read X509 certificate from memory BIO"⟩, { _certificate := none })
    | some x => (.ok (extraLoop i []), { _certificate := some x })

/-- `Certificate::Certificate (string cert)`: the object constructed, or the error thrown. -/
def Certificate.ofString {X : Type} (decode : Str → Option X) (cert : Str) :
    Except MiscError (Certificate X) :=
  match Certificate.read_string decode { _certificate := none } cert with
  | (.error e, _) => .error e
  | (.ok s, c) =>
    if s ≠ [] then .error ⟨"unexpected data after certificate"⟩ else .ok c

/-- `boost::replace_all`: every occurrence of `search` in the string, found from left to
right, is replaced by `format`; the search goes on behind the occurrence (the first character
and `search.length - 1` more are skipped). -/
def replaceAll (search format : Str) : Str → Str
  | [] => []
  | c :: cs =>
    if search ≠ [] ∧ search.isPrefixOf (c :: cs) = true then
      format ++ replaceAll search format (cs.drop (search.length - 1))
    else c :: replaceAll search format cs
termination_by s => s.length
decreasing_by
  · simp only [List.length_drop, List.length_cons]
    omega
  · simp

/-- `Certificate::certificate (with_begin_end)`; `none` when `DCP_ASSERT (_certificate)`
fails.  `encode` is the text `PEM_write_bio_X509` writes for a parsed certificate. -/
def Certificate.certificate {X : Type} (encode : X → Str) (c : Certificate X)
    (with_begin_end : Bool) : Option Str :=
  match c._certificate with
  | none => none
  | some x =>
    let s := encode x
    if !with_begin_end then
      some (replaceAll (['\n'] ++ end_certificate ++ ['\n']) []
        (replaceAll (begin_certificate ++ ['\n']) [] s))
    else some s

/-- The lines of at most 64 characters into which a base64 payload is cut: all of 64
characters, except that the last may be shorter. -/
def payloadLines : Str → List Str
  | [] => []
  | c :: cs => (c :: cs).take 64 :: payloadLines ((c :: cs).drop 64)
termination_by base64 => base64.length
decreasing_by
  simp only [List.length_drop, List.length_cons]
  omega

/-- A PEM certificate block with the given base64 payload, without a line feed after the END
line: the BEGIN line, the payload in lines of 64 characters, the END line. -/
def pemText (payload : Str) : Str :=
  begin_certificate ++ ['\n'] ++ (payloadLines payload).flatMap (fun l => l ++ ['\n'])
    ++ end_certificate

/-- A canonical PEM certificate block: `pemText` followed by a line feed. -/
def canonicalPEM (payload : Str) : Str :=
  pemText payload ++ ['\n']

/-- What `Certificate::read_string` returns for the lines that follow the END line: the
non-empty ones, each followed by a line feed. -/
def remainderText (post : List Str) : Str :=
  (post.filter (fun l => l ≠ [])).flatMap (fun l => l ++ ['\n'])

/-- A text without certificate. -/
def noCertificateText : Str := "no certificate here\r\n".toList

/-- A certificate block that is cut off before its END line. -/
def cutOffText : Str := "junk\n-----BEGIN CERTIFICATE-----\nQUJD\nREVG".toList

/-- A chain file: two certificate blocks in sequence, with CR LF line ends in the first and
with indented payload. -/
def chainText : Str :=
  ("-----BEGIN CERTIFICATE-----\r\n  QUJD\r\n  REVG\r\n-----END CERTIFICATE-----\r\n" ++
   "-----BEGIN CERTIFICATE-----\nR0hJ\n-----END CERTIFICATE-----\n").toList

/-- A decoder that accepts every text and gives the text itself as the certificate. -/
def acceptAll : Str → Option Str := fun fixed => some fixed

/-- The base64 payloads of two certificates, named by a boolean. -/
def samplePayload : Bool → Str := fun b => if b then "QUJD".toList else "REVG".toList

/-- An encoder for the two certificates: the canonical PEM block of the payload. -/
def sampleEncode : Bool → Str := fun b => canonicalPEM (samplePayload b)

/-- A decoder for the two certificates: it tells them apart by the letter Q. -/
def sampleDecode : Str → Option Bool := fun fixed => some (decide ('Q' ∈ fixed))

/-! ## Single-precision arithmetic (`float`) -/

/-- A value of the C++ type `float` (IEEE 754 binary32): a finite number, an infinity, or not
a number.  The sign of a zero is not recorded. -/
inductive Flt
  | finite (q : ℚ)
  | inf (negative : Bool)
  | nan
  deriving DecidableEq

/-- Rounding to the nearest integer, a tie going to the even one. -/
def roundHalfEven (m : ℚ) : Int :=
  if m - ⌊m⌋ < 1 / 2 then ⌊m⌋
  else if 1 / 2 < m - ⌊m⌋ then ⌊m⌋ + 1
  else if ⌊m⌋ % 2 = 0 then ⌊m⌋ else ⌊m⌋ + 1

/-- The binary exponent of the `float` format at `x`: the floor of the base 2 logarithm of
`|x|`, and -126 for the subnormal range. -/
def f32Exponent (x : ℚ) : Int := max (Int.log 2 |x|) (-126)

/-- The spacing of the `float` values at `x`: 24 significant bits. -/
def f32Ulp (x : ℚ) : ℚ := (2 : ℚ) ^ (f32Exponent x - 23)

/-- The multiple of the spacing nearest to `x`, a tie going to the even multiple. -/
def f32Nearest (x : ℚ) : ℚ := roundHalfEven (x / f32Ulp x) * f32Ulp x

/-- The `float` a real result is rounded to (round to nearest, ties to even): the nearest
value of the format, or an infinity when that is 2^128 or more in magnitude. -/
def round32 (x : ℚ) : Flt :=
  if (2 : ℚ) ^ 128 ≤ |f32Nearest x| then .inf (decide (x < 0)) else .finite (f32Nearest x)

/-- The rounding of the exact result of an operation to `float`. -/
def Flt.round : Flt → Flt
  | .finite q => round32 q
  | x => x

/-- The exact quotient of two `float` values, before rounding: a finite quotient for a
non-zero finite divisor, not a number for 0 / 0, an infinity for a non-zero dividend
over 0. -/
def Flt.div : Flt → Flt → Flt
  | .finite a, .finite b =>
    if b = 0 then (if a = 0 then .nan else .inf (decide (a < 0))) else .finite (a / b)
  | .finite _, .inf _ => .finite 0
  | .inf n, .finite b => .inf (n != decide (b < 0))
  | .inf _, .inf _ => .nan
  | .nan, _ => .nan
  | _, .nan => .nan

/-- The exact sum of two `float` values, before rounding. -/
def Flt.add : Flt → Flt → Flt
  | .finite a, .finite b => .finite (a + b)
  | .finite _, .inf n => .inf n
  | .inf n, .finite _ => .inf n
  | .inf n, .inf k => if n = k then .inf n else .nan
  | .nan, _ => .nan
  | _, .nan => .nan

/-- The exact product of two `float` values, before rounding. -/
def Flt.mul : Flt → Flt → Flt
  | .finite a, .finite b => .finite (a * b)
  | .finite a, .inf n => if a = 0 then .nan else .inf (n != decide (a < 0))
  | .inf n, .finite b => if b = 0 then .nan else .inf (n != decide (b < 0))
  | .inf n, .inf k => .inf (n != k)
  | .nan, _ => .nan
  | _, .nan => .nan

/-- The comparison `a > b` of `float` values; false when one of them is not a number. -/
def Flt.gt : Flt → Flt → Bool
  | .finite a, .finite b => decide (b < a)
  | .finite _, .inf n => n
  | .inf n, .finite _ => !n
  | .inf n, .inf k => !n && k
  | .nan, _ => false
  | _, .nan => false

/-- The function `fabs`. -/
def Flt.fabs : Flt → Flt
  | .finite q => .finite |q|
  | .inf _ => .inf false
  | .nan => .nan

/-! ## `ModifiedGammaTransferFunction` (src/modified_gamma_transfer_function.cc) -/

/-- The members of `ModifiedGammaTransferFunction`, which the constructor fills from its
four `float` arguments.  The members are finite values; the results of the operations on
them are rounded to `float`. -/
structure ModifiedGammaTransferFunction where
  _power : ℚ
  _threshold : ℚ
  _A : ℚ
  _B : ℚ
  deriving DecidableEq

/-- The concrete variants of `TransferFunction` behind a `shared_ptr<const TransferFunction>`:
a `ModifiedGammaTransferFunction`, or an object of another subclass. -/
inductive TransferFunction
  | ModifiedGamma (f : ModifiedGammaTransferFunction)
  | Other (subclass : Nat)
  deriving DecidableEq

/-- `dynamic_pointer_cast<const ModifiedGammaTransferFunction> (other)`: null unless the
object is a `ModifiedGammaTransferFunction`. -/
def dynamic_pointer_cast : TransferFunction → Option ModifiedGammaTransferFunction
  | .ModifiedGamma f => some f
  | .Other _ => none

/-- One test `fabs (a - b) < epsilon` of `about_equal`: the difference of the two `float`
members is a `float`, the rounded exact difference. -/
def fabsDifferenceBelow (a b epsilon : ℚ) : Bool :=
  Flt.gt (.finite epsilon) (Flt.fabs (round32 (a - b)))

/-- `ModifiedGammaTransferFunction::about_equal`:

```
if (!o) return false;
return fabs (_power - o->_power) < epsilon && fabs (_threshold - o->_threshold) < epsilon
    && fabs (_A - o->_A) < epsilon && fabs (_B - o->_B) < epsilon;
``` -/
def ModifiedGammaTransferFunction.about_equal (f : ModifiedGammaTransferFunction)
    (other : TransferFunction) (epsilon : ℚ) : Bool :=
  match dynamic_pointer_cast other with
  | none => false
  | some o =>
    fabsDifferenceBelow f._power o._power epsilon &&
    fabsDifferenceBelow f._threshold o._threshold epsilon &&
    fabsDifferenceBelow f._A o._A epsilon &&
    fabsDifferenceBelow f._B o._B epsilon

/-- The transfer function of sRGB: power 2.4, threshold 0.04045, A 0.055, B 12.92. -/
def srgb : ModifiedGammaTransferFunction :=
  { _power := 12 / 5, _threshold := 809 / 20000, _A := 11 / 200, _B := 323 / 25 }

/-- The transfer function of Rec. 709: power 1/0.45, threshold 0.081, A 0.099, B 4.5. -/
def rec709 : ModifiedGammaTransferFunction :=
  { _power := 20 / 9, _threshold := 81 / 1000, _A := 99 / 1000, _B := 9 / 2 }

/-- A transfer function with power 100000000, threshold 0, A 0, B 1. -/
def largePower : ModifiedGammaTransferFunction :=
  { _power := 100000000, _threshold := 0, _A := 0, _B := 1 }

/-- A transfer function with power 1, threshold 0, A 0, B 1. -/
def unitPower : ModifiedGammaTransferFunction :=
  { _power := 1, _threshold := 0, _A := 0, _B := 1 }

/-- A linear transfer function: power 1, threshold 1/2, A 0, B 1. -/
def halfThreshold : ModifiedGammaTransferFunction :=
  { _power := 1, _threshold := 1 / 2, _A := 0, _B := 1 }

/-- A transfer function whose threshold is 1049601 / 2^30, the `float` nearest to 1/1023. -/
def edgeThreshold : ModifiedGammaTransferFunction :=
  { _power := 1, _threshold := 1049601 / 1073741824, _A := 0, _B := 1 }

/-! ## `Time` (src/dcp_time.cc) -/

/-- The members of `Time`: hours, minutes, seconds and milliseconds, all `int`. -/
structure Time where
  h : Int
  m : Int
  s : Int
  ms : Int
  deriving DecidableEq, Repr

/-- The conversion `int (x)` of a floating-point value: truncation towards zero. -/
def truncToInt (x : ℚ) : Int :=
  if 0 ≤ x then ⌊x⌋ else ⌈x⌉

/-- Whether a value fits the 32-bit `int`. -/
def fitsInt (n : Int) : Bool := decide (-2147483648 ≤ n ∧ n ≤ 2147483647)

/-- `Time::Time (int frame, int frames_per_second)`.  `sec_float` is the `float` quotient of
the two arguments converted to `float`, and `sec_float * 1000` is a `float` product.  The
constructor has no initialiser list; members it does not assign are taken as 0.  It is
`none` where the behaviour is undefined: when `sec_float` is not finite
(`frames_per_second = 0`), or when a value converted to `int` does not fit.

```
float sec_float = float (frame) / frames_per_second;
ms = int (sec_float * 1000) % 1000;
s = floor (sec_float);
if (s > 60) { m = s / 60; s -= m * 60; }
if (m > 60) { h = m / 60; m -= h * 60; }
``` -/
def Time.ofFrame (frame frames_per_second : Int) : Option Time :=
  match Flt.round (Flt.div (round32 (frame : ℚ)) (round32 (frames_per_second : ℚ))) with
  | .finite sec_float =>
    match round32 (sec_float * 1000) with
    | .finite scaled =>
      if fitsInt (truncToInt scaled) && fitsInt ⌊sec_float⌋ then
        let ms := Int.tmod (truncToInt scaled) 1000
        let s : Int := ⌊sec_float⌋
        let m0 : Int := 0
        let h0 : Int := 0
        let m1 := if s > 60 then Int.tdiv s 60 else m0
        let s1 := if s > 60 then s - m1 * 60 else s
        let h1 := if m1 > 60 then Int.tdiv m1 60 else h0
        let m2 := if m1 > 60 then m1 - h1 * 60 else m1
        some { h := h1, m := m2, s := s1, ms := ms }
      else none
    | _ => none
  | _ => none

/-- `operator== (Time const &, Time const &)`. -/
def Time.eq (a b : Time) : Bool :=
  decide (a.h = b.h) && decide (a.m = b.m) && decide (a.s = b.s) && decide (a.ms = b.ms)

/-- `operator<= (Time const &, Time const &)`. -/
def Time.le (a b : Time) : Bool :=
  if a.h ≠ b.h then decide (a.h ≤ b.h)
  else if a.m ≠ b.m then decide (a.m ≤ b.m)
  else if a.s ≠ b.s then decide (a.s ≤ b.s)
  else if a.ms ≠ b.ms then decide (a.ms ≤ b.ms)
  else true

/-- A reel entry that carries both a mono-picture element (id `mono`, 100 frames) and a
stereoscopic-picture element (id `stereo`, 50 frames, frame rate twice the edit rate). -/
def bothPicturesReel : CPLReel :=
  ⟨⟨some (monoNode "mono" 24 100), some (doubleRateNode "stereo" 24 50), none, none⟩⟩

/-- A CPL file with `bothPicturesReel` as its only reel. -/
def bothPicturesFile : CPLFile :=
  { annotation_text := "title", content_kind := .FEATURE, reels := [bothPicturesReel] }

/-- The CPL parsed from `bothPicturesFile`. -/
def bothPicturesCPL : CPL AssetObj :=
  { _directory := "dcp", _name := "title", _content_kind := .FEATURE, _length := 100,
    _fps := 24,
    _reels := [⟨some (.StereoPictureAsset "dcp" "asset_mono" 24 0 100), none, none⟩],
    _uuid := "", _digest := "" }

/-! ## `StereoPictureMXF::equals` (src/stereo_picture_mxf.cc) -/

/-- The exceptions `StereoPictureMXF::equals` throws: from its own checks before the loop,
and from the constructor of `StereoPictureFrame` (src/stereo_picture_frame.cc 44-53) behind
`get_frame`. -/
inductive StereoError
  | MXFFileError
  | DCPReadError
  | FileError
  deriving DecidableEq, Repr

/-- The compressed bytes of the left and of the right eye of a `StereoPictureFrame`. -/
structure StereoPictureFrame where
  left_j2k_data : List Nat
  right_j2k_data : List Nat

/-- The members of `StereoPictureMXF` used by `equals`: the number of frames and, for every
frame index, the outcome of `get_frame`: the frame read from the file, or the exception of
the constructor of `StereoPictureFrame` (`FileError` when the file does not open,
`DCPReadError` when the frame cannot be read). -/
structure StereoPictureMXF where
  _intrinsic_duration : Int
  get_frame : Nat → Except StereoError StereoPictureFrame

/-- What `StereoPictureMXF::equals` obtains from its collaborators before the loop (lines
36-63): the outcome of `MXF::equals`, whether the two readers open and whether the two
picture descriptors can be read, and the outcome of `descriptor_equals`. -/
structure StereoChecks where
  base : Bool × Notes
  open_A : Bool
  open_B : Bool
  fill_A : Bool
  fill_B : Bool
  descriptor_equals : Bool × Notes

/-- The loop of `StereoPictureMXF::equals` (lines 68-87), with `n` rounds to go from frame
index `i`: the two frames are read, the left buffers are compared, then the right buffers;
the loop emits no note of its own.  An exception of `get_frame` ends the loop. -/
def StereoPictureMXF.equalsFrames
    (frame_buffer_equals : Nat → EqualityOptions → List Nat → List Nat → Bool × Notes)
    (a other : StereoPictureMXF) (opt : EqualityOptions) :
    Nat → Nat → Notes → Except StereoError (Bool × Notes)
  | 0, _, notes => .ok (true, notes)
  | n + 1, i, notes =>
    match a.get_frame i with
    | .error e => .error e
    | .ok frame_A =>
      match other.get_frame i with
      | .error e => .error e
      | .ok frame_B =>
        let l := frame_buffer_equals i opt frame_A.left_j2k_data frame_B.left_j2k_data
        if l.1 then
          let r := frame_buffer_equals i opt frame_A.right_j2k_data frame_B.right_j2k_data
          if r.1 then
            StereoPictureMXF.equalsFrames frame_buffer_equals a other opt n (i + 1)
              (notes ++ l.2 ++ r.2)
          else .ok (false, notes ++ l.2 ++ r.2)
        else .ok (false, notes ++ l.2)

/-- `StereoPictureMXF::equals`: the result and the notes emitted, or the exception thrown. -/
def StereoPictureMXF.equals (checks : StereoChecks)
    (frame_buffer_equals : Nat → EqualityOptions → List Nat → List Nat → Bool × Notes)
    (a other : StereoPictureMXF) (opt : EqualityOptions) : Except StereoError (Bool × Notes) :=
  if !checks.base.1 then .ok (false, checks.base.2)
  else if !checks.open_A then .error .MXFFileError
  else if !checks.open_B then .error .MXFFileError
  else if !checks.fill_A then .error .DCPReadError
  else if !checks.fill_B then .error .DCPReadError
  else if !checks.descriptor_equals.1 then
    .ok (false, checks.base.2 ++ checks.descriptor_equals.2)
  else
    StereoPictureMXF.equalsFrames frame_buffer_equals a other opt
      a._intrinsic_duration.toNat 0 (checks.base.2 ++ checks.descriptor_equals.2)

/-- A stereo picture MXF with `n` frames, all with the same bytes for both eyes; a frame
beyond the last cannot be read. -/
def flatStereo (n : Int) : StereoPictureMXF :=
  { _intrinsic_duration := n,
    get_frame := fun i =>
      if (i : Int) < n then .ok ⟨[255, 79, 255, 81], [255, 79, 255, 81]⟩
      else .error .DCPReadError }

/-- Collaborators that pass every check of `StereoPictureMXF::equals` without a note. -/
def passingChecks : StereoChecks :=
  { base := (true, []), open_A := true, open_B := true, fill_A := true, fill_B := true,
    descriptor_equals := (true, []) }

/-- The number of `PROGRESS` notes in a list of notes. -/
def progressCount (notes : Notes) : Nat :=
  notes.countP (fun n => decide (n.1 = NoteType.PROGRESS))

/-! ## `ModifiedGammaTransferFunction::make_lut` -/

/-- `int const bit_length = pow (2, bit_depth)`: the power of two converted to `int`; 0 for a
negative `bit_depth`, undefined (`none`) when the power does not fit the 32-bit `int`. -/
def bitLength (bit_depth : Int) : Option Int :=
  if bit_depth < 0 then some 0
  else if bit_depth < 31 then some (2 ^ bit_depth.toNat)
  else none

/-- `float const p = static_cast<float> (i) / (bit_length - 1)`: both operands are converted
to `float` and the quotient is rounded to `float`. -/
def lutInput (bit_length : Int) (i : Nat) : Flt :=
  Flt.round (Flt.div (round32 (i : ℚ)) (round32 ((bit_length - 1 : Int) : ℚ)))

/-- The body of the loop of `make_lut` (lines 43-48): the value stored in `lut[i]`.  Every
operation is one on `float` values; `pow` is the function of `<cmath>`.

```
if (p > _threshold) { lut[i] = pow ((p + _A) / (1 + _A), _power); }
else { lut[i] = p / _B; }
``` -/
def lutEntry (pow : Flt → Flt → Flt) (f : ModifiedGammaTransferFunction) (bit_length : Int)
    (i : Nat) : Flt :=
  let p := lutInput bit_length i
  if Flt.gt p (.finite f._threshold) then
    pow (Flt.round (Flt.div (Flt.round (Flt.add p (.finite f._A)))
          (Flt.round (Flt.add (round32 1) (.finite f._A)))))
      (.finite f._power)
  else Flt.round (Flt.div p (.finite f._B))

/-- `ModifiedGammaTransferFunction::make_lut`: the entries of the table. -/
def ModifiedGammaTransferFunction.make_lut (pow : Flt → Flt → Flt)
    (f : ModifiedGammaTransferFunction) (bit_depth : Int) : Option (List Flt) :=
  match bitLength bit_depth with
  | none => none
  | some bit_length =>
    some ((List.range bit_length.toNat).map (fun i => lutEntry pow f bit_length i))

/-- A stand-in for `pow` that returns its base. -/
def firstPower : Flt → Flt → Flt := fun x _ => x

/-! ## Writing a package (`CPL::write_xml`, `DCP::write_xml`, src/dcp.cc) -/

/-- The values of `Metadata::instance ()` written into the documents. -/
structure Metadata where
  issue_date : String
  issuer : String
  creator : String
  deriving DecidableEq, Repr

/-- The files of the file system: the contents of every path that exists. -/
abbrev FileSystem := String → Option String

/-- The file system after `contents` has been written to `path` and the stream closed. -/
def writeFile (fs : FileSystem) (path contents : String) : FileSystem :=
  fun q => if q = path then some contents else fs q

/-- `make_digest (path, 0)`: the digest of the bytes of the file; `sha1` maps the contents
to the digest string.  It is `none` when the file does not exist. -/
def make_digest (sha1 : String → String) (fs : FileSystem) (path : String) : Option String :=
  (fs path).map sha1

/-- `boost::filesystem::file_size (path)`: the number of bytes of the file; `none` when the
file does not exist. -/
def file_size (fs : FileSystem) (path : String) : Option Nat :=
  (fs path).map String.utf8ByteSize

/-- The path built by `p /= directory; p /= name`. -/
def pathAppend (directory name : String) : String :=
  if directory = "" then name
  else if directory.back = '/' then directory ++ name
  else directory ++ "/" ++ name

/-- The path of the file `CPL::write_xml` writes: `_directory / (_uuid + "_cpl.xml")`. -/
def CPL.path {α : Type} (c : CPL α) : String :=
  pathAppend c._directory (c._uuid ++ "_cpl.xml")

/-- The text `CPL::write_xml` writes to its stream (lines 434-456).  `content_kind_to_string`
is the function of util.h, `reel_to_cpl` is the text `Reel::write_to_cpl` writes. -/
def CPL.xml {α : Type} (md : Metadata) (content_kind_to_string : ContentKind → String)
    (reel_to_cpl : Reel α → String) (c : CPL α) : String :=
  "<?xml version=\"1.0\" encoding=\"UTF-8\"?>\n"
  ++ "<CompositionPlaylist xmlns=\"http://www.smpte-ra.org/schemas/429-7/2006/CPL\">\n"
  ++ "  <Id>urn:uuid:" ++ c._uuid ++ "</Id>\n"
  ++ "  <AnnotationText>" ++ c._name ++ "</AnnotationText>\n"
  ++ "  <IssueDate>" ++ md.issue_date ++ "</IssueDate>\n"
  ++ "  <Creator>" ++ md.creator ++ "</Creator>\n"
  ++ "  <ContentTitleText>" ++ c._name ++ "</ContentTitleText>\n"
  ++ "  <ContentKind>" ++ content_kind_to_string c._content_kind ++ "</ContentKind>\n"
  ++ "  <ContentVersion>\n"
  ++ "    <Id>urn:uri:" ++ c._uuid ++ "_" ++ md.issue_date ++ "</Id>\n"
  ++ "    <LabelText>" ++ c._uuid ++ "_" ++ md.issue_date ++ "</LabelText>\n"
  ++ "  </ContentVersion>\n"
  ++ "  <RatingList/>\n"
  ++ "  <ReelList>\n"
  ++ String.join (c._reels.map reel_to_cpl)
  ++ "      </AssetList>\n"
  ++ "    </Reel>\n"
  ++ "  </ReelList>\n"
  ++ "</CompositionPlaylist>\n"

/-- `CPL::write_xml`: the document is written to `CPL.path`, then the mutable members
`_digest` and `_length` are assigned from the file just written (lines 460-461).  The result
is the file system and the CPL after the call; `none` stands for the exception of
`make_digest` or `file_size` on a missing file. -/
def CPL.write_xml {α : Type} (md : Metadata) (content_kind_to_string : ContentKind → String)
    (reel_to_cpl : Reel α → String) (sha1 : String → String) (fs : FileSystem) (c : CPL α) :
    Option (FileSystem × CPL α) :=
  let fs1 := writeFile fs c.path (CPL.xml md content_kind_to_string reel_to_cpl c)
  match make_digest sha1 fs1 c.path, file_size fs1 c.path with
  | some digest, some size => some (fs1, { c with _digest := digest, _length := (size : Int) })
  | _, _ => none

/-- `CPL::write_to_pkl`: the `Asset` entry of the CPL in the packing list. -/
def CPL.write_to_pkl {α : Type} (c : CPL α) : String :=
  "    <Asset>\n"
  ++ "      <Id>urn:uuid:" ++ c._uuid ++ "</Id>\n"
  ++ "      <Hash>" ++ c._digest ++ "</Hash>\n"
  ++ "      <Size>" ++ toString c._length ++ "</Size>\n"
  ++ "      <Type>text/xml</Type>\n"
  ++ "    </Asset>\n"

/-- `CPL::write_to_assetmap`. -/
def CPL.write_to_assetmap {α : Type} (c : CPL α) : String :=
  "    <Asset>\n"
  ++ "      <Id>urn:uuid:" ++ c._uuid ++ "</Id>\n"
  ++ "      <ChunkList>\n"
  ++ "        <Chunk>\n"
  ++ "          <Path>" ++ c._uuid ++ "_cpl.xml</Path>\n"
  ++ "          <VolumeIndex>1</VolumeIndex>\n"
  ++ "          <Offset>0</Offset>\n"
  ++ "          <Length>" ++ toString c._length ++ "</Length>\n"
  ++ "        </Chunk>\n"
  ++ "      </ChunkList>\n"
  ++ "    </Asset>\n"

/-- The first loop of `DCP::write_xml` (lines 57-59): `write_xml` of every CPL, in order. -/
def DCP.writeCPLs {α : Type} (md : Metadata) (content_kind_to_string : ContentKind → String)
    (reel_to_cpl : Reel α → String) (sha1 : String → String) :
    FileSystem → List (CPL α) → Option (FileSystem × List (CPL α))
  | fs, [] => some (fs, [])
  | fs, c :: rest =>
    match CPL.write_xml md content_kind_to_string reel_to_cpl sha1 fs c with
    | none => none
    | some (fs1, c1) =>
      match DCP.writeCPLs md content_kind_to_string reel_to_cpl sha1 fs1 rest with
      | none => none
      | some (fs2, rest1) => some (fs2, c1 :: rest1)

/-- The text `DCP::write_pkl` writes (lines 80-100); `none` when `assert (!_cpls.empty ())`
fails.  `asset_to_pkl` is the text `Asset::write_to_pkl` writes for an asset object. -/
def DCP.pklText (md : Metadata) (asset_to_pkl : AssetPtr → String) (d : DCP AssetPtr)
    (pkl_uuid : String) : Option String :=
  match d._cpls with
  | [] => none
  | front :: _ =>
    some ("<?xml version=\"1.0\" encoding=\"UTF-8\"?>\n"
      ++ "<PackingList xmlns=\"http://www.smpte-ra.org/schemas/429-8/2007/PKL\">\n"
      ++ "  <Id>urn:uuid:" ++ pkl_uuid ++ "</Id>\n"
      ++ "  <AnnotationText>" ++ front._name ++ "</AnnotationText>\n"
      ++ "  <IssueDate>" ++ md.issue_date ++ "</IssueDate>\n"
      ++ "  <Issuer>" ++ md.issuer ++ "</Issuer>\n"
      ++ "  <Creator>" ++ md.creator ++ "</Creator>\n"
      ++ "  <AssetList>\n"
      ++ String.join (d.assets.map asset_to_pkl)
      ++ String.join (d._cpls.map CPL.write_to_pkl)
      ++ "  </AssetList>\n"
      ++ "</PackingList>\n")

/-- The path of the packing list: `_directory / (pkl_uuid + "_pkl.xml")`. -/
def DCP.pklPath {α : Type} (d : DCP α) (pkl_uuid : String) : String :=
  pathAppend d._directory (pkl_uuid ++ "_pkl.xml")

/-- The text `DCP::write_volindex` writes. -/
def volindexText : String :=
  "<?xml version=\"1.0\" encoding=\"UTF-8\"?>\n"
  ++ "<VolumeIndex xmlns=\"http://www.smpte-ra.org/schemas/429-9/2007/AM\">\n"
  ++ "  <Index>1</Index>\n"
  ++ "</VolumeIndex>\n"

/-- The text `DCP::write_assetmap` writes (lines 127-159).  `asset_to_assetmap` is the text
`Asset::write_to_assetmap` writes for an asset object. -/
def DCP.assetmapText (md : Metadata) (asset_to_assetmap : AssetPtr → String)
    (d : DCP AssetPtr) (assetmap_uuid pkl_uuid : String) (pkl_length : Int) : String :=
  "<?xml version=\"1.0\" encoding=\"UTF-8\"?>\n"
  ++ "<AssetMap xmlns=\"http://www.smpte-ra.org/schemas/429-9/2007/AM\">\n"
  ++ "  <Id>urn:uuid:" ++ assetmap_uuid ++ "</Id>\n"
  ++ "  <Creator>" ++ md.creator ++ "</Creator>\n"
  ++ "  <VolumeCount>1</VolumeCount>\n"
  ++ "  <IssueDate>" ++ md.issue_date ++ "</IssueDate>\n"
  ++ "  <Issuer>" ++ md.issuer ++ "</Issuer>\n"
  ++ "  <AssetList>\n"
  ++ "    <Asset>\n"
  ++ "      <Id>urn:uuid:" ++ pkl_uuid ++ "</Id>\n"
  ++ "      <PackingList>true</PackingList>\n"
  ++ "      <ChunkList>\n"
  ++ "        <Chunk>\n"
  ++ "          <Path>" ++ pkl_uuid ++ "_pkl.xml</Path>\n"
  ++ "          <VolumeIndex>1</VolumeIndex>\n"
  ++ "          <Offset>0</Offset>\n"
  ++ "          <Length>" ++ toString pkl_length ++ "</Length>\n"
  ++ "        </Chunk>\n"
  ++ "      </ChunkList>\n"
  ++ "    </Asset>\n"
  ++ String.join (d._cpls.map CPL.write_to_assetmap)
  ++ String.join (d.assets.map asset_to_assetmap)
  ++ "  </AssetList>\n"
  ++ "</AssetMap>\n"

/-- The collaborators of `DCP::write_xml`: the metadata, the texts written by code outside
the sources, the digest function and the two identifiers `make_uuid ()` returns. -/
structure WriteEnv where
  md : Metadata
  content_kind_to_string : ContentKind → String
  reel_to_cpl : Reel AssetPtr → String
  asset_to_pkl : AssetPtr → String
  asset_to_assetmap : AssetPtr → String
  sha1 : String → String
  pkl_uuid : String
  assetmap_uuid : String

/-- `DCP::write_xml`: every CPL is written, then the packing list, the volume index and the
asset map.  The result is the file system and the DCP after the call. -/
def DCP.write_xml (env : WriteEnv) (fs : FileSystem) (d : DCP AssetPtr) :
    Option (FileSystem × DCP AssetPtr) :=
  match DCP.writeCPLs env.md env.content_kind_to_string env.reel_to_cpl env.sha1 fs d._cpls with
  | none => none
  | some (fs1, cpls1) =>
    let d1 : DCP AssetPtr := { d with _cpls := cpls1 }
    match DCP.pklText env.md env.asset_to_pkl d1 env.pkl_uuid with
    | none => none
    | some pkl =>
      let fs2 := writeFile fs1 (DCP.pklPath d1 env.pkl_uuid) pkl
      let fs3 := writeFile fs2 (pathAppend d1._directory "VOLINDEX.xml") volindexText
      match file_size fs3 (DCP.pklPath d1 env.pkl_uuid) with
      | none => none
      | some pkl_length =>
        some (writeFile fs3 (pathAppend d1._directory "ASSETMAP.xml")
                (DCP.assetmapText env.md env.asset_to_assetmap d1 env.assetmap_uuid env.pkl_uuid
                  (pkl_length : Int)),
              d1)

/-- The CPL as `CPL::write_xml` leaves it: `_digest` and `_length` are those of the document
written. -/
def CPL.written {α : Type} (md : Metadata) (content_kind_to_string : ContentKind → String)
    (reel_to_cpl : Reel α → String) (sha1 : String → String) (c : CPL α) : CPL α :=
  { c with
    _digest := sha1 (CPL.xml md content_kind_to_string reel_to_cpl c)
    _length := ((CPL.xml md content_kind_to_string reel_to_cpl c).utf8ByteSize : Int) }

/-- The DCP as `DCP::write_xml` leaves it: every CPL as its `write_xml` leaves it. -/
def DCP.written (env : WriteEnv) (d : DCP AssetPtr) : DCP AssetPtr :=
  { d with
    _cpls :=
      d._cpls.map (CPL.written env.md env.content_kind_to_string env.reel_to_cpl env.sha1) }

/-- Sample metadata. -/
def sampleMetadata : Metadata :=
  { issue_date := "2014-01-01T00:00:00+00:00", issuer := "libdcp", creator := "libdcp" }

/-- Sample collaborators for writing: every asset and reel text is empty, the digest of a
text is its length in characters. -/
def sampleWriteEnv : WriteEnv :=
  { md := sampleMetadata, content_kind_to_string := fun _ => "feature",
    reel_to_cpl := fun _ => "", asset_to_pkl := fun _ => "", asset_to_assetmap := fun _ => "",
    sha1 := fun text => toString text.length, pkl_uuid := "pkl", assetmap_uuid := "am" }

/-- A CPL composed with the first constructor: 24 frames at 24 frames per second, no reel
added yet. -/
def composedCPL : CPL AssetPtr :=
  { _directory := "dcp", _name := "title", _content_kind := .FEATURE, _length := 24,
    _fps := 24, _reels := [], _uuid := "cpl", _digest := "" }

/-! ## Reading a package (`DCP::read`, src/dcp.cc) -/

/-- A chunk of an asset map entry: its path. -/
structure Chunk where
  path : String
  deriving DecidableEq, Repr

/-- An entry of the asset map (`AssetMapAsset`): its id and its chunks. -/
structure AssetMapAsset where
  id : String
  chunks : List Chunk
  deriving DecidableEq, Repr

/-- The exceptions `DCP::read` ends with; `CPLError` is an exception of the parsing
constructor of `CPL`. -/
inductive ReadError
  | DCPReadError (message : String)
  | FileError (message : String) (file : String)
  | XMLError (message : String)
  | CPLError (e : ParseError)
  deriving DecidableEq, Repr

/-- The lists `DCP::read` collects in its local `Files`. -/
structure Files where
  cpls : List String
  pkl : String
  subtitles : List String
  deriving DecidableEq, Repr

/-- What `DCP::read` obtains from the file system and its collaborators: whether a path
exists, the entries of an asset map file (`none` when loading throws `FileError`), the name
of the root element of an XML file (`none` when parsing throws), whether a packing list
loads, the CPL file read from a path (`none` when loading throws `FileError`), the path the
asset map gives for an id, and the MXF containers. -/
structure ReadEnv where
  file_exists : String → Bool
  load_asset_map : String → Option (List AssetMapAsset)
  xml_root : String → Option String
  load_pkl : String → Bool
  load_cpl : String → Option CPLFile
  asset_from_id : List AssetMapAsset → String → String
  ess : Essence

/-- `ends_with (big, little)` of util.h. -/
def ends_with (big little : String) : Bool :=
  little.data.isSuffixOf big.data

/-- The first part of `DCP::read` (lines 168-186): the asset map is loaded from `ASSETMAP`
or, when that does not exist, from `ASSETMAP.xml`. -/
def DCP.loadAssetMap (env : ReadEnv) (directory : String) :
    Except ReadError (List AssetMapAsset) :=
  if env.file_exists (pathAppend directory "ASSETMAP") then
    match env.load_asset_map (pathAppend directory "ASSETMAP") with
    | some assets => .ok assets
    | none => .error (.FileError "could not load AssetMap file" "")
  else if env.file_exists (pathAppend directory "ASSETMAP.xml") then
    match env.load_asset_map (pathAppend directory "ASSETMAP.xml") with
    | some assets => .ok assets
    | none => .error (.FileError "could not load AssetMap file" "")
  else .error (.DCPReadError "could not find AssetMap file")

/-- The loop over the entries of the asset map (lines 188-222). -/
def DCP.classify (env : ReadEnv) (directory : String) :
    List AssetMapAsset → Files → Except ReadError Files
  | [], files => .ok files
  | a :: rest, files =>
    if a.chunks.length ≠ 1 then .error (.XMLError "unsupported asset chunk count")
    else
      match a.chunks.head? with
      | none => .error (.XMLError "unsupported asset chunk count")
      | some chunk =>
        let t := pathAppend directory chunk.path
        if ends_with t ".mxf" || ends_with t ".ttf" then DCP.classify env directory rest files
        else
          match env.xml_root t with
          | none => DCP.classify env directory rest files
          | some root =>
            if root = "CompositionPlaylist" then
              DCP.classify env directory rest { files with cpls := files.cpls ++ [t] }
            else if root = "PackingList" then
              if files.pkl = "" then DCP.classify env directory rest { files with pkl := t }
              else .error (.DCPReadError "duplicate PKLs found")
            else if root = "DCSubtitle" then
              DCP.classify env directory rest { files with subtitles := files.subtitles ++ [t] }
            else DCP.classify env directory rest files

/-- The last loop of `DCP::read` (lines 242-244): a CPL is constructed from every CPL file
and pushed to the back of `_cpls`; an exception of the constructor ends the loop and leaves
the CPLs pushed so far. -/
def DCP.readCPLs (env : ReadEnv) (assets : List AssetMapAsset) (require_mxfs : Bool) :
    List String → DCP AssetObj → Except ReadError Unit × DCP AssetObj
  | [], d => (.ok (), d)
  | file :: rest, d =>
    match env.load_cpl file with
    | none => (.error (.FileError "could not load CPL file" file), d)
    | some cpl =>
      match CPL.parse d._directory cpl (env.asset_from_id assets) env.ess require_mxfs with
      | .error e => (.error (.CPLError e), d)
      | .ok c =>
        DCP.readCPLs env assets require_mxfs rest { d with _cpls := d._cpls ++ [c] }

/-- `DCP::read`: the outcome and the DCP after the call. -/
def DCP.read (env : ReadEnv) (require_mxfs : Bool) (d : DCP AssetObj) :
    Except ReadError Unit × DCP AssetObj :=
  match DCP.loadAssetMap env d._directory with
  | .error e => (.error e, d)
  | .ok assets =>
    match DCP.classify env d._directory assets ⟨[], "", []⟩ with
    | .error e => (.error e, d)
    | .ok files =>
      if files.cpls = [] then (.error (.FileError "no CPL files found" ""), d)
      else if files.pkl = "" then (.error (.FileError "no PKL file found" ""), d)
      else if !env.load_pkl files.pkl then
        (.error (.FileError "could not load PKL file" files.pkl), d)
      else DCP.readCPLs env assets require_mxfs files.cpls d

/-- The files `DCP::read` classifies: the paths of the entries with one chunk that do not
end in `.mxf` or `.ttf`, in asset map order. -/
def classifiedFiles (directory : String) (assets : List AssetMapAsset) : List String :=
  assets.filterMap (fun a =>
    match a.chunks with
    | [chunk] =>
      let t := pathAppend directory chunk.path
      if ends_with t ".mxf" || ends_with t ".ttf" then none else some t
    | _ => none)

/-- The classified files whose XML root element has the given name. -/
def filesWithRoot (env : ReadEnv) (root : String) (files : List String) : List String :=
  files.filter (fun t => decide (env.xml_root t = some root))

/-- An asset map that lists a CPL, a packing list and a picture MXF. -/
def sampleAssets : List AssetMapAsset :=
  [⟨"cpl", [⟨"cpl.xml"⟩]⟩, ⟨"pkl", [⟨"pkl.xml"⟩]⟩, ⟨"p1", [⟨"picture.mxf"⟩]⟩]

/-- An asset map whose picture entry has two chunks. -/
def twoChunkAssets : List AssetMapAsset :=
  [⟨"cpl", [⟨"cpl.xml"⟩]⟩, ⟨"pkl", [⟨"pkl.xml"⟩]⟩,
   ⟨"p1", [⟨"picture.mxf"⟩, ⟨"picture2.mxf"⟩]⟩]

/-- A package directory `dcp` with the given asset map, in which `cpl.xml` is a CPL with the
reels of `threeReelFile`, `pkl.xml` is a packing list and every MXF opens. -/
def sampleReadEnv (assets : List AssetMapAsset) : ReadEnv :=
  { file_exists := fun _ => true,
    load_asset_map := fun _ => some assets,
    xml_root := fun t =>
      if t = "dcp/cpl.xml" then some "CompositionPlaylist"
      else if t = "dcp/pkl.xml" then some "PackingList" else none,
    load_pkl := fun _ => true,
    load_cpl := fun _ => some threeReelFile,
    asset_from_id := fun _ => idMap,
    ess := allOpen }

/-- A DCP on the directory `dcp` that owns no CPL yet. -/
def unreadDCP : DCP AssetObj := { _directory := "dcp", _cpls := [] }

/-! ## Theorems -/

/-- C1 (code defect): the test on the cache in `Asset::hash` is inverted.  With an empty
cache nothing is computed: the empty string is returned and the cache stays empty, whatever
the digest of the file; with a non-empty cache the digest is recomputed and overwrites the
cache.  So `hash()` of the never-digested asset `freshAsset` is the empty string, not the
digest of its file. -/
theorem C1_hash_inverted_cache_test :
    (∀ (make_digest : String → String) (a : Asset),
        Asset.hash make_digest a
          = if a._hash = "" then ("", a)
            else (make_digest a._file, { a with _hash := make_digest a._file })) ∧
    Asset.hash emptyFileDigest freshAsset = ("", freshAsset) ∧
    (Asset.hash emptyFileDigest freshAsset).1 ≠ emptyFileDigest freshAsset._file := by
  refine ⟨?_, ?_, ?_⟩
  · intro md a
    by_cases h : a._hash = "" <;> simp [Asset.hash, h]
  · decide
  · decide

/-- C2 as stated fails: `cachedA` and `cachedB` compare equal although the digests of their
files differ, and although `hash ()` gives different values for them. -/
theorem C2_equals_not_file_digest_equality :
    ¬ (∀ (make_digest : String → String) (a b : Asset) (opt : EqualityOptions),
        ((Asset.equals a b opt).1 = true ↔ make_digest a._file = make_digest b._file)) ∧
    ¬ (∀ (make_digest : String → String) (a b : Asset) (opt : EqualityOptions),
        ((Asset.equals a b opt).1 = true ↔
          (Asset.hash make_digest a).1 = (Asset.hash make_digest b).1)) := by
  constructor
  · intro h
    have h1 := (h nameDigest cachedA cachedB ⟨0⟩).mp (by decide)
    exact absurd h1 (by decide)
  · intro h
    have h1 := (h nameDigest cachedA cachedB ⟨0⟩).mp (by decide)
    exact absurd h1 (by decide)

/-- C2 (amended): `Asset::equals` compares the cached digest strings `_hash` of the two
assets as they stand, without computing a digest: it returns true with no note exactly when
they are equal, and otherwise returns false after emitting exactly one `ERROR` note.  The
options do not enter the result. -/
theorem C2_equals_compares_cached_digests (a b : Asset) (opt opt2 : EqualityOptions) :
    Asset.equals a b opt
      = (if a._hash = b._hash then (true, [])
         else (false, [(NoteType.ERROR, "Asset hashes differ")])) ∧
    ((Asset.equals a b opt).1 = true ↔ a._hash = b._hash) ∧
    Asset.equals a b opt = Asset.equals a b opt2 := by
  by_cases h : a._hash = b._hash <;> simp [Asset.equals, h]

/-! ### The list operations -/

theorem listMerge_perm {α : Type} [LT α] [DecidableRel (fun a b : α => a < b)] :
    ∀ (xs ys : List α), (listMerge xs ys).Perm (xs ++ ys) := by
  intro xs
  induction xs with
  | nil => intro ys; simp [listMerge]
  | cons x xs ihx =>
    intro ys
    induction ys with
    | nil => simp [listMerge]
    | cons y ys ihy =>
      rw [listMerge]
      split
      · have h1 : (y :: listMerge (x :: xs) ys).Perm (y :: (x :: xs ++ ys)) := ihy.cons y
        have h2 : (y :: (x :: xs ++ ys)).Perm (x :: xs ++ y :: ys) :=
          List.perm_middle.symm
        exact h1.trans h2
      · exact (ihx (y :: ys)).cons x

theorem mem_listMerge {α : Type} [LT α] [DecidableRel (fun a b : α => a < b)]
    (xs ys : List α) (z : α) : z ∈ listMerge xs ys ↔ z ∈ xs ∨ z ∈ ys := by
  rw [(listMerge_perm xs ys).mem_iff, List.mem_append]

theorem listSort_perm (l : List Nat) : (listSort l).Perm l :=
  List.perm_insertionSort _ l

theorem listSort_sorted (l : List Nat) : (listSort l).Sorted (fun a b => a ≤ b) := by
  haveI : IsTotal Nat (fun a b => ¬ b < a) := ⟨fun a b => by omega⟩
  haveI : IsTrans Nat (fun a b => ¬ b < a) := ⟨fun a b c h1 h2 => by omega⟩
  have h := List.sorted_insertionSort (fun a b : Nat => ¬ b < a) l
  exact List.Pairwise.imp (fun {a b} hab => Nat.le_of_not_lt hab) h

theorem listSort_eq_self (l : List Nat) (h : l.Sorted (fun a b => a < b)) :
    listSort l = l := by
  apply List.Sorted.insertionSort_eq
  exact List.Pairwise.imp (fun {a b} (hab : a < b) => by omega) h

theorem mem_listUniqueFrom {α : Type} [DecidableEq α] (z : α) :
    ∀ (l : List α) (first : α),
      z ∈ first :: listUniqueFrom first l ↔ z ∈ first :: l := by
  intro l
  induction l with
  | nil => intro first; simp [listUniqueFrom]
  | cons y rest ih =>
    intro first
    by_cases h : first = y
    · subst h
      rw [listUniqueFrom, if_pos rfl, ih]
      simp
    · rw [listUniqueFrom, if_neg h, List.mem_cons, ih]
      simp

theorem mem_listUnique {α : Type} [DecidableEq α] (z : α) (l : List α) :
    z ∈ listUnique l ↔ z ∈ l := by
  cases l with
  | nil => simp [listUnique]
  | cons x rest => rw [listUnique, mem_listUniqueFrom]

theorem listUniqueFrom_sorted :
    ∀ (l : List Nat) (first : Nat), (first :: l).Sorted (fun a b => a ≤ b) →
      (first :: listUniqueFrom first l).Sorted (fun a b => a < b) := by
  intro l
  induction l with
  | nil => intro first _; simp [listUniqueFrom]
  | cons y rest ih =>
    intro first h
    have hx := (List.sorted_cons.mp h).1
    have hrest := (List.sorted_cons.mp h).2
    by_cases hxy : first = y
    · subst hxy
      rw [listUniqueFrom, if_pos rfl]
      exact ih first hrest
    · rw [listUniqueFrom, if_neg hxy]
      apply List.sorted_cons.mpr
      refine ⟨?_, ih y hrest⟩
      intro z hz
      rw [mem_listUniqueFrom] at hz
      have h1 : first ≤ y := hx y (List.mem_cons_self _ _)
      have h2 : y ≤ z := by
        rcases List.mem_cons.mp hz with rfl | hz2
        · exact Nat.le_refl _
        · exact (List.sorted_cons.mp hrest).1 z hz2
      omega

theorem listUnique_sorted (l : List Nat) (h : l.Sorted (fun a b => a ≤ b)) :
    (listUnique l).Sorted (fun a b => a < b) := by
  cases l with
  | nil => simp [listUnique]
  | cons x rest => exact listUniqueFrom_sorted rest x h

theorem listUniqueFrom_eq_self :
    ∀ (l : List Nat) (first : Nat), (first :: l).Sorted (fun a b => a < b) →
      listUniqueFrom first l = l := by
  intro l
  induction l with
  | nil => intro first _; rfl
  | cons y rest ih =>
    intro first h
    have h1 : first < y := (List.sorted_cons.mp h).1 y (List.mem_cons_self _ _)
    have hxy : first ≠ y := by omega
    rw [listUniqueFrom, if_neg hxy, ih y (List.sorted_cons.mp h).2]

theorem listUnique_eq_self (l : List Nat) (h : l.Sorted (fun a b => a < b)) :
    listUnique l = l := by
  cases l with
  | nil => rfl
  | cons x rest => rw [listUnique, listUniqueFrom_eq_self rest x h]

/-! ### `CPL::assets` and `DCP::assets` -/

theorem mem_assetsStep {α : Type} (a : List α) (r : Reel α) (x : α) :
    x ∈ CPL.assetsStep a r ↔
      x ∈ a ∨ r.main_picture = some x ∨ r.main_sound = some x ∨ r.main_subtitle = some x := by
  rcases r with ⟨p, s, t⟩
  cases p <;> cases s <;> cases t <;> simp [CPL.assetsStep, eq_comm, or_assoc]

theorem mem_foldl_assetsStep {α : Type} (x : α) :
    ∀ (rs : List (Reel α)) (a : List α),
      x ∈ rs.foldl CPL.assetsStep a ↔
        x ∈ a ∨ ∃ r ∈ rs,
          r.main_picture = some x ∨ r.main_sound = some x ∨ r.main_subtitle = some x := by
  intro rs
  induction rs with
  | nil => intro a; simp
  | cons r rs ih =>
    intro a
    rw [List.foldl_cons, ih, mem_assetsStep]
    simp only [List.mem_cons, exists_eq_or_imp, or_assoc]

theorem mem_CPL_assets {α : Type} (c : CPL α) (x : α) :
    x ∈ c.assets ↔ ∃ r ∈ c._reels,
      r.main_picture = some x ∨ r.main_sound = some x ∨ r.main_subtitle = some x := by
  simp [CPL.assets, mem_foldl_assetsStep]

theorem mem_foldl_listMerge (x : AssetPtr) :
    ∀ (cs : List (CPL AssetPtr)) (a : List AssetPtr),
      x ∈ cs.foldl (fun a c => listMerge a c.assets) a ↔ x ∈ a ∨ ∃ c ∈ cs, x ∈ c.assets := by
  intro cs
  induction cs with
  | nil => intro a; simp
  | cons c cs ih =>
    intro a
    rw [List.foldl_cons, ih, mem_listMerge]
    simp only [List.mem_cons, exists_eq_or_imp, or_assoc]

theorem mem_DCP_assets (d : DCP AssetPtr) (x : AssetPtr) :
    x ∈ d.assets ↔ d.references x := by
  unfold DCP.assets DCP.references
  rw [mem_listUnique, (listSort_perm _).mem_iff, mem_foldl_listMerge]
  simp [mem_CPL_assets]

theorem DCP_assets_sorted (d : DCP AssetPtr) : d.assets.Sorted (fun a b => a < b) :=
  listUnique_sorted _ (listSort_sorted _)

/-- C3 (code defect): `DCP::assets` calls `sort ()` without `AssetComparator`, so the list
is ordered by the addresses of the asset objects, not by their UUIDs.  For `swappedDCP`, whose
object at the lower address has the greater UUID, the result lists the UUIDs `"b"`, `"a"`:
two consecutive entries in descending UUID order, which `AssetComparator` would have put the
other way round. -/
theorem C3_assets_ordered_by_address_not_uuid :
    DCP.assets swappedDCP = [1, 2] ∧
    (DCP.assets swappedDCP).map swappedUuid = ["b", "a"] ∧
    ¬ ((DCP.assets swappedDCP).map swappedUuid).Chain' (fun x y => x ≤ y) ∧
    AssetComparator swappedUuid 2 1 = true ∧
    (∀ d : DCP AssetPtr, (DCP.assets d).Chain' (fun x y => x < y)) := by
  have h : DCP.assets swappedDCP = [1, 2] := by
    simp [DCP.assets, swappedDCP, cplOf, CPL.assets, CPL.assetsStep, listMerge, listSort,
      listUnique, listUniqueFrom]
  refine ⟨h, ?_, ?_, ?_, ?_⟩
  · rw [h]; decide
  · rw [h]; simp [swappedUuid]; decide
  · simp [AssetComparator, swappedUuid]; decide
  · intro d
    exact List.Pairwise.chain' (DCP_assets_sorted d)

/-- C4 as stated fails: the two pictures of `twinDCP` are distinct objects with the same
UUID, and both are entries of `DCP::assets`. -/
theorem C4_same_uuid_listed_twice :
    ¬ (∀ (uuid : AssetPtr → String) (d : DCP AssetPtr),
        (∀ x, x ∈ d.assets ↔ d.references x) ∧ ((d.assets).map uuid).Nodup) := by
  intro h
  have h1 := (h twinUuid twinDCP).2
  have h2 : DCP.assets twinDCP = [1, 2] := by
    simp [DCP.assets, twinDCP, cplOf, CPL.assets, CPL.assetsStep, listMerge, listSort,
      listUnique, listUniqueFrom]
  rw [h2] at h1
  exact absurd h1 (by decide)

/-- C4 (amended): `DCP::assets` enumerates the union of the reels' assets without repeating
an asset object: an asset object occurs in the result if and only if it is the non-null
picture, sound or subtitle of some reel of some owned CPL, and no asset object occurs twice
(an object referenced by several reels or CPLs appears once). -/
theorem C4_assets_enumerates_objects_once (d : DCP AssetPtr) :
    (∀ x, x ∈ d.assets ↔ d.references x) ∧ (d.assets).Nodup :=
  ⟨fun x => mem_DCP_assets d x, List.Sorted.nodup (DCP_assets_sorted d)⟩

/-- C5: `DCP::assets` depends only on the set of asset objects the reels reference: two DCPs
that reference the same objects return the same sequence, whatever the order of their CPLs,
reels and slots and however often an object is referenced; and the result is stable, sorting
and de-duplicating it again gives the same sequence. -/
theorem C5_assets_order_independent (d1 d2 : DCP AssetPtr)
    (h : ∀ x, d1.references x ↔ d2.references x) :
    d1.assets = d2.assets ∧ listUnique (listSort d1.assets) = d1.assets := by
  constructor
  · have s1 := DCP_assets_sorted d1
    have s2 := DCP_assets_sorted d2
    have hp : (d1.assets).Perm d2.assets := by
      rw [List.perm_ext_iff_of_nodup (List.Sorted.nodup s1) (List.Sorted.nodup s2)]
      intro x
      rw [mem_DCP_assets, mem_DCP_assets]
      exact h x
    exact List.eq_of_perm_of_sorted hp s1 s2
  · rw [listSort_eq_self _ (DCP_assets_sorted d1), listUnique_eq_self _ (DCP_assets_sorted d1)]

/-- C5 at `orderA` and `orderB`. -/
theorem C5_assets_order_independent_witness :
    (∀ x, orderA.references x ↔ orderB.references x) ∧
    (orderA.assets = orderB.assets ∧ listUnique (listSort orderA.assets) = orderA.assets) := by
  have h : ∀ x, orderA.references x ↔ orderB.references x := by
    intro x
    simp [DCP.references, orderA, orderB, cplOf]
    tauto
  exact ⟨h, C5_assets_order_independent orderA orderB h⟩


/-! ### The parsing constructor of `CPL` -/

theorem parseReel_eq (directory : String) (asset_map : String → String) (ess : Essence)
    (require_mxfs : Bool) (c : CPL AssetObj) (i : CPLReel) (p : Picture)
    (hp : resolvePicture i = some p) :
    CPL.parseReel directory asset_map ess require_mxfs c i =
      if require_mxfs = true ∧
          ¬ (pictureOpens directory asset_map ess i = true ∧
             soundOpens directory asset_map ess i = true) then
        .error .MXFFileError
      else
        .ok { c with
              _fps := pictureRate i
              _length := c._length + pictureDuration i
              _reels := c._reels ++ [lenientReel directory asset_map ess i] } := by
  rcases i with ⟨⟨mp, sp, snd, sub⟩⟩
  cases mp <;> cases sp <;> cases snd <;> cases require_mxfs <;>
    simp [resolvePicture] at hp <;> (try subst hp) <;>
    simp [CPL.parseReel, resolvePicture, parsePicture, parseSound, tryReset,
      newMonoPictureAsset, newStereoPictureAsset, newSoundAsset, pictureOpens, soundOpens,
      lenientReel, pictureAsset, soundAsset, pictureRate, pictureDuration, monoSelected] <;>
    split_ifs <;> simp_all


theorem parseReel_none (directory : String) (asset_map : String → String) (ess : Essence)
    (require_mxfs : Bool) (c : CPL AssetObj) (i : CPLReel) (hp : resolvePicture i = none) :
    CPL.parseReel directory asset_map ess require_mxfs c i = .error .NullDereference := by
  simp [CPL.parseReel, hp]

theorem parseReels_resolved (directory : String) (asset_map : String → String) (ess : Essence)
    (require_mxfs : Bool) :
    ∀ (reels : List CPLReel) (c c1 : CPL AssetObj),
      CPL.parseReels directory asset_map ess require_mxfs c reels = .ok c1 →
      ∀ i ∈ reels, (resolvePicture i).isSome = true := by
  intro reels
  induction reels with
  | nil => intro c c1 _ i hi; simp at hi
  | cons j rest ih =>
    intro c c1 h i hi
    rw [CPL.parseReels] at h
    cases hj : resolvePicture j with
    | none =>
      rw [parseReel_none _ _ _ _ _ _ hj] at h
      simp at h
    | some p =>
      cases hc : CPL.parseReel directory asset_map ess require_mxfs c j with
      | error e => rw [hc] at h; simp at h
      | ok c2 =>
        rw [hc] at h
        rcases List.mem_cons.mp hi with rfl | hi2
        · simp [hj]
        · exact ih c2 c1 h i hi2

theorem lastRate_eq_getLast :
    ∀ (reels : List CPLReel) (fps : Int) (h : reels ≠ []),
      lastRate fps reels = pictureRate (reels.getLast h) := by
  intro reels
  induction reels with
  | nil => intro fps h; exact absurd rfl h
  | cons j rest ih =>
    intro fps h
    cases rest with
    | nil => simp [lastRate]
    | cons k rest2 =>
      rw [lastRate, ih _ (List.cons_ne_nil _ _), List.getLast_cons (List.cons_ne_nil _ _)]

theorem parseReels_eq (directory : String) (asset_map : String → String) (ess : Essence)
    (require_mxfs : Bool) :
    ∀ (reels : List CPLReel) (c : CPL AssetObj),
      (∀ i ∈ reels, (resolvePicture i).isSome = true) →
      CPL.parseReels directory asset_map ess require_mxfs c reels =
        if require_mxfs = true ∧
            reels.all (fun i => pictureOpens directory asset_map ess i &&
              soundOpens directory asset_map ess i) = false then
          .error .MXFFileError
        else
          .ok { c with
                _fps := lastRate c._fps reels
                _length := c._length + (reels.map pictureDuration).sum
                _reels := c._reels ++ reels.map (lenientReel directory asset_map ess) } := by
  intro reels
  induction reels with
  | nil => intro c _; simp [CPL.parseReels, lastRate]
  | cons j rest ih =>
    intro c hwf
    have hj := hwf j (List.mem_cons_self _ _)
    obtain ⟨p, hp⟩ := Option.isSome_iff_exists.mp hj
    have hrest : ∀ i ∈ rest, (resolvePicture i).isSome = true :=
      fun i hi => hwf i (List.mem_cons_of_mem _ hi)
    rw [CPL.parseReels, parseReel_eq _ _ _ _ _ _ p hp]
    cases hopen : (pictureOpens directory asset_map ess j &&
        soundOpens directory asset_map ess j)
    · have hopen2 : ¬ (pictureOpens directory asset_map ess j = true ∧
          soundOpens directory asset_map ess j = true) := by
        simpa using hopen
      cases require_mxfs
      · simp only [Bool.false_eq_true, false_and, if_false]
        rw [ih _ hrest]
        simp [lastRate, add_assoc]
      · simp [hopen2, hopen]
    · have hopen2 : pictureOpens directory asset_map ess j = true ∧
          soundOpens directory asset_map ess j = true := by
        simpa using hopen
      simp only [hopen2, and_self, not_true_eq_false, and_false, if_false]
      rw [ih _ hrest]
      simp [lastRate, add_assoc, hopen2]

theorem parse_ok_eq (directory : String) (file : CPLFile) (asset_map : String → String)
    (ess : Essence) (require_mxfs : Bool) (cpl : CPL AssetObj)
    (h : CPL.parse directory file asset_map ess require_mxfs = .ok cpl) :
    (∀ i ∈ file.reels, (resolvePicture i).isSome = true) ∧
    cpl = { _directory := directory, _name := file.annotation_text,
            _content_kind := file.content_kind,
            _length := (file.reels.map pictureDuration).sum,
            _fps := lastRate 0 file.reels,
            _reels := file.reels.map (lenientReel directory asset_map ess),
            _uuid := "", _digest := "" } := by
  unfold CPL.parse at h
  have hwf := parseReels_resolved _ _ _ _ _ _ _ h
  refine ⟨hwf, ?_⟩
  rw [parseReels_eq _ _ _ _ _ _ hwf] at h
  split at h
  · simp at h
  · simp only [Except.ok.injEq] at h
    rw [← h]
    simp

theorem monoSelected_iff (i : CPLReel) (p : Picture) :
    monoSelected i p = true ↔
      (i.asset_list.main_stereoscopic_picture = none ∧ p.frame_rate = p.edit_rate) := by
  unfold monoSelected
  rw [Bool.and_eq_true, Option.isNone_iff_eq_none, decide_eq_true_iff]
  exact and_congr Iff.rfl eq_comm

theorem pictureAsset_kind (directory : String) (asset_map : String → String) (i : CPLReel)
    (p : Picture) (a : AssetObj) (hp : resolvePicture i = some p)
    (ha : pictureAsset directory asset_map i = some a) :
    (a.isMono = true ↔ monoSelected i p = true) ∧
    (a.isStereo = true ↔ ¬ monoSelected i p = true) := by
  unfold pictureAsset at ha
  rw [hp] at ha
  cases hm : monoSelected i p
  · simp only [hm, Bool.false_eq_true, if_false, Option.some.injEq] at ha
    subst ha
    simp [AssetObj.isMono, AssetObj.isStereo]
  · simp only [hm, if_true, Option.some.injEq] at ha
    subst ha
    simp [AssetObj.isMono, AssetObj.isStereo]

theorem lenientReel_picture (directory : String) (asset_map : String → String) (ess : Essence)
    (i : CPLReel) :
    (lenientReel directory asset_map ess i).main_picture =
      if pictureOpens directory asset_map ess i = true then pictureAsset directory asset_map i
      else none := rfl

/-- C6: in a CPL parsed from a CPL file every reel corresponds to one reel entry, and the
picture asset the reel holds is a `MonoPictureAsset` exactly when the entry has no explicit
stereoscopic-picture element and the frame rate of its picture node equals the edit rate;
in every other case it is a `StereoPictureAsset`.  The slot holds an asset whenever the
picture MXF can be opened. -/
theorem C6_mono_iff_no_stereo_element_and_equal_rates (directory : String) (file : CPLFile)
    (asset_map : String → String) (ess : Essence) (require_mxfs : Bool) (cpl : CPL AssetObj)
    (h : CPL.parse directory file asset_map ess require_mxfs = .ok cpl) :
    List.Forall₂
      (fun (i : CPLReel) (r : Reel AssetObj) =>
        ∃ p, resolvePicture i = some p ∧
          (∀ a, r.main_picture = some a →
            (a.isMono = true ↔
              (i.asset_list.main_stereoscopic_picture = none ∧ p.frame_rate = p.edit_rate)) ∧
            (a.isStereo = true ↔
              ¬ (i.asset_list.main_stereoscopic_picture = none ∧
                  p.frame_rate = p.edit_rate))) ∧
          (pictureOpens directory asset_map ess i = true → r.main_picture.isSome = true))
      file.reels cpl._reels := by
  obtain ⟨hwf, hc⟩ := parse_ok_eq _ _ _ _ _ _ h
  subst hc
  simp only
  rw [List.forall₂_map_right_iff, List.forall₂_same]
  intro i hi
  obtain ⟨p, hp⟩ := Option.isSome_iff_exists.mp (hwf i hi)
  refine ⟨p, hp, ?_, ?_⟩
  · intro a ha
    rw [lenientReel_picture] at ha
    split at ha
    · rw [← monoSelected_iff]
      exact pictureAsset_kind directory asset_map i p a hp ha
    · exact absurd ha (by simp)
  · intro ho
    rw [lenientReel_picture, if_pos ho]
    unfold pictureAsset
    rw [hp]
    simp only
    split <;> rfl

theorem parse_threeReelFile :
    CPL.parse "dcp" threeReelFile idMap allOpen true = .ok threeReelCPL := rfl

theorem parse_mixedRateFile :
    CPL.parse "dcp" mixedRateFile idMap allOpen false = .ok mixedRateCPL := rfl

/-- C6 at `threeReelFile`: the three reels hold a mono, a stereo and a stereo picture. -/
theorem C6_mono_iff_no_stereo_element_and_equal_rates_witness :
    CPL.parse "dcp" threeReelFile idMap allOpen true = .ok threeReelCPL ∧
    List.Forall₂
      (fun (i : CPLReel) (r : Reel AssetObj) =>
        ∃ p, resolvePicture i = some p ∧
          (∀ a, r.main_picture = some a →
            (a.isMono = true ↔
              (i.asset_list.main_stereoscopic_picture = none ∧ p.frame_rate = p.edit_rate)) ∧
            (a.isStereo = true ↔
              ¬ (i.asset_list.main_stereoscopic_picture = none ∧
                  p.frame_rate = p.edit_rate))) ∧
          (pictureOpens "dcp" idMap allOpen i = true → r.main_picture.isSome = true))
      threeReelFile.reels threeReelCPL._reels :=
  ⟨parse_threeReelFile,
   C6_mono_iff_no_stereo_element_and_equal_rates "dcp" threeReelFile idMap allOpen true
     threeReelCPL parse_threeReelFile⟩

/-- C7 as stated fails: `mixedRateFile` states the edit rate 24 in its first reel and 48 in
its second, and the parsed CPL has 48 frames per second. -/
theorem C7_fps_not_from_first_reel :
    ¬ (∀ (directory : String) (file : CPLFile) (asset_map : String → String) (ess : Essence)
        (require_mxfs : Bool) (cpl : CPL AssetObj) (first : CPLReel) (rest : List CPLReel)
        (p : Picture),
        CPL.parse directory file asset_map ess require_mxfs = .ok cpl →
        file.reels = first :: rest → resolvePicture first = some p →
        cpl._fps = p.edit_rate.numerator) := by
  intro h
  have h1 := h "dcp" mixedRateFile idMap allOpen false mixedRateCPL _ _ (monoNode "p1" 24 100)
    parse_mixedRateFile rfl rfl
  exact absurd h1 (by decide)

/-- C7 (amended): for every CPL parsed from a CPL file that has at least one reel, the
frames-per-second value equals the edit-rate numerator of the picture node of the LAST reel
entry (every reel entry overwrites it); it equals that of the first reel entry when all reel
entries state the same edit-rate numerator. -/
theorem C7_fps_from_last_reel (directory : String) (file : CPLFile)
    (asset_map : String → String) (ess : Essence) (require_mxfs : Bool) (cpl : CPL AssetObj)
    (h : CPL.parse directory file asset_map ess require_mxfs = .ok cpl)
    (hne : file.reels ≠ []) :
    (∃ p, resolvePicture (file.reels.getLast hne) = some p ∧
      cpl._fps = p.edit_rate.numerator) ∧
    ((∀ i ∈ file.reels, pictureRate i = pictureRate (file.reels.head hne)) →
      ∃ p, resolvePicture (file.reels.head hne) = some p ∧
        cpl._fps = p.edit_rate.numerator) := by
  obtain ⟨hwf, hc⟩ := parse_ok_eq _ _ _ _ _ _ h
  have hfps : cpl._fps = pictureRate (file.reels.getLast hne) := by
    rw [hc]
    exact lastRate_eq_getLast _ _ hne
  constructor
  · obtain ⟨p, hp⟩ := Option.isSome_iff_exists.mp (hwf _ (List.getLast_mem hne))
    refine ⟨p, hp, ?_⟩
    rw [hfps, pictureRate, hp]
  · intro hall
    obtain ⟨p, hp⟩ := Option.isSome_iff_exists.mp (hwf _ (List.head_mem hne))
    refine ⟨p, hp, ?_⟩
    rw [hfps, hall _ (List.getLast_mem hne), pictureRate, hp]

/-- C7 (amended) at `mixedRateFile`. -/
theorem C7_fps_from_last_reel_witness :
    ∃ p, resolvePicture (mixedRateFile.reels.getLast (by decide)) = some p ∧
      mixedRateCPL._fps = p.edit_rate.numerator :=
  (C7_fps_from_last_reel "dcp" mixedRateFile idMap allOpen false mixedRateCPL
    parse_mixedRateFile (by decide)).1

/-- C8: for every CPL parsed from a CPL file, the length equals the sum, over all reel
entries of the file, of the duration of the entry's resolved picture node, every entry having
such a node; a file with no reels is parsed to a CPL of length 0. -/
theorem C8_length_is_sum_of_picture_durations (directory : String) (file : CPLFile)
    (asset_map : String → String) (ess : Essence) (require_mxfs : Bool) :
    (∀ cpl, CPL.parse directory file asset_map ess require_mxfs = .ok cpl →
      cpl._length = (file.reels.map pictureDuration).sum ∧
      ∀ i ∈ file.reels, ∃ p, resolvePicture i = some p ∧ pictureDuration i = p.duration) ∧
    (file.reels = [] →
      ∃ cpl, CPL.parse directory file asset_map ess require_mxfs = .ok cpl ∧
        cpl._length = 0) := by
  constructor
  · intro cpl h
    obtain ⟨hwf, hc⟩ := parse_ok_eq _ _ _ _ _ _ h
    refine ⟨by rw [hc], ?_⟩
    intro i hi
    obtain ⟨p, hp⟩ := Option.isSome_iff_exists.mp (hwf i hi)
    exact ⟨p, hp, by rw [pictureDuration, hp]⟩
  · intro hnil
    have hwf : ∀ i ∈ file.reels, (resolvePicture i).isSome = true := by
      intro i hi
      rw [hnil] at hi
      simp at hi
    unfold CPL.parse
    rw [parseReels_eq _ _ _ _ _ _ hwf, hnil]
    simp

/-- C8 at `threeReelFile`: the length is 100 + 50 + 25. -/
theorem C8_length_is_sum_of_picture_durations_witness :
    threeReelCPL._length = (threeReelFile.reels.map pictureDuration).sum ∧
    threeReelCPL._length = 175 :=
  ⟨((C8_length_is_sum_of_picture_durations "dcp" threeReelFile idMap allOpen true).1
      threeReelCPL parse_threeReelFile).1, rfl⟩

theorem equalsReels_count {α : Type}
    (reelEquals : Reel α → Reel α → EqualityOptions → List String) (opt : EqualityOptions)
    (s : String) (hs : ∀ a b, s ∉ reelEquals a b opt) :
    ∀ (as bs : List (Reel α)) (notes out : List String),
      CPL.equalsReels reelEquals opt as bs notes = some out → out.count s = notes.count s := by
  intro as
  induction as with
  | nil =>
    intro bs notes out h
    simp only [CPL.equalsReels, Option.some.injEq] at h
    rw [h]
  | cons a as ih =>
    intro bs notes out h
    cases bs with
    | nil => simp [CPL.equalsReels] at h
    | cons b bs =>
      rw [CPL.equalsReels] at h
      rw [ih _ _ _ h, (listMerge_perm _ _).count_eq, List.count_append,
        List.count_eq_zero_of_not_mem (hs a b), Nat.add_zero]

theorem equalsReels_some {α : Type}
    (reelEquals : Reel α → Reel α → EqualityOptions → List String) (opt : EqualityOptions) :
    ∀ (as bs : List (Reel α)) (notes : List String), as.length ≤ bs.length →
      ∃ out, CPL.equalsReels reelEquals opt as bs notes = some out := by
  intro as
  induction as with
  | nil => intro bs notes _; exact ⟨notes, by simp [CPL.equalsReels]⟩
  | cons a as ih =>
    intro bs notes h
    cases bs with
    | nil => simp at h
    | cons b bs =>
      rw [CPL.equalsReels]
      exact ih _ _ (by simpa using h)

theorem count_pushIf (cond : Prop) [Decidable cond] (notes : List String) (t s : String) :
    (pushIf cond notes t).count s = notes.count s + (if cond ∧ t = s then 1 else 0) := by
  unfold pushIf
  by_cases hc : cond <;> by_cases hts : t = s <;>
    simp [hc, hts, List.count_append, List.count_singleton]

theorem ownNotes_count {α : Type} (M : Nat) (c other : CPL α) (opt : EqualityOptions) :
    (CPL.ownNotes M c other opt).count "names differ"
      = (if opt.flags &&& M ≠ 0 ∧ c._name ≠ other._name then 1 else 0) ∧
    (CPL.ownNotes M c other opt).count "content kinds differ"
      = (if opt.flags &&& M ≠ 0 ∧ c._content_kind ≠ other._content_kind then 1 else 0) ∧
    (CPL.ownNotes M c other opt).count "frames per second differ"
      = (if opt.flags &&& M ≠ 0 ∧ c._fps ≠ other._fps then 1 else 0) ∧
    (CPL.ownNotes M c other opt).count "lengths differ"
      = (if opt.flags &&& M ≠ 0 ∧ c._length ≠ other._length then 1 else 0) ∧
    (CPL.ownNotes M c other opt).count "reel counts differ"
      = (if c._reels.length ≠ other._reels.length then 1 else 0) := by
  unfold CPL.ownNotes
  by_cases hf : opt.flags &&& M ≠ 0
  · simp [hf, count_pushIf]
  · simp [hf, count_pushIf]

/-- C10: let `Reel::equals` produce none of the five notes of `CPL::equals`.  For two CPLs
with the same number of reels `CPL::equals` returns a note list.  Whenever it returns one,
the list holds, for each of name, content kind, frames per second and length, exactly one
note of its own when the `METADATA` flag is set and the field differs and none otherwise (so
none at all when the flag is clear), and it holds "reel counts differ" if and only if the
reel counts differ, whatever the flag. -/
theorem C10_metadata_notes {α : Type} (LIBDCP_METADATA : Nat)
    (reelEquals : Reel α → Reel α → EqualityOptions → List String)
    (c other : CPL α) (opt : EqualityOptions)
    (hreel : ∀ a b, ∀ s ∈ reelEquals a b opt,
      s ∉ ["names differ", "content kinds differ", "frames per second differ",
           "lengths differ", "reel counts differ"]) :
    (c._reels.length = other._reels.length →
      ∃ notes, CPL.equals LIBDCP_METADATA reelEquals c other opt = some notes) ∧
    (∀ notes, CPL.equals LIBDCP_METADATA reelEquals c other opt = some notes →
      notes.count "names differ"
        = (if opt.flags &&& LIBDCP_METADATA ≠ 0 ∧ c._name ≠ other._name then 1 else 0) ∧
      notes.count "content kinds differ"
        = (if opt.flags &&& LIBDCP_METADATA ≠ 0 ∧ c._content_kind ≠ other._content_kind
           then 1 else 0) ∧
      notes.count "frames per second differ"
        = (if opt.flags &&& LIBDCP_METADATA ≠ 0 ∧ c._fps ≠ other._fps then 1 else 0) ∧
      notes.count "lengths differ"
        = (if opt.flags &&& LIBDCP_METADATA ≠ 0 ∧ c._length ≠ other._length then 1 else 0) ∧
      ("reel counts differ" ∈ notes ↔ c._reels.length ≠ other._reels.length)) := by
  have hs : ∀ s ∈ ["names differ", "content kinds differ", "frames per second differ",
      "lengths differ", "reel counts differ"], ∀ a b, s ∉ reelEquals a b opt :=
    fun s hs a b hmem => hreel a b s hmem hs
  constructor
  · intro hlen
    exact equalsReels_some reelEquals opt _ _ _ (Nat.le_of_eq hlen)
  · intro notes h
    unfold CPL.equals at h
    have hc := fun s hmem => equalsReels_count reelEquals opt s (hs s hmem) _ _ _ _ h
    obtain ⟨o1, o2, o3, o4, o5⟩ := ownNotes_count LIBDCP_METADATA c other opt
    refine ⟨?_, ?_, ?_, ?_, ?_⟩
    · rw [hc _ (by simp), o1]
    · rw [hc _ (by simp), o2]
    · rw [hc _ (by simp), o3]
    · rw [hc _ (by simp), o4]
    · rw [← List.count_pos_iff, hc _ (by simp), o5]
      split <;> simp_all

/-- C10 at `titleCPL` and `retitledCPL` with the flag set: the comparison returns a list
with one note for the name, one for the frame rate, none for kind, length and reel count. -/
theorem C10_metadata_notes_witness :
    (∀ a b, ∀ s ∈ sampleReelEquals a b ⟨1⟩,
      s ∉ ["names differ", "content kinds differ", "frames per second differ",
           "lengths differ", "reel counts differ"]) ∧
    (∃ notes, CPL.equals 1 sampleReelEquals titleCPL retitledCPL ⟨1⟩ = some notes ∧
      notes.count "names differ" = 1 ∧ notes.count "content kinds differ" = 0 ∧
      notes.count "frames per second differ" = 1 ∧ notes.count "lengths differ" = 0 ∧
      "reel counts differ" ∉ notes) := by
  have hreel : ∀ a b, ∀ s ∈ sampleReelEquals a b ⟨1⟩,
      s ∉ ["names differ", "content kinds differ", "frames per second differ",
           "lengths differ", "reel counts differ"] := by
    intro a b s hs
    unfold sampleReelEquals at hs
    split at hs
    · simp at hs
    · simp only [List.mem_singleton] at hs
      subst hs
      decide
  have hthm := C10_metadata_notes 1 sampleReelEquals titleCPL retitledCPL ⟨1⟩ hreel
  obtain ⟨notes, hn⟩ := hthm.1 rfl
  obtain ⟨h1, h2, h3, h4, h5⟩ := hthm.2 notes hn
  refine ⟨hreel, notes, hn, ?_, ?_, ?_, ?_, ?_⟩
  · rw [h1]; decide
  · rw [h2]; decide
  · rw [h3]; decide
  · rw [h4]; decide
  · rw [h5]; decide

/-! ### Note lists of `CPL::equals` and `DCP::equals` -/

theorem listMerge_sublist_left {α : Type} [LT α] [DecidableRel (fun a b : α => a < b)] :
    ∀ (xs ys : List α), xs.Sublist (listMerge xs ys) := by
  intro xs
  induction xs with
  | nil => intro ys; simp
  | cons x xs ihx =>
    intro ys
    induction ys with
    | nil => simp [listMerge]
    | cons y ys ihy =>
      rw [listMerge]
      split
      · exact List.Sublist.cons y ihy
      · exact List.Sublist.cons₂ x (ihx (y :: ys))

theorem listMerge_sublist_right {α : Type} [LT α] [DecidableRel (fun a b : α => a < b)] :
    ∀ (xs ys : List α), ys.Sublist (listMerge xs ys) := by
  intro xs
  induction xs with
  | nil => intro ys; simp [listMerge]
  | cons x xs ihx =>
    intro ys
    induction ys with
    | nil => simp
    | cons y ys ihy =>
      rw [listMerge]
      split
      · exact List.Sublist.cons₂ y ihy
      · exact List.Sublist.cons x (ihx (y :: ys))

theorem equalsReels_notes {α : Type}
    (reelEquals : Reel α → Reel α → EqualityOptions → List String) (opt : EqualityOptions) :
    ∀ (as bs : List (Reel α)) (notes out : List String),
      CPL.equalsReels reelEquals opt as bs notes = some out →
      as.length ≤ bs.length ∧
      out.Perm (notes ++ (reelNotes reelEquals opt as bs).flatten) ∧
      notes.Sublist out ∧
      ∀ n ∈ reelNotes reelEquals opt as bs, n.Sublist out := by
  intro as
  induction as with
  | nil =>
    intro bs notes out h
    simp only [CPL.equalsReels, Option.some.injEq] at h
    subst h
    simp [reelNotes]
  | cons a as ih =>
    intro bs notes out h
    cases bs with
    | nil => simp [CPL.equalsReels] at h
    | cons b bs =>
      rw [CPL.equalsReels] at h
      obtain ⟨hlen, hperm, hsub, hall⟩ := ih _ _ _ h
      refine ⟨by simpa using hlen, ?_, ?_, ?_⟩
      · refine hperm.trans ?_
        simp only [reelNotes, List.zipWith_cons_cons, List.flatten_cons, ← List.append_assoc]
        exact List.Perm.append_right _ (listMerge_perm _ _)
      · exact (listMerge_sublist_left _ _).trans hsub
      · intro n hn
        simp only [reelNotes, List.zipWith_cons_cons, List.mem_cons] at hn
        rcases hn with rfl | hn
        · exact (listMerge_sublist_right _ _).trans hsub
        · exact hall n hn

theorem equalsCPLs_notes {α : Type} (M : Nat)
    (reelEquals : Reel α → Reel α → EqualityOptions → List String) (opt : EqualityOptions) :
    ∀ (as bs : List (CPL α)) (notes out : List String),
      DCP.equalsCPLs M reelEquals opt as bs notes = some out →
      ∃ ns : List (List String),
        ns.length = as.length ∧
        List.Forall₂ (fun (ab : CPL α × CPL α) n => CPL.equals M reelEquals ab.1 ab.2 opt = some n)
          (List.zip as bs) ns ∧
        out.Perm (notes ++ ns.flatten) ∧
        notes.Sublist out ∧
        ∀ n ∈ ns, n.Sublist out := by
  intro as
  induction as with
  | nil =>
    intro bs notes out h
    simp only [DCP.equalsCPLs, Option.some.injEq] at h
    subst h
    exact ⟨[], by simp⟩
  | cons a as ih =>
    intro bs notes out h
    cases bs with
    | nil => simp [DCP.equalsCPLs] at h
    | cons b bs =>
      rw [DCP.equalsCPLs] at h
      cases hc : CPL.equals M reelEquals a b opt with
      | none => rw [hc] at h; simp at h
      | some n0 =>
        rw [hc] at h
        obtain ⟨ns, hlen, hf, hperm, hsub, hall⟩ := ih _ _ _ h
        refine ⟨n0 :: ns, by simp [hlen], ?_, ?_, ?_, ?_⟩
        · simp only [List.zip_cons_cons]
          exact List.Forall₂.cons hc hf
        · refine hperm.trans ?_
          simp only [List.flatten_cons, ← List.append_assoc]
          exact List.Perm.append_right _ (listMerge_perm _ _)
        · exact (listMerge_sublist_left _ _).trans hsub
        · intro n hn
          rcases List.mem_cons.mp hn with rfl | hn
          · exact (listMerge_sublist_right _ _).trans hsub
          · exact hall n hn

theorem equals_first_pair :
    CPL.equals 1 sampleReelEquals (emptyCPL "title" 24) (emptyCPL "title 2" 24) ⟨1⟩
      = some ["names differ"] := by
  simp [CPL.equals, CPL.equalsReels, CPL.ownNotes, pushIf, emptyCPL]

theorem equals_second_pair :
    CPL.equals 1 sampleReelEquals (emptyCPL "trailer" 24) (emptyCPL "trailer" 25) ⟨1⟩
      = some ["frames per second differ"] := by
  simp [CPL.equals, CPL.equalsReels, CPL.ownNotes, pushIf, emptyCPL]

theorem equals_pairDCP :
    DCP.equals 1 sampleReelEquals pairDCP otherPairDCP ⟨1⟩
      = some ["frames per second differ", "names differ"] := by
  have hlt : "frames per second differ" < "names differ" :=
    String.lt_iff_toList_lt.mpr (by decide)
  simp [DCP.equals, DCP.equalsCPLs, DCP.ownNotes, pairDCP, otherPairDCP, pushIf,
    equals_first_pair, equals_second_pair, listMerge, hlt]

theorem equalsCPLs_some {α : Type} (M : Nat)
    (reelEquals : Reel α → Reel α → EqualityOptions → List String) (opt : EqualityOptions) :
    ∀ (as bs : List (CPL α)) (notes : List String), as.length ≤ bs.length →
      (∀ ab ∈ List.zip as bs, ab.1._reels.length ≤ ab.2._reels.length) →
      ∃ out, DCP.equalsCPLs M reelEquals opt as bs notes = some out := by
  intro as
  induction as with
  | nil => intro bs notes _ _; exact ⟨notes, by simp [DCP.equalsCPLs]⟩
  | cons a as ih =>
    intro bs notes hlen hreels
    cases bs with
    | nil => simp at hlen
    | cons b bs =>
      obtain ⟨n, hn⟩ := equalsReels_some reelEquals opt a._reels b._reels
        (CPL.ownNotes M a b opt) (hreels (a, b) (by simp))
      have hn2 : CPL.equals M reelEquals a b opt = some n := hn
      rw [DCP.equalsCPLs, hn2]
      exact ih bs _ (by simpa using hlen)
        (fun ab hab => hreels ab (by simp [List.zip_cons_cons, hab]))

/-- C11 as stated fails: comparing `pairDCP` with `otherPairDCP`, the first pair of CPLs
yields "names differ" and the second pair "frames per second differ", and `DCP::equals`
returns the note of the second pair in front of the note of the first: the list is not the
concatenation of the sub-comparisons in CPL order. -/
theorem C11_notes_not_concatenated :
    ¬ (∀ (LIBDCP_METADATA : Nat)
        (reelEquals : Reel AssetPtr → Reel AssetPtr → EqualityOptions → List String)
        (d other : DCP AssetPtr) (opt : EqualityOptions) (notes : List String),
        DCP.equals LIBDCP_METADATA reelEquals d other opt = some notes →
        ∃ ns : List (List String),
          List.Forall₂
            (fun (ab : CPL AssetPtr × CPL AssetPtr) n =>
              CPL.equals LIBDCP_METADATA reelEquals ab.1 ab.2 opt = some n)
            (List.zip d._cpls other._cpls) ns ∧
          notes = DCP.ownNotes d other ++ ns.flatten) := by
  intro h
  obtain ⟨ns, hf, hn⟩ := h 1 sampleReelEquals pairDCP otherPairDCP ⟨1⟩ _ equals_pairDCP
  simp only [pairDCP, otherPairDCP, List.zip_cons_cons, List.zip_nil_right] at hf
  rcases List.forall₂_cons_left_iff.mp hf with ⟨n1, ns1, h1, hf1, rfl⟩
  rcases List.forall₂_cons_left_iff.mp hf1 with ⟨n2, ns2, h2, hf2, rfl⟩
  have hnil : ns2 = [] := List.forall₂_nil_left_iff.mp hf2
  subst hnil
  rw [equals_first_pair] at h1
  rw [equals_second_pair] at h2
  simp only [Option.some.injEq] at h1 h2
  subst h1 h2
  revert hn
  decide

/-- C11 (amended): the note list returned by `CPL::equals` consists of its own metadata and
reel-count notes and of the complete note list of each pairwise `Reel::equals`, one for every
reel of this CPL: every note is present with its multiplicity and none is dropped, and the
own notes and the notes of each pair keep their relative order in the result; likewise
`DCP::equals` returns its own notes and the complete note list of each pairwise
`CPL::equals`, one for every CPL of this DCP.  A mismatch in one pair does not stop later
pairs from being compared.  The lists are combined by `std::list::merge`, so the notes of
different sub-comparisons may be interleaved.  The comparisons return a list whenever `this`
has no more reels (CPLs) than `other`. -/
theorem C11_notes_are_merged {α : Type} (LIBDCP_METADATA : Nat)
    (reelEquals : Reel α → Reel α → EqualityOptions → List String)
    (c other : CPL α) (d dother : DCP α) (opt : EqualityOptions) :
    (∀ notes, CPL.equals LIBDCP_METADATA reelEquals c other opt = some notes →
      (reelNotes reelEquals opt c._reels other._reels).length = c._reels.length ∧
      notes.Perm (CPL.ownNotes LIBDCP_METADATA c other opt ++
        (reelNotes reelEquals opt c._reels other._reels).flatten) ∧
      (CPL.ownNotes LIBDCP_METADATA c other opt).Sublist notes ∧
      ∀ n ∈ reelNotes reelEquals opt c._reels other._reels, n.Sublist notes) ∧
    (∀ notes, DCP.equals LIBDCP_METADATA reelEquals d dother opt = some notes →
      ∃ ns : List (List String),
        ns.length = d._cpls.length ∧
        List.Forall₂
          (fun (ab : CPL α × CPL α) n =>
            CPL.equals LIBDCP_METADATA reelEquals ab.1 ab.2 opt = some n)
          (List.zip d._cpls dother._cpls) ns ∧
        notes.Perm (DCP.ownNotes d dother ++ ns.flatten) ∧
        (DCP.ownNotes d dother).Sublist notes ∧
        ∀ n ∈ ns, n.Sublist notes) ∧
    (c._reels.length ≤ other._reels.length →
      ∃ notes, CPL.equals LIBDCP_METADATA reelEquals c other opt = some notes) ∧
    (d._cpls.length ≤ dother._cpls.length →
      (∀ ab ∈ List.zip d._cpls dother._cpls, ab.1._reels.length ≤ ab.2._reels.length) →
      ∃ notes, DCP.equals LIBDCP_METADATA reelEquals d dother opt = some notes) := by
  refine ⟨?_, ?_, ?_, ?_⟩
  · intro notes h
    obtain ⟨hlen, hperm, hsub, hall⟩ := equalsReels_notes reelEquals opt _ _ _ _ h
    refine ⟨?_, hperm, hsub, hall⟩
    simp [reelNotes, List.length_zipWith, hlen]
  · intro notes h
    exact equalsCPLs_notes LIBDCP_METADATA reelEquals opt _ _ _ _ h
  · intro hlen
    exact equalsReels_some reelEquals opt _ _ _ hlen
  · intro hlen hreels
    exact equalsCPLs_some LIBDCP_METADATA reelEquals opt _ _ _ hlen hreels

/-- C11 (amended) at `pairDCP` and `otherPairDCP`: both notes are in the result. -/
theorem C11_notes_are_merged_witness :
    DCP.equals 1 sampleReelEquals pairDCP otherPairDCP ⟨1⟩
      = some ["frames per second differ", "names differ"] ∧
    ∃ ns : List (List String),
      ns.length = pairDCP._cpls.length ∧
      List.Forall₂
        (fun (ab : CPL AssetPtr × CPL AssetPtr) n =>
          CPL.equals 1 sampleReelEquals ab.1 ab.2 ⟨1⟩ = some n)
        (List.zip pairDCP._cpls otherPairDCP._cpls) ns ∧
      ["frames per second differ", "names differ"].Perm
        (DCP.ownNotes pairDCP otherPairDCP ++ ns.flatten) ∧
      (DCP.ownNotes pairDCP otherPairDCP).Sublist
        ["frames per second differ", "names differ"] ∧
      ∀ n ∈ ns, n.Sublist ["frames per second differ", "names differ"] :=
  ⟨equals_pairDCP,
   (C11_notes_are_merged 1 sampleReelEquals titleCPL titleCPL pairDCP otherPairDCP ⟨1⟩).2.1 _
     equals_pairDCP⟩

/-- C12 (code defect): the loops of `DCP::equals` and `CPL::equals` run until the list of
`this` is exhausted and dereference the iterator of `other` in every round without testing
it.  Comparing `singleDCP` (one CPL) with `noCPLsDCP` (none) reads `*other._cpls.end ()` in
the first round, and comparing `titleCPL` (one reel) with a CPL without reels reads
`*other._reels.end ()`: the comparison does not complete with a note list.  It completes,
and reports the count mismatch, when `other` is the longer side. -/
theorem C12_equals_reads_past_end_of_other :
    DCP.equals 1 sampleReelEquals singleDCP noCPLsDCP ⟨0⟩ = none ∧
    CPL.equals 1 sampleReelEquals titleCPL (emptyCPL "title" 24) ⟨0⟩ = none ∧
    DCP.equals 1 sampleReelEquals noCPLsDCP singleDCP ⟨0⟩ = some ["CPL counts differ"] ∧
    CPL.equals 1 sampleReelEquals (emptyCPL "title" 24) titleCPL ⟨0⟩
      = some ["reel counts differ"] := by
  refine ⟨?_, ?_, ?_, ?_⟩
  · simp [DCP.equals, DCP.equalsCPLs, singleDCP, noCPLsDCP]
  · simp [CPL.equals, CPL.equalsReels, titleCPL, cplOf, emptyCPL]
  · simp [DCP.equals, DCP.equalsCPLs, DCP.ownNotes, pushIf, singleDCP, noCPLsDCP]
  · simp [CPL.equals, CPL.equalsReels, CPL.ownNotes, pushIf, titleCPL, cplOf, emptyCPL]

/-! ### `MonoPictureAsset::equals` -/

theorem equalsFrames_prefix
    (fbe : Nat → EqualityOptions → List Nat → List Nat → Bool × Notes)
    (a other : MonoPictureAsset) (opt : EqualityOptions)
    (hfbe : ∀ j : Nat, (j : Int) < other._intrinsic_duration →
      (fbe j opt (a.j2k_data j) (other.j2k_data j)).1 = true) :
    ∀ (m k i : Nat) (notes : Notes), ((i + m : Nat) : Int) ≤ other._intrinsic_duration →
      MonoPictureAsset.equalsFrames fbe a other opt (m + k) i notes =
        MonoPictureAsset.equalsFrames fbe a other opt k (i + m)
          (notes ++ frameNotes fbe a other opt i m) := by
  intro m
  induction m with
  | zero => intro k i notes _; simp [frameNotes]
  | succ m ih =>
    intro k i notes h
    have hi : (i : Int) < other._intrinsic_duration := by omega
    have hnot : ¬ ((i : Int) ≥ other._intrinsic_duration) := by omega
    have hm : m + 1 + k = (m + k) + 1 := by omega
    rw [hm, MonoPictureAsset.equalsFrames, if_neg hnot]
    simp only [hfbe i hi, if_true]
    rw [ih k (i + 1) _ (by omega)]
    have hidx : i + 1 + m = i + (m + 1) := by omega
    rw [hidx]
    congr 1
    simp [frameNotes, List.range'_succ, List.flatMap_cons, List.append_assoc]

/-- C13 as stated fails: when `this` is the asset that lacks the last frame, the loop
ends after the frames of `this` and the result is true.  `flatPicture 1` compared with
`flatPicture 2` is equal. -/
theorem C13_truncated_this_compares_equal :
    ¬ (∀ (base : Bool × Notes)
        (fbe : Nat → EqualityOptions → List Nat → List Nat → Bool × Notes)
        (a other : MonoPictureAsset) (opt : EqualityOptions),
        base.1 = true →
        (∀ (j : Nat) (b : List Nat), (fbe j opt b b).1 = true) →
        (∀ j : Nat, (j : Int) < a._intrinsic_duration → (j : Int) < other._intrinsic_duration →
          a.j2k_data j = other.j2k_data j) →
        (a._intrinsic_duration + 1 = other._intrinsic_duration ∨
          other._intrinsic_duration + 1 = a._intrinsic_duration) →
        (MonoPictureAsset.equals base fbe a other opt).1 = false) := by
  intro h
  have h1 := h (true, []) bytewiseEquals (flatPicture 1) (flatPicture 2) ⟨0⟩ rfl
    (fun j b => by simp [bytewiseEquals]) (fun j _ _ => rfl) (Or.inl (by decide))
  have h2 : (MonoPictureAsset.equals (true, []) bytewiseEquals (flatPicture 1)
      (flatPicture 2) ⟨0⟩).1 = true := by
    simp [MonoPictureAsset.equals, MonoPictureAsset.equalsFrames, flatPicture, bytewiseEquals]
  rw [h2] at h1
  exact absurd h1 (by decide)

/-- C13 (amended): for two mono picture assets that pass the base picture check and whose
common frames have byte-identical buffers, `MonoPictureAsset::equals` returns true when
their frame counts are equal, and returns false when the other asset has exactly one frame
fewer than this one; in that case the result comes from the frame-count check: the frames
compared are exactly those both assets have, and no progress note or buffer comparison is
made for the frame the other asset lacks. -/
theorem C13_mono_equals_frame_counts (base : Bool × Notes)
    (fbe : Nat → EqualityOptions → List Nat → List Nat → Bool × Notes)
    (a other : MonoPictureAsset) (opt : EqualityOptions)
    (hbase : base.1 = true)
    (hfbe : ∀ (j : Nat) (b : List Nat), (fbe j opt b b).1 = true)
    (hcommon : ∀ j : Nat, (j : Int) < a._intrinsic_duration →
      (j : Int) < other._intrinsic_duration → a.j2k_data j = other.j2k_data j) :
    (a._intrinsic_duration = other._intrinsic_duration →
      (MonoPictureAsset.equals base fbe a other opt).1 = true) ∧
    (0 ≤ other._intrinsic_duration →
      a._intrinsic_duration = other._intrinsic_duration + 1 →
      MonoPictureAsset.equals base fbe a other opt
        = (false, base.2 ++ frameNotes fbe a other opt 0 other._intrinsic_duration.toNat)) := by
  have hpass : ∀ j : Nat, (j : Int) < other._intrinsic_duration →
      (j : Int) < a._intrinsic_duration →
      (fbe j opt (a.j2k_data j) (other.j2k_data j)).1 = true := by
    intro j hj ha
    rw [hcommon j ha hj]
    exact hfbe j _
  constructor
  · intro heq
    by_cases hneg : 0 ≤ a._intrinsic_duration
    · have hp := equalsFrames_prefix fbe a other opt
        (fun j hj => hpass j hj (by omega)) a._intrinsic_duration.toNat 0 0 base.2 (by omega)
      simp only [Nat.add_zero, Nat.zero_add] at hp
      simp [MonoPictureAsset.equals, hbase, hp, MonoPictureAsset.equalsFrames]
    · have hz : a._intrinsic_duration.toNat = 0 := by omega
      simp [MonoPictureAsset.equals, hbase, hz, MonoPictureAsset.equalsFrames]
  · intro hnn hlen
    have hp := equalsFrames_prefix fbe a other opt
      (fun j hj => hpass j hj (by omega)) other._intrinsic_duration.toNat 1 0 base.2 (by omega)
    have hcount : a._intrinsic_duration.toNat = other._intrinsic_duration.toNat + 1 := by omega
    have hend : ((0 + other._intrinsic_duration.toNat : Nat) : Int)
        ≥ other._intrinsic_duration := by omega
    simp only [MonoPictureAsset.equals, hbase, if_true, hcount, hp]
    rw [MonoPictureAsset.equalsFrames, if_pos hend]

/-- C13 (amended) at `flatPicture 2` compared with `flatPicture 2` and with
`flatPicture 1`. -/
theorem C13_mono_equals_frame_counts_witness :
    (MonoPictureAsset.equals (true, []) bytewiseEquals (flatPicture 2) (flatPicture 2) ⟨0⟩).1
      = true ∧
    MonoPictureAsset.equals (true, []) bytewiseEquals (flatPicture 2) (flatPicture 1) ⟨0⟩
      = (false, [] ++ frameNotes bytewiseEquals (flatPicture 2) (flatPicture 1) ⟨0⟩ 0
          (flatPicture 1)._intrinsic_duration.toNat) :=
  ⟨(C13_mono_equals_frame_counts (true, []) bytewiseEquals (flatPicture 2) (flatPicture 2) ⟨0⟩
      rfl (fun j b => by simp [bytewiseEquals]) (fun j _ _ => rfl)).1 rfl,
   (C13_mono_equals_frame_counts (true, []) bytewiseEquals (flatPicture 2) (flatPicture 1) ⟨0⟩
      rfl (fun j b => by simp [bytewiseEquals]) (fun j _ _ => rfl)).2 (by decide) (by decide)⟩

/-! ### `Certificate::read_string` -/

theorem payloadLines_cons (c : Char) (cs : Str) :
    payloadLines (c :: cs) = (c :: cs).take 64 :: payloadLines ((c :: cs).drop 64) := by
  rw [payloadLines]

theorem wrapLoop_eq : ∀ (n : Nat) (base64 fixed : Str), base64.length ≤ n →
    wrapLoop fixed base64 = fixed ++ (payloadLines base64).flatMap (fun l => l ++ ['\n']) := by
  intro n
  induction n with
  | zero =>
    intro base64 fixed h
    have : base64 = [] := List.length_eq_zero.mp (Nat.le_zero.mp h)
    subst this
    simp [wrapLoop, payloadLines]
  | succ n ih =>
    intro base64 fixed h
    cases base64 with
    | nil => simp [wrapLoop, payloadLines]
    | cons c cs =>
      have hmin : min 64 (c :: cs).length ≤ 64 := Nat.min_le_left _ _
      have htake : (c :: cs).take (min 64 (c :: cs).length) = (c :: cs).take 64 := by
        rw [List.take_eq_take]
        simp
      have hdrop : (c :: cs).drop (min 64 (c :: cs).length) = (c :: cs).drop 64 := by
        by_cases hl : 64 ≤ (c :: cs).length
        · rw [Nat.min_eq_left hl]
        · have hl2 : (c :: cs).length ≤ 64 := by omega
          rw [Nat.min_eq_right hl2, List.drop_of_length_le (Nat.le_refl _),
            List.drop_of_length_le hl2]
      rw [wrapLoop, htake, hdrop, payloadLines_cons]
      rw [ih _ _ (by simp only [List.length_drop, List.length_cons] at h ⊢; omega)]
      simp [List.flatMap_cons, List.append_assoc]

theorem payloadLines_flatten : ∀ (n : Nat) (base64 : Str), base64.length ≤ n →
    (payloadLines base64).flatten = base64 := by
  intro n
  induction n with
  | zero =>
    intro base64 h
    have : base64 = [] := List.length_eq_zero.mp (Nat.le_zero.mp h)
    subst this
    simp [payloadLines]
  | succ n ih =>
    intro base64 h
    cases base64 with
    | nil => simp [payloadLines]
    | cons c cs =>
      rw [payloadLines_cons, List.flatten_cons,
        ih _ (by simp only [List.length_drop, List.length_cons] at h ⊢; omega),
        List.take_append_drop]

theorem payloadLines_lengths : ∀ (n : Nat) (base64 : Str), base64.length ≤ n →
    (∀ l ∈ payloadLines base64, l ≠ [] ∧ l.length ≤ 64 ∧ ∀ c ∈ l, c ∈ base64) ∧
    (∀ l ∈ (payloadLines base64).dropLast, l.length = 64) := by
  intro n
  induction n with
  | zero =>
    intro base64 h
    have : base64 = [] := List.length_eq_zero.mp (Nat.le_zero.mp h)
    subst this
    simp [payloadLines]
  | succ n ih =>
    intro base64 h
    cases base64 with
    | nil => simp [payloadLines]
    | cons c cs =>
      obtain ⟨ih1, ih2⟩ :=
        ih ((c :: cs).drop 64) (by simp only [List.length_drop, List.length_cons] at h ⊢; omega)
      rw [payloadLines_cons]
      constructor
      · intro l hl
        rcases List.mem_cons.mp hl with rfl | hl2
        · refine ⟨by simp, by simp [List.length_take], ?_⟩
          intro ch hch
          exact List.mem_of_mem_take hch
        · obtain ⟨h1, h2, h3⟩ := ih1 l hl2
          exact ⟨h1, h2, fun ch hch => List.mem_of_mem_drop (h3 ch hch)⟩
      · intro l hl
        cases hp : payloadLines ((c :: cs).drop 64) with
        | nil => rw [hp] at hl; simp at hl
        | cons l2 ls =>
          rw [hp, List.dropLast_cons₂] at hl
          rcases List.mem_cons.mp hl with rfl | hl2
          · have hne : (c :: cs).drop 64 ≠ [] := by
              intro hd
              rw [hd] at hp
              simp [payloadLines] at hp
            have hlen : 64 < (c :: cs).length := by
              by_contra hcon
              exact hne (List.drop_of_length_le (by omega))
            rw [List.length_take]
            omega
          · apply ih2
            rw [hp]
            exact hl2

theorem skipToBegin_none : ∀ lines : List Str, begin_certificate ∉ lines →
    skipToBegin lines = [] := by
  intro lines
  induction lines with
  | nil => intro _; rfl
  | cons l rest ih =>
    intro h
    have hl : l ≠ begin_certificate := fun e => h (e ▸ List.mem_cons_self _ _)
    rw [skipToBegin, if_pos hl]
    exact ih (fun hm => h (List.mem_cons_of_mem _ hm))

theorem skipToBegin_split : ∀ (pre post : List Str), begin_certificate ∉ pre →
    skipToBegin (pre ++ begin_certificate :: post) = begin_certificate :: post := by
  intro pre
  induction pre with
  | nil => intro post _; simp [skipToBegin]
  | cons l rest ih =>
    intro post h
    have hl : l ≠ begin_certificate := fun e => h (e ▸ List.mem_cons_self _ _)
    rw [List.cons_append, skipToBegin, if_pos hl]
    exact ih post (fun hm => h (List.mem_cons_of_mem _ hm))

theorem readBase64_none : ∀ (lines : List Str) (base64 : Str), end_certificate ∉ lines →
    readBase64 lines base64 = none := by
  intro lines
  induction lines with
  | nil => intro _ _; rfl
  | cons l rest ih =>
    intro base64 h
    have hl : l ≠ end_certificate := fun e => h (e ▸ List.mem_cons_self _ _)
    rw [readBase64, if_neg hl]
    exact ih _ (fun hm => h (List.mem_cons_of_mem _ hm))

theorem readBase64_split : ∀ (mid post : List Str) (base64 : Str), end_certificate ∉ mid →
    readBase64 (mid ++ end_certificate :: post) base64 = some (base64 ++ mid.flatten, post) := by
  intro mid
  induction mid with
  | nil => intro post base64 _; simp [readBase64]
  | cons l rest ih =>
    intro post base64 h
    have hl : l ≠ end_certificate := fun e => h (e ▸ List.mem_cons_self _ _)
    rw [List.cons_append, readBase64, if_neg hl,
      ih post _ (fun hm => h (List.mem_cons_of_mem _ hm))]
    simp [List.append_assoc]

theorem extraLoop_eq : ∀ (post : List Str) (extra : Str),
    extraLoop post extra = extra ++ remainderText post := by
  intro post
  induction post with
  | nil => intro extra; simp [extraLoop, remainderText]
  | cons l rest ih =>
    intro extra
    rw [extraLoop, ih]
    by_cases hl : l = []
    · subst hl
      simp [remainderText]
    · simp [remainderText, hl, List.filter_cons, List.flatMap_cons, List.append_assoc] at ih ⊢

theorem first_occurrence (x : Str) : ∀ lines : List Str, x ∈ lines →
    ∃ pre post, lines = pre ++ x :: post ∧ x ∉ pre := by
  intro lines
  induction lines with
  | nil => intro h; simp at h
  | cons l rest ih =>
    intro h
    by_cases hl : l = x
    · exact ⟨[], rest, by simp [hl], by simp⟩
    · have hr : x ∈ rest := by
        rcases List.mem_cons.mp h with e | e
        · exact absurd e.symm hl
        · exact e
      obtain ⟨pre, post, he, hn⟩ := ih hr
      refine ⟨l :: pre, post, by simp [he], ?_⟩
      intro hm
      rcases List.mem_cons.mp hm with e | e
      · exact hl e.symm
      · exact hn e

/-- The three shapes of a list of lines: no BEGIN line; a first BEGIN line with no END line
after it; a first BEGIN line, then a first END line after it. -/
theorem lines_shape (lines : List Str) :
    begin_certificate ∉ lines ∨
    (∃ pre post, lines = pre ++ begin_certificate :: post ∧ begin_certificate ∉ pre ∧
      end_certificate ∉ post) ∨
    (∃ pre mid post, lines = pre ++ begin_certificate :: (mid ++ end_certificate :: post) ∧
      begin_certificate ∉ pre ∧ end_certificate ∉ mid) := by
  by_cases hb : begin_certificate ∈ lines
  · obtain ⟨pre, rest, he, hn⟩ := first_occurrence _ lines hb
    by_cases hend : end_certificate ∈ rest
    · obtain ⟨mid, post, he2, hn2⟩ := first_occurrence _ rest hend
      exact Or.inr (Or.inr ⟨pre, mid, post, by rw [he, he2], hn, hn2⟩)
    · exact Or.inr (Or.inl ⟨pre, rest, he, hn, hend⟩)
  · exact Or.inl hb

theorem fixed_missing_begin (cert : Str) (h : begin_certificate ∉ readLines cert []) :
    Certificate.fixed cert = .error ⟨"missing BEGIN line in certificate"⟩ := by
  unfold Certificate.fixed
  rw [skipToBegin_none _ h]

theorem fixed_missing_end (cert : Str) (pre post : List Str)
    (hl : readLines cert [] = pre ++ begin_certificate :: post)
    (hb : begin_certificate ∉ pre) (he : end_certificate ∉ post) :
    Certificate.fixed cert = .error ⟨"missing END line in certificate"⟩ := by
  unfold Certificate.fixed
  rw [hl, skipToBegin_split _ _ hb]
  simp only
  rw [readBase64_none _ _ he]

theorem fixed_ok (cert : Str) (pre mid post : List Str)
    (hl : readLines cert [] = pre ++ begin_certificate :: (mid ++ end_certificate :: post))
    (hb : begin_certificate ∉ pre) (he : end_certificate ∉ mid) :
    Certificate.fixed cert = .ok (pemText mid.flatten, post) := by
  unfold Certificate.fixed
  rw [hl, skipToBegin_split _ _ hb]
  simp only
  rw [readBase64_split _ _ _ he]
  simp only [List.nil_append]
  rw [wrapLoop_eq _ _ _ (Nat.le_refl _)]
  rfl

theorem read_string_ok {X : Type} (decode : Str → Option X) (c : Certificate X) (cert : Str)
    (pre mid post : List Str)
    (hl : readLines cert [] = pre ++ begin_certificate :: (mid ++ end_certificate :: post))
    (hb : begin_certificate ∉ pre) (he : end_certificate ∉ mid) :
    Certificate.read_string decode c cert =
      match decode (pemText mid.flatten) with
      | none =>
        (.error ⟨"could not read X509 certificate from memory BIO"⟩, { _certificate := none })
      | some x => (.ok (remainderText post), { _certificate := some x }) := by
  unfold Certificate.read_string
  rw [fixed_ok cert pre mid post hl hb he]
  simp only
  cases decode (pemText mid.flatten) with
  | none => rfl
  | some x => simp [extraLoop_eq]

theorem lines_chainText :
    readLines chainText [] =
      [] ++ begin_certificate ::
        ([[], "QUJD".toList, [], "REVG".toList, []] ++ end_certificate ::
          [[], begin_certificate, "R0hJ".toList, end_certificate]) := by
  decide

/-- C14: when no line of the input, trimmed, equals the BEGIN line, `read_string` fails with
"missing BEGIN line in certificate"; when there is a BEGIN line and no line after the first
one equals the END line, it fails with "missing END line in certificate".  In both cases the
outcome is the same for every decoder, which is not reached, and the certificate of the
object is left as it was. -/
theorem C14_missing_markers_fail {X : Type} (decode : Str → Option X) (c : Certificate X)
    (cert : Str) :
    (begin_certificate ∉ readLines cert [] →
      Certificate.read_string decode c cert
        = (.error ⟨"missing BEGIN line in certificate"⟩, c)) ∧
    (∀ pre post, readLines cert [] = pre ++ begin_certificate :: post →
      begin_certificate ∉ pre → end_certificate ∉ post →
      Certificate.read_string decode c cert
        = (.error ⟨"missing END line in certificate"⟩, c)) := by
  constructor
  · intro h
    unfold Certificate.read_string
    rw [fixed_missing_begin cert h]
  · intro pre post hl hb he
    unfold Certificate.read_string
    rw [fixed_missing_end cert pre post hl hb he]

/-- C14 at `noCertificateText` and `cutOffText`. -/
theorem C14_missing_markers_fail_witness :
    Certificate.read_string acceptAll ⟨some []⟩ noCertificateText
      = (.error ⟨"missing BEGIN line in certificate"⟩, ⟨some []⟩) ∧
    Certificate.read_string acceptAll ⟨some []⟩ cutOffText
      = (.error ⟨"missing END line in certificate"⟩, ⟨some []⟩) :=
  ⟨(C14_missing_markers_fail acceptAll ⟨some []⟩ noCertificateText).1 (by decide),
   (C14_missing_markers_fail acceptAll ⟨some []⟩ cutOffText).2 ["junk".toList]
     ["QUJD".toList, "REVG".toList] (by decide) (by decide) (by decide)⟩

theorem ofString_eq {X : Type} (decode : Str → Option X) (cert : Str) (x : X)
    (pre mid post : List Str)
    (hl : readLines cert [] = pre ++ begin_certificate :: (mid ++ end_certificate :: post))
    (hb : begin_certificate ∉ pre) (he : end_certificate ∉ mid)
    (hdec : decode (pemText mid.flatten) = some x) :
    Certificate.ofString decode cert =
      if remainderText post ≠ [] then .error ⟨"unexpected data after certificate"⟩
      else .ok { _certificate := some x } := by
  unfold Certificate.ofString
  rw [read_string_ok decode _ cert pre mid post hl hb he, hdec]

theorem remainderText_eq_nil (post : List Str) :
    remainderText post = [] ↔ ∀ l ∈ post, l = [] := by
  induction post with
  | nil => simp [remainderText]
  | cons l rest ih =>
    by_cases hl : l = []
    · subst hl
      simp [remainderText] at ih ⊢
    · simp [remainderText, hl, List.filter_cons, List.flatMap_cons]

theorem read_string_chainText :
    Certificate.read_string acceptAll ⟨none⟩ chainText =
      (.ok (canonicalPEM "R0hJ".toList),
        ⟨some (pemText ([[], "QUJD".toList, [], "REVG".toList, []] : List Str).flatten)⟩) := by
  rw [read_string_ok acceptAll _ chainText _ _ _ lines_chainText (by decide) (by decide)]
  simp only [acceptAll]
  have hp : payloadLines "R0hJ".toList = ["R0hJ".toList] := by
    simp [payloadLines]
  have hr : remainderText [[], begin_certificate, "R0hJ".toList, end_certificate]
      = canonicalPEM "R0hJ".toList := by
    rw [canonicalPEM, pemText, hp]
    decide
  rw [hr]

/-- C15 as stated fails: `chainText` is a decodable certificate block followed by a second
block; `read_string` reads the first block and returns the second, and the constructor then
throws "unexpected data after certificate". -/
theorem C15_chain_file_rejected :
    ¬ (∀ (decode : Str → Option Str) (cert extra x : Str),
        Certificate.read_string decode ⟨none⟩ cert = (.ok extra, ⟨some x⟩) →
        Certificate.ofString decode cert = .ok ⟨some x⟩) := by
  intro h
  have h1 := h acceptAll chainText _ _ read_string_chainText
  have h2 : Certificate.ofString acceptAll chainText
      = .error ⟨"unexpected data after certificate"⟩ := by
    rw [ofString_eq acceptAll chainText _ _ _ _ lines_chainText (by decide) (by decide) rfl]
    exact if_pos (by decide)
  rw [h2] at h1
  simp at h1

/-- C15 (amended): for a string that holds a decodable PEM certificate block, `read_string`
reads the first block and returns the non-blank lines that follow its END line; the
constructor of `Certificate` from a string succeeds, with the first block as certificate,
when only blank lines follow the END line, and throws "unexpected data after certificate"
when a non-blank line follows it (for example a second block of a chain file). -/
theorem C15_trailing_data_rejected {X : Type} (decode : Str → Option X) (cert : Str) (x : X)
    (pre mid post : List Str)
    (hl : readLines cert [] = pre ++ begin_certificate :: (mid ++ end_certificate :: post))
    (hb : begin_certificate ∉ pre) (he : end_certificate ∉ mid)
    (hdec : decode (pemText mid.flatten) = some x) :
    Certificate.read_string decode ⟨none⟩ cert = (.ok (remainderText post), ⟨some x⟩) ∧
    ((∀ l ∈ post, l = []) → Certificate.ofString decode cert = .ok ⟨some x⟩) ∧
    ((∃ l ∈ post, l ≠ []) →
      Certificate.ofString decode cert = .error ⟨"unexpected data after certificate"⟩) := by
  refine ⟨?_, ?_, ?_⟩
  · rw [read_string_ok decode _ cert pre mid post hl hb he, hdec]
  · intro hall
    rw [ofString_eq decode cert x pre mid post hl hb he hdec,
      if_neg (not_not.mpr ((remainderText_eq_nil post).mpr hall))]
  · intro hex
    have hne : remainderText post ≠ [] := by
      intro hnil
      obtain ⟨l, hl1, hl2⟩ := hex
      exact hl2 ((remainderText_eq_nil post).mp hnil l hl1)
    rw [ofString_eq decode cert x pre mid post hl hb he hdec, if_pos hne]

/-- C15 (amended) at `chainText`. -/
theorem C15_trailing_data_rejected_witness :
    Certificate.ofString acceptAll chainText
      = .error ⟨"unexpected data after certificate"⟩ :=
  (C15_trailing_data_rejected acceptAll chainText _ _ _ _ lines_chainText (by decide)
    (by decide) rfl).2.2 ⟨begin_certificate, by decide, by decide⟩

/-! ### Canonical PEM text -/

theorem readLines_line (t : Char) (ht : t = '\r' ∨ t = '\n') (rest : Str) :
    ∀ (l acc : Str), (∀ c ∈ l, c ≠ '\r' ∧ c ≠ '\n') →
      readLines (l ++ t :: rest) acc = trim (acc ++ l ++ [t]) :: readLines rest [] := by
  intro l
  induction l with
  | nil =>
    intro acc _
    simp only [List.nil_append, List.append_nil, readLines, if_pos ht]
  | cons c l ih =>
    intro acc h
    have hc : ¬ (c = '\r' ∨ c = '\n') := by
      have := h c (List.mem_cons_self _ _)
      tauto
    rw [List.cons_append, readLines, if_neg hc,
      ih _ (fun d hd => h d (List.mem_cons_of_mem _ hd))]
    simp [List.append_assoc]

theorem dropWhile_isSpace_self (m : Str) (h : ∀ c ∈ m, isSpace c = false) :
    m.dropWhile isSpace = m := by
  cases m with
  | nil => rfl
  | cons c m => simp [List.dropWhile, h c (List.mem_cons_self _ _)]

theorem trim_line (l : Str) (h : ∀ c ∈ l, isSpace c = false) : trim (l ++ ['\n']) = l := by
  cases l with
  | nil => decide
  | cons c l =>
    have h1 : (c :: l ++ ['\n']).dropWhile isSpace = c :: l ++ ['\n'] := by
      simp [List.dropWhile, h c (List.mem_cons_self _ _)]
    have h2 : (c :: l ++ ['\n']).reverse = '\n' :: (c :: l).reverse := by simp
    have h3 : ('\n' :: (c :: l).reverse).dropWhile isSpace = (c :: l).reverse := by
      have hn : isSpace '\n' = true := by decide
      rw [List.dropWhile_cons_of_pos hn]
      exact dropWhile_isSpace_self _ (fun d hd => h d (List.mem_reverse.mp hd))
    rw [trim, h1, h2, h3, List.reverse_reverse]

theorem not_newline_of_not_space (c : Char) (h : isSpace c = false) : c ≠ '\r' ∧ c ≠ '\n' := by
  constructor
  · intro e; subst e; exact absurd h (by decide)
  · intro e; subst e; exact absurd h (by decide)

theorem readLines_payload (rest : Str) :
    ∀ ls : List Str, (∀ l ∈ ls, ∀ c ∈ l, isSpace c = false) →
      readLines (ls.flatMap (fun l => l ++ ['\n']) ++ rest) [] = ls ++ readLines rest [] := by
  intro ls
  induction ls with
  | nil => intro _; simp
  | cons l ls ih =>
    intro h
    have hl := h l (List.mem_cons_self _ _)
    rw [List.flatMap_cons, List.append_assoc, List.append_assoc, List.singleton_append,
      readLines_line '\n' (Or.inr rfl) _ l []
        (fun c hc => not_newline_of_not_space c (hl c hc)),
      List.nil_append, trim_line l hl, ih (fun m hm => h m (List.mem_cons_of_mem _ hm))]
    rfl

theorem readLines_canonicalPEM (payload rest : Str)
    (h : ∀ c ∈ payload, isSpace c = false) :
    readLines (canonicalPEM payload ++ rest) [] =
      begin_certificate :: (payloadLines payload ++ end_certificate :: readLines rest []) := by
  have hlines : ∀ l ∈ payloadLines payload, ∀ c ∈ l, isSpace c = false := by
    intro l hl c hc
    exact h c (((payloadLines_lengths _ payload (Nat.le_refl _)).1 l hl).2.2 c hc)
  have hshape : canonicalPEM payload ++ rest =
      begin_certificate ++ '\n' ::
        ((payloadLines payload).flatMap (fun l => l ++ ['\n']) ++
          (end_certificate ++ '\n' :: rest)) := by
    simp [canonicalPEM, pemText, List.append_assoc]
  rw [hshape, readLines_line '\n' (Or.inr rfl) _ begin_certificate [] (by decide),
    readLines_payload _ _ hlines,
    readLines_line '\n' (Or.inr rfl) _ end_certificate [] (by decide)]
  have hb : trim ([] ++ begin_certificate ++ ['\n']) = begin_certificate := by decide
  have he : trim ([] ++ end_certificate ++ ['\n']) = end_certificate := by decide
  rw [hb, he]

theorem end_not_mem_payloadLines (payload : Str) (h : ∀ c ∈ payload, c ≠ '-') :
    end_certificate ∉ payloadLines payload := by
  intro hm
  have hc := ((payloadLines_lengths _ payload (Nat.le_refl _)).1 _ hm).2.2 '-' (by decide)
  exact h '-' hc rfl

theorem remainderText_canonical (payload : Str) :
    remainderText (begin_certificate :: (payloadLines payload ++ [end_certificate]))
      = canonicalPEM payload := by
  have hne : ∀ l ∈ payloadLines payload, l ≠ [] :=
    fun l hl => ((payloadLines_lengths _ payload (Nat.le_refl _)).1 l hl).1
  have hfilter : (begin_certificate :: (payloadLines payload ++ [end_certificate])).filter
      (fun l => decide (l ≠ [])) = begin_certificate :: (payloadLines payload ++ [end_certificate]) := by
    apply List.filter_eq_self.mpr
    intro l hl
    rcases List.mem_cons.mp hl with rfl | hl
    · decide
    · rcases List.mem_append.mp hl with hl | hl
      · simpa using hne l hl
      · rw [List.mem_singleton.mp hl]
        decide
  rw [remainderText, hfilter]
  simp [canonicalPEM, pemText, List.flatMap_cons, List.flatMap_append, List.append_assoc]

/-- C16: whenever `read_string` accepts its input, the string it returns is the remainder
after the END line that closes the block (the first END line after the first BEGIN line):
the lines that follow it, trimmed, without the blank ones, each followed by one line feed.
For an input made of two canonical PEM blocks the returned string is the second block, and
`read_string` applied to it reads the second certificate and returns the empty string. -/
theorem C16_remainder_after_end {X : Type} (decode : Str → Option X) (c : Certificate X) :
    (∀ (cert extra : Str) (c1 : Certificate X),
      Certificate.read_string decode c cert = (.ok extra, c1) →
      ∃ pre mid post,
        readLines cert [] = pre ++ begin_certificate :: (mid ++ end_certificate :: post) ∧
        begin_certificate ∉ pre ∧ end_certificate ∉ mid ∧
        extra = (post.filter (fun l => l ≠ [])).flatMap (fun l => l ++ ['\n'])) ∧
    (∀ (p1 p2 : Str) (x1 x2 : X),
      (∀ ch ∈ p1 ++ p2, isSpace ch = false ∧ ch ≠ '-') →
      decode (pemText p1) = some x1 → decode (pemText p2) = some x2 →
      Certificate.read_string decode c (canonicalPEM p1 ++ canonicalPEM p2)
        = (.ok (canonicalPEM p2), ⟨some x1⟩) ∧
      Certificate.read_string decode ⟨some x1⟩ (canonicalPEM p2) = (.ok [], ⟨some x2⟩)) := by
  constructor
  · intro cert extra c1 h
    rcases lines_shape (readLines cert []) with hno | ⟨pre, post, hl, hb, he⟩ |
      ⟨pre, mid, post, hl, hb, he⟩
    · unfold Certificate.read_string at h
      rw [fixed_missing_begin cert hno] at h
      simp at h
    · unfold Certificate.read_string at h
      rw [fixed_missing_end cert pre post hl hb he] at h
      simp at h
    · refine ⟨pre, mid, post, hl, hb, he, ?_⟩
      rw [read_string_ok decode c cert pre mid post hl hb he] at h
      cases hd : decode (pemText mid.flatten) with
      | none => rw [hd] at h; simp at h
      | some x =>
        rw [hd] at h
        simp only [Prod.mk.injEq, Except.ok.injEq] at h
        exact h.1.symm
  · intro p1 p2 x1 x2 hch hd1 hd2
    have h1 : ∀ ch ∈ p1, isSpace ch = false ∧ ch ≠ '-' :=
      fun ch hm => hch ch (List.mem_append_left _ hm)
    have h2 : ∀ ch ∈ p2, isSpace ch = false ∧ ch ≠ '-' :=
      fun ch hm => hch ch (List.mem_append_right _ hm)
    have hl2 : readLines (canonicalPEM p2) [] =
        [] ++ begin_certificate :: (payloadLines p2 ++ end_certificate :: []) := by
      have := readLines_canonicalPEM p2 [] (fun ch hm => (h2 ch hm).1)
      simpa [readLines] using this
    have hl1 : readLines (canonicalPEM p1 ++ canonicalPEM p2) [] =
        [] ++ begin_certificate :: (payloadLines p1 ++ end_certificate ::
          (begin_certificate :: (payloadLines p2 ++ [end_certificate]))) := by
      rw [readLines_canonicalPEM p1 _ (fun ch hm => (h1 ch hm).1), hl2]
      rfl
    constructor
    · rw [read_string_ok decode c _ _ _ _ hl1 (by simp)
        (end_not_mem_payloadLines p1 (fun ch hm => (h1 ch hm).2)),
        payloadLines_flatten _ p1 (Nat.le_refl _), hd1]
      simp only [remainderText_canonical]
    · rw [read_string_ok decode _ _ _ _ _ hl2 (by simp)
        (end_not_mem_payloadLines p2 (fun ch hm => (h2 ch hm).2)),
        payloadLines_flatten _ p2 (Nat.le_refl _), hd2]
      rfl

/-- C16 at two canonical blocks with the payloads `QUJD` and `R0hJ`. -/
theorem C16_remainder_after_end_witness :
    Certificate.read_string acceptAll ⟨none⟩
        (canonicalPEM "QUJD".toList ++ canonicalPEM "R0hJ".toList)
      = (.ok (canonicalPEM "R0hJ".toList), ⟨some (pemText "QUJD".toList)⟩) ∧
    Certificate.read_string acceptAll ⟨some (pemText "QUJD".toList)⟩
        (canonicalPEM "R0hJ".toList)
      = (.ok [], ⟨some (pemText "R0hJ".toList)⟩) :=
  (C16_remainder_after_end acceptAll ⟨none⟩).2 "QUJD".toList "R0hJ".toList _ _
    (by decide) rfl rfl

/-- C17: let the encoder write, for every certificate, the canonical PEM block of its base64
payload, and let the decoder read the certificate back from that block without its final
line feed.  Then for every certificate, `read_string` normalises `certificate (true)` to the
same text without its final line feed and finds nothing after the END line, constructing a
`Certificate` from `certificate (true)` succeeds, and `certificate (true)` of the new
certificate is the same string. -/
theorem C17_certificate_round_trip {X : Type} (encode payload : X → Str)
    (decode : Str → Option X)
    (henc : ∀ x, encode x = canonicalPEM (payload x))
    (hchars : ∀ x, ∀ ch ∈ payload x, isSpace ch = false ∧ ch ≠ '-')
    (hdec : ∀ x, decode (pemText (payload x)) = some x)
    (c : Certificate X) (x : X) (hc : c._certificate = some x) :
    Certificate.fixed (canonicalPEM (payload x)) = .ok (pemText (payload x), []) ∧
    ∃ s c1, Certificate.certificate encode c true = some s ∧
      Certificate.ofString decode s = .ok c1 ∧
      Certificate.certificate encode c1 true = some s := by
  have hl : readLines (canonicalPEM (payload x)) [] =
      [] ++ begin_certificate :: (payloadLines (payload x) ++ end_certificate :: []) := by
    have := readLines_canonicalPEM (payload x) [] (fun ch hm => (hchars x ch hm).1)
    simpa [readLines] using this
  have hend := end_not_mem_payloadLines (payload x) (fun ch hm => (hchars x ch hm).2)
  have hflat := payloadLines_flatten _ (payload x) (Nat.le_refl _)
  constructor
  · rw [fixed_ok _ _ _ _ hl (by simp) hend, hflat]
  · refine ⟨encode x, ⟨some x⟩, ?_, ?_, ?_⟩
    · simp [Certificate.certificate, hc]
    · rw [henc, ofString_eq decode _ x _ _ _ hl (by simp) hend (by rw [hflat]; exact hdec x)]
      simp [remainderText]
    · simp [Certificate.certificate]

theorem payloadLines_sample (b : Bool) : payloadLines (samplePayload b) = [samplePayload b] := by
  cases b <;> simp [samplePayload, payloadLines]

/-- C17 at the two sample certificates. -/
theorem C17_certificate_round_trip_witness :
    ∃ s c1, Certificate.certificate sampleEncode ⟨some true⟩ true = some s ∧
      Certificate.ofString sampleDecode s = .ok c1 ∧
      Certificate.certificate sampleEncode c1 true = some s :=
  (C17_certificate_round_trip sampleEncode samplePayload sampleDecode (fun _ => rfl)
    (by intro x; cases x <;> decide)
    (by
      intro x
      cases x <;> simp [sampleDecode, pemText, payloadLines_sample] <;>
        simp [samplePayload, begin_certificate, end_certificate])
    ⟨some true⟩ true rfl).2

/-- C18: for every input with a BEGIN line and, after the first one, an END line, the text
handed to the decoder is the BEGIN line, the payload in lines of exactly 64 characters but
for a last line that may be shorter and is not empty, each followed by a line feed, and the
END line without line feed after it; the payload lines put together are the trimmed input
lines between the first BEGIN line and the first END line after it put together, and an
empty payload gives no payload line. -/
theorem C18_decoder_input_rewrapped {X : Type} (decode : Str → Option X) (c : Certificate X)
    (cert : Str) (pre mid post : List Str)
    (hl : readLines cert [] = pre ++ begin_certificate :: (mid ++ end_certificate :: post))
    (hb : begin_certificate ∉ pre) (he : end_certificate ∉ mid) :
    ∃ lines : List Str,
      Certificate.fixed cert =
        .ok (begin_certificate ++ ['\n'] ++ lines.flatMap (fun l => l ++ ['\n'])
              ++ end_certificate, post) ∧
      Certificate.read_string decode c cert =
        (match decode (begin_certificate ++ ['\n'] ++ lines.flatMap (fun l => l ++ ['\n'])
              ++ end_certificate) with
         | none =>
           (.error ⟨"could not read X509 certificate from memory BIO"⟩,
             { _certificate := none })
         | some x => (.ok (remainderText post), { _certificate := some x })) ∧
      lines.flatten = mid.flatten ∧
      (∀ l ∈ lines.dropLast, l.length = 64) ∧
      (∀ l ∈ lines, l ≠ [] ∧ l.length ≤ 64) ∧
      (mid.flatten = [] → lines = []) := by
  obtain ⟨h1, h2⟩ := payloadLines_lengths _ mid.flatten (Nat.le_refl _)
  refine ⟨payloadLines mid.flatten, ?_, ?_, ?_, h2, ?_, ?_⟩
  · rw [fixed_ok cert pre mid post hl hb he]
    rfl
  · rw [read_string_ok decode c cert pre mid post hl hb he]
    rfl
  · exact payloadLines_flatten _ _ (Nat.le_refl _)
  · exact fun l hm => ⟨(h1 l hm).1, (h1 l hm).2.1⟩
  · intro hnil
    rw [hnil]
    simp [payloadLines]

/-- C18 at `chainText`, whose first block has CR LF line ends and indented payload lines. -/
theorem C18_decoder_input_rewrapped_witness :
    ∃ lines : List Str,
      Certificate.fixed chainText =
        .ok (begin_certificate ++ ['\n'] ++ lines.flatMap (fun l => l ++ ['\n'])
              ++ end_certificate,
             [[], begin_certificate, "R0hJ".toList, end_certificate]) ∧
      lines.flatten = "QUJDREVG".toList ∧
      (∀ l ∈ lines, l ≠ [] ∧ l.length ≤ 64) := by
  obtain ⟨lines, h1, _, h3, _, h5, _⟩ :=
    C18_decoder_input_rewrapped acceptAll ⟨none⟩ chainText _ _ _ lines_chainText
      (by decide) (by decide)
  exact ⟨lines, h1, h3.trans (by decide), h5⟩

/-! ### Rounding to `float` -/

theorem roundHalfEven_intCast (n : Int) : roundHalfEven (n : ℚ) = n := by
  simp [roundHalfEven]

theorem roundHalfEven_floor_le (m : ℚ) : ⌊m⌋ ≤ roundHalfEven m := by
  unfold roundHalfEven
  split_ifs <;> omega

theorem roundHalfEven_le_floor_succ (m : ℚ) : roundHalfEven m ≤ ⌊m⌋ + 1 := by
  unfold roundHalfEven
  split_ifs <;> omega

theorem roundHalfEven_mono {a b : ℚ} (h : a ≤ b) : roundHalfEven a ≤ roundHalfEven b := by
  have hfl : ⌊a⌋ ≤ ⌊b⌋ := Int.floor_mono h
  rcases lt_or_eq_of_le hfl with hlt | heq
  · have h1 := roundHalfEven_le_floor_succ a
    have h2 := roundHalfEven_floor_le b
    omega
  · unfold roundHalfEven
    rw [← heq]
    split_ifs <;> first | omega | (exfalso; linarith)

theorem roundHalfEven_neg (a : ℚ) : roundHalfEven (-a) = -roundHalfEven a := by
  by_cases hint : (⌊a⌋ : ℚ) = a
  · rw [← hint, ← Int.cast_neg, roundHalfEven_intCast, roundHalfEven_intCast]
  · have hlt : (⌊a⌋ : ℚ) < a := lt_of_le_of_ne (Int.floor_le a) hint
    have hfl : ⌊-a⌋ = -⌊a⌋ - 1 := by
      rw [Int.floor_eq_iff]
      have := Int.lt_floor_add_one a
      push_cast
      constructor <;> linarith
    unfold roundHalfEven
    rw [hfl]
    push_cast
    split_ifs <;> first | omega | (exfalso; linarith)

theorem roundHalfEven_eq {a : ℚ} {n : Int} (h1 : (n : ℚ) - 1 / 2 < a) (h2 : a < n + 1 / 2) :
    roundHalfEven a = n := by
  have hn : roundHalfEven (n : ℚ) = n := roundHalfEven_intCast n
  by_cases hle : (n : ℚ) ≤ a
  · have hfl : ⌊a⌋ = n := by
      rw [Int.floor_eq_iff]
      constructor <;> linarith
    unfold roundHalfEven
    rw [hfl]
    rw [if_pos (by linarith)]
  · have hfl : ⌊a⌋ = n - 1 := by
      rw [Int.floor_eq_iff]
      push_cast
      constructor <;> linarith
    unfold roundHalfEven
    rw [hfl]
    push_cast
    rw [if_neg (by linarith), if_pos (by linarith)]
    omega


theorem f32Exponent_neg (x : ℚ) : f32Exponent (-x) = f32Exponent x := by
  simp [f32Exponent]

theorem f32Exponent_eq {x : ℚ} {e : Int} (he : -126 ≤ e) (h1 : (2 : ℚ) ^ e ≤ |x|)
    (h2 : |x| < (2 : ℚ) ^ (e + 1)) : f32Exponent x = e := by
  have hpos : 0 < |x| := lt_of_lt_of_le (zpow_pos (by norm_num) e) h1
  have hb : 1 < 2 := by norm_num
  have ha : e ≤ Int.log 2 |x| := (Int.zpow_le_iff_le_log hb hpos).mp (by exact_mod_cast h1)
  have hc : Int.log 2 |x| < e + 1 := (Int.lt_zpow_iff_log_lt hb hpos).mp (by exact_mod_cast h2)
  unfold f32Exponent
  omega

theorem f32Exponent_ge (x : ℚ) : -126 ≤ f32Exponent x := le_max_right _ _

theorem f32Exponent_mono {x y : ℚ} (hx : 0 < x) (h : x ≤ y) :
    f32Exponent x ≤ f32Exponent y := by
  unfold f32Exponent
  rw [abs_of_pos hx, abs_of_pos (lt_of_lt_of_le hx h)]
  exact max_le_max (Int.log_mono_right hx h) (le_refl _)

theorem lt_zpow_f32Exponent_succ {x : ℚ} (hx : 0 < x) : x < (2 : ℚ) ^ (f32Exponent x + 1) := by
  have h1 : x < ((2 : ℕ) : ℚ) ^ (Int.log 2 x + 1) := Int.lt_zpow_succ_log_self (by norm_num) x
  have h2 : ((2 : ℕ) : ℚ) ^ (Int.log 2 x + 1) ≤ (2 : ℚ) ^ (f32Exponent x + 1) := by
    rw [Nat.cast_ofNat]
    apply zpow_le_zpow_right₀ (by norm_num)
    unfold f32Exponent
    rw [abs_of_pos hx]
    have := le_max_left (Int.log 2 x) (-126)
    omega
  exact lt_of_lt_of_le h1 h2

theorem zpow_f32Exponent_le {x : ℚ} (hx : 0 < x) (he : -126 < f32Exponent x) :
    (2 : ℚ) ^ f32Exponent x ≤ x := by
  have hlog : f32Exponent x = Int.log 2 x := by
    unfold f32Exponent at he ⊢
    rw [abs_of_pos hx] at he ⊢
    rcases max_cases (Int.log 2 x) (-126) with ⟨h, _⟩ | ⟨h, _⟩
    · exact h
    · rw [h] at he; exact absurd he (lt_irrefl _)
  rw [hlog]
  have := Int.zpow_log_le_self (R := ℚ) (b := 2) (by norm_num) hx
  rwa [Nat.cast_ofNat] at this

theorem f32Ulp_pos (x : ℚ) : 0 < f32Ulp x := zpow_pos (by norm_num) _

theorem f32Ulp_neg (x : ℚ) : f32Ulp (-x) = f32Ulp x := by
  simp [f32Ulp, f32Exponent_neg]

theorem f32Nearest_neg (x : ℚ) : f32Nearest (-x) = -f32Nearest x := by
  simp [f32Nearest, f32Ulp_neg, neg_div, roundHalfEven_neg]

theorem f32Nearest_zero : f32Nearest 0 = 0 := by
  simp [f32Nearest, roundHalfEven]

theorem f32Nearest_nonneg {x : ℚ} (hx : 0 ≤ x) : 0 ≤ f32Nearest x := by
  unfold f32Nearest
  have h0 : (0 : ℚ) ≤ x / f32Ulp x := div_nonneg hx (le_of_lt (f32Ulp_pos x))
  have h1 : roundHalfEven ((0 : Int) : ℚ) ≤ roundHalfEven (x / f32Ulp x) :=
    roundHalfEven_mono (by simpa using h0)
  rw [roundHalfEven_intCast] at h1
  exact mul_nonneg (by exact_mod_cast h1) (le_of_lt (f32Ulp_pos x))

theorem two_pow_24_mul (e : Int) :
    (((2 : Int) ^ 24 : Int) : ℚ) * (2 : ℚ) ^ (e - 23) = (2 : ℚ) ^ (e + 1) := by
  rw [show e + 1 = (24 : Int) + (e - 23) by omega, zpow_add₀ (by norm_num)]
  norm_num

theorem two_pow_23_mul (e : Int) :
    (((2 : Int) ^ 23 : Int) : ℚ) * (2 : ℚ) ^ (e - 23) = (2 : ℚ) ^ e := by
  nth_rewrite 2 [show e = (23 : Int) + (e - 23) by omega]
  rw [zpow_add₀ (by norm_num)]
  norm_num

theorem f32Nearest_le_zpow {x : ℚ} (hx : 0 < x) :
    f32Nearest x ≤ (2 : ℚ) ^ (f32Exponent x + 1) := by
  unfold f32Nearest
  have hu := f32Ulp_pos x
  have h1 : x / f32Ulp x ≤ (((2 : Int) ^ 24 : Int) : ℚ) := by
    rw [div_le_iff₀ hu]
    have := lt_zpow_f32Exponent_succ hx
    have h2 : (((2 : Int) ^ 24 : Int) : ℚ) * f32Ulp x = (2 : ℚ) ^ (f32Exponent x + 1) :=
      two_pow_24_mul _
    rw [h2]
    exact le_of_lt this
  have h3 := roundHalfEven_mono h1
  rw [roundHalfEven_intCast] at h3
  have h4 : ((roundHalfEven (x / f32Ulp x) : Int) : ℚ) ≤ (((2 : Int) ^ 24 : Int) : ℚ) := by
    exact_mod_cast h3
  calc (roundHalfEven (x / f32Ulp x) : ℚ) * f32Ulp x
      ≤ (((2 : Int) ^ 24 : Int) : ℚ) * f32Ulp x := mul_le_mul_of_nonneg_right h4 (le_of_lt hu)
    _ = (2 : ℚ) ^ (f32Exponent x + 1) := two_pow_24_mul _

theorem zpow_le_f32Nearest {x : ℚ} (hx : 0 < x) (he : -126 < f32Exponent x) :
    (2 : ℚ) ^ f32Exponent x ≤ f32Nearest x := by
  unfold f32Nearest
  have hu := f32Ulp_pos x
  have hmul : (((2 : Int) ^ 23 : Int) : ℚ) * f32Ulp x = (2 : ℚ) ^ f32Exponent x :=
    two_pow_23_mul _
  have h1 : (((2 : Int) ^ 23 : Int) : ℚ) ≤ x / f32Ulp x := by
    rw [le_div_iff₀ hu, hmul]
    exact zpow_f32Exponent_le hx he
  have h3 := roundHalfEven_mono h1
  rw [roundHalfEven_intCast] at h3
  have h4 : (((2 : Int) ^ 23 : Int) : ℚ) ≤ ((roundHalfEven (x / f32Ulp x) : Int) : ℚ) := by
    exact_mod_cast h3
  calc (2 : ℚ) ^ f32Exponent x = (((2 : Int) ^ 23 : Int) : ℚ) * f32Ulp x := hmul.symm
    _ ≤ (roundHalfEven (x / f32Ulp x) : ℚ) * f32Ulp x :=
      mul_le_mul_of_nonneg_right h4 (le_of_lt hu)

theorem f32Nearest_mono_pos {x y : ℚ} (hx : 0 < x) (h : x ≤ y) :
    f32Nearest x ≤ f32Nearest y := by
  have hy : 0 < y := lt_of_lt_of_le hx h
  rcases lt_or_eq_of_le (f32Exponent_mono hx h) with hlt | heq
  · have h1 := f32Nearest_le_zpow hx
    have h2 := zpow_le_f32Nearest hy (lt_of_le_of_lt (f32Exponent_ge x) hlt)
    have h3 : (2 : ℚ) ^ (f32Exponent x + 1) ≤ (2 : ℚ) ^ f32Exponent y :=
      zpow_le_zpow_right₀ (by norm_num) (by omega)
    linarith
  · have hu : f32Ulp y = f32Ulp x := by unfold f32Ulp; rw [heq]
    unfold f32Nearest
    rw [hu]
    have h1 : x / f32Ulp x ≤ y / f32Ulp x :=
      div_le_div_of_nonneg_right h (le_of_lt (f32Ulp_pos x))
    have h2 := roundHalfEven_mono h1
    exact mul_le_mul_of_nonneg_right (by exact_mod_cast h2) (le_of_lt (f32Ulp_pos x))

theorem f32Nearest_mono {x y : ℚ} (h : x ≤ y) : f32Nearest x ≤ f32Nearest y := by
  rcases lt_trichotomy 0 x with hx | hx | hx
  · exact f32Nearest_mono_pos hx h
  · rw [← hx, f32Nearest_zero]
    exact f32Nearest_nonneg (hx ▸ h)
  · rcases le_or_lt 0 y with hy | hy
    · have h1 := f32Nearest_nonneg (x := -x) (by linarith)
      rw [f32Nearest_neg] at h1
      have h2 := f32Nearest_nonneg hy
      linarith
    · have h1 := f32Nearest_mono_pos (x := -y) (y := -x) (by linarith) (by linarith)
      rw [f32Nearest_neg, f32Nearest_neg] at h1
      linarith

theorem f32Nearest_eq {x : ℚ} {e n : Int} (he : -126 ≤ e) (h1 : (2 : ℚ) ^ e ≤ |x|)
    (h2 : |x| < (2 : ℚ) ^ (e + 1)) (hn1 : (n : ℚ) - 1 / 2 < x / (2 : ℚ) ^ (e - 23))
    (hn2 : x / (2 : ℚ) ^ (e - 23) < n + 1 / 2) :
    f32Nearest x = n * (2 : ℚ) ^ (e - 23) := by
  unfold f32Nearest f32Ulp
  rw [f32Exponent_eq he h1 h2, roundHalfEven_eq hn1 hn2]


theorem round32_zero : round32 0 = .finite 0 := by
  simp [round32, f32Nearest_zero]

theorem round32_neg_finite {x r : ℚ} (h : round32 x = .finite r) :
    round32 (-x) = .finite (-r) := by
  unfold round32 at h ⊢
  rw [f32Nearest_neg, abs_neg]
  split_ifs at h ⊢ with h1
  simp only [Flt.finite.injEq] at h
  rw [h]

theorem round32_eq {x : ℚ} {e n : Int} (he : -126 ≤ e) (h1 : (2 : ℚ) ^ e ≤ |x|)
    (h2 : |x| < (2 : ℚ) ^ (e + 1)) (hn1 : (n : ℚ) - 1 / 2 < x / (2 : ℚ) ^ (e - 23))
    (hn2 : x / (2 : ℚ) ^ (e - 23) < n + 1 / 2)
    (hfin : |(n : ℚ) * (2 : ℚ) ^ (e - 23)| < (2 : ℚ) ^ 128) :
    round32 x = .finite (n * (2 : ℚ) ^ (e - 23)) := by
  unfold round32
  rw [f32Nearest_eq he h1 h2 hn1 hn2, if_neg (not_le.mpr hfin)]

theorem round32_third : round32 (1 / 3) = .finite (11184811 / 33554432) := by
  have h := round32_eq (x := 1 / 3) (e := -2) (n := 11184811) (by norm_num)
    (by norm_num [abs_of_pos]) (by norm_num [abs_of_pos]) (by norm_num) (by norm_num)
    (by norm_num [abs_of_pos])
  rw [h]
  norm_num

/-! ### `ModifiedGammaTransferFunction::about_equal` -/

theorem f32Nearest_of_round32 {x r : ℚ} (h : round32 x = .finite r) : f32Nearest x = r := by
  unfold round32 at h
  split_ifs at h
  simpa using h

theorem fabs_round32_neg (x : ℚ) : Flt.fabs (round32 (-x)) = Flt.fabs (round32 x) := by
  unfold round32
  rw [f32Nearest_neg, abs_neg]
  split_ifs <;> simp [Flt.fabs]

theorem fabs_round32_abs (x : ℚ) : Flt.fabs (round32 |x|) = Flt.fabs (round32 x) := by
  rcases abs_cases x with ⟨h, _⟩ | ⟨h, _⟩
  · rw [h]
  · rw [h, fabs_round32_neg]

theorem fabsDifferenceBelow_iff (a b epsilon : ℚ) :
    fabsDifferenceBelow a b epsilon = true ↔
      ∃ d, round32 (a - b) = .finite d ∧ |d| < epsilon := by
  unfold fabsDifferenceBelow
  cases h : round32 (a - b) with
  | finite d => simp [Flt.fabs, Flt.gt]
  | inf n => simp [Flt.fabs, Flt.gt]
  | nan => simp [Flt.fabs, Flt.gt]

theorem fabsDifferenceBelow_self (a epsilon : ℚ) :
    fabsDifferenceBelow a a epsilon = decide (0 < epsilon) := by
  simp [fabsDifferenceBelow, round32_zero, Flt.fabs, Flt.gt]

theorem fabsDifferenceBelow_comm (a b epsilon : ℚ) :
    fabsDifferenceBelow a b epsilon = fabsDifferenceBelow b a epsilon := by
  unfold fabsDifferenceBelow
  rw [← neg_sub b a, fabs_round32_neg]

theorem fabsDifferenceBelow_exact {a b : ℚ} (epsilon : ℚ)
    (h : round32 (a - b) = .finite (a - b)) :
    fabsDifferenceBelow a b epsilon = decide (|a - b| < epsilon) := by
  simp [fabsDifferenceBelow, h, Flt.fabs, Flt.gt]

theorem fabsDifferenceBelow_of_le {a b epsilon : ℚ} (heps : round32 epsilon = .finite epsilon)
    (h : epsilon ≤ |a - b|) : fabsDifferenceBelow a b epsilon = false := by
  unfold fabsDifferenceBelow
  rw [← fabs_round32_abs]
  have hmono := f32Nearest_mono h
  rw [f32Nearest_of_round32 heps] at hmono
  have hnn : 0 ≤ f32Nearest |a - b| := f32Nearest_nonneg (abs_nonneg _)
  unfold round32
  split_ifs
  · simp [Flt.fabs, Flt.gt]
  · simp only [Flt.fabs, Flt.gt, abs_of_nonneg hnn]
    exact decide_eq_false (not_lt.mpr hmono)

theorem about_equal_iff (f g : ModifiedGammaTransferFunction) (epsilon : ℚ) :
    f.about_equal (.ModifiedGamma g) epsilon = true ↔
      fabsDifferenceBelow f._power g._power epsilon = true ∧
      fabsDifferenceBelow f._threshold g._threshold epsilon = true ∧
      fabsDifferenceBelow f._A g._A epsilon = true ∧
      fabsDifferenceBelow f._B g._B epsilon = true := by
  simp [ModifiedGammaTransferFunction.about_equal, dynamic_pointer_cast, and_assoc]

/-- C19 as stated fails: with `epsilon = 0` the four tests `fabs (x - x) < epsilon` are
`0 < 0`, so `srgb.about_equal (srgb, 0)` is false. -/
theorem C19_about_equal_not_reflexive_at_zero :
    ¬ (∀ (f : ModifiedGammaTransferFunction) (epsilon : ℚ), 0 ≤ epsilon →
        f.about_equal (.ModifiedGamma f) epsilon = true) := by
  intro h
  have h1 := (about_equal_iff srgb srgb 0).mp (h srgb 0 (le_refl 0))
  simp [fabsDifferenceBelow_self] at h1

/-- C19 (amended): `about_equal` is reflexive for every epsilon greater than 0: for every
`ModifiedGammaTransferFunction` f and every `epsilon > 0`, `f.about_equal (f, epsilon)` is
true; for `epsilon = 0` (and below) it is false, the comparison being strict. -/
theorem C19_about_equal_reflexive_positive (f : ModifiedGammaTransferFunction) (epsilon : ℚ) :
    (0 < epsilon → f.about_equal (.ModifiedGamma f) epsilon = true) ∧
    (epsilon ≤ 0 → f.about_equal (.ModifiedGamma f) epsilon = false) := by
  constructor
  · intro h
    rw [about_equal_iff]
    simp [fabsDifferenceBelow_self, h]
  · intro h
    rw [← Bool.not_eq_true, about_equal_iff]
    simp only [fabsDifferenceBelow_self, decide_eq_true_eq, and_self]
    exact not_lt.mpr h

/-- C19 (amended) at `srgb` with `epsilon = 1/1000000` and with `epsilon = 0`. -/
theorem C19_about_equal_reflexive_positive_witness :
    srgb.about_equal (.ModifiedGamma srgb) (1 / 1000000) = true ∧
    srgb.about_equal (.ModifiedGamma srgb) 0 = false :=
  ⟨(C19_about_equal_reflexive_positive srgb (1 / 1000000)).1 (by norm_num),
   (C19_about_equal_reflexive_positive srgb 0).2 (le_refl 0)⟩

theorem round32_one : round32 1 = .finite 1 := by
  have h := round32_eq (x := 1) (e := 0) (n := 8388608) (by norm_num)
    (by norm_num) (by norm_num) (by norm_num) (by norm_num) (by norm_num [abs_of_pos])
  rw [h]
  norm_num

theorem round32_hundred_million : round32 100000000 = .finite 100000000 := by
  have h := round32_eq (x := 100000000) (e := 26) (n := 12500000) (by norm_num)
    (by norm_num [abs_of_pos]) (by norm_num [abs_of_pos]) (by norm_num) (by norm_num)
    (by norm_num [abs_of_pos])
  rw [h]
  norm_num

theorem round32_hundred_million_less_one :
    round32 (100000000 - 1) = .finite 100000000 := by
  have h := round32_eq (x := 100000000 - 1) (e := 26) (n := 12500000) (by norm_num)
    (by norm_num [abs_of_pos]) (by norm_num [abs_of_pos]) (by norm_num) (by norm_num)
    (by norm_num [abs_of_pos])
  rw [h]
  norm_num

/-- C20 as stated fails: the powers 100000000 and 1 differ by 99999999, less than
`epsilon = 100000000`, and the other parameters are equal, yet `about_equal` is false: the
`float` difference `_power - o->_power` is 99999999 rounded to 24 bits, which is 100000000,
and `100000000 < 100000000` is false.  The values 100000000, 1 and 0 are `float` values. -/
theorem C20_difference_rounds_up_to_epsilon :
    ¬ (∀ (f g : ModifiedGammaTransferFunction) (epsilon : ℚ),
        (|f._power - g._power| < epsilon ∧ |f._threshold - g._threshold| < epsilon ∧
          |f._A - g._A| < epsilon ∧ |f._B - g._B| < epsilon) →
        f.about_equal (.ModifiedGamma g) epsilon = true) ∧
    round32 100000000 = .finite 100000000 ∧ round32 1 = .finite 1 ∧
    round32 0 = .finite 0 ∧
    |largePower._power - unitPower._power| < 100000000 ∧
    round32 (largePower._power - unitPower._power) = .finite 100000000 ∧
    largePower.about_equal (.ModifiedGamma unitPower) 100000000 = false := by
  have hfalse : largePower.about_equal (.ModifiedGamma unitPower) 100000000 = false := by
    rw [← Bool.not_eq_true, about_equal_iff]
    intro ⟨h1, _⟩
    rw [fabsDifferenceBelow_iff] at h1
    obtain ⟨d, hd, hlt⟩ := h1
    simp only [largePower, unitPower] at hd
    rw [round32_hundred_million_less_one] at hd
    simp only [Flt.finite.injEq] at hd
    rw [← hd] at hlt
    norm_num at hlt
  refine ⟨?_, round32_hundred_million, round32_one, round32_zero, ?_,
    round32_hundred_million_less_one, hfalse⟩
  · intro h
    have h1 := h largePower unitPower 100000000
      (by norm_num [largePower, unitPower, abs_of_pos])
    rw [hfalse] at h1
    exact Bool.noConfusion h1
  · norm_num [largePower, unitPower, abs_of_pos]

/-- C20 (amended): `about_equal (other, epsilon)` is false whenever `other` is not a
`ModifiedGammaTransferFunction`.  For two of them it is the conjunction, over power,
threshold, A and B, of the test that the `float` difference of the two values (the exact
difference rounded to nearest) is below `epsilon` in absolute value.  It is false whenever
one of the four differs by `epsilon` (a `float`) or more, true whenever all four differ by
less than `epsilon` and the differences are `float` values themselves, and the same in both
directions. -/
theorem C20_about_equal_rounded_conjunction (f g : ModifiedGammaTransferFunction)
    (epsilon : ℚ) (subclass : Nat) :
    f.about_equal (.Other subclass) epsilon = false ∧
    (round32 epsilon = .finite epsilon →
      (epsilon ≤ |f._power - g._power| ∨ epsilon ≤ |f._threshold - g._threshold| ∨
        epsilon ≤ |f._A - g._A| ∨ epsilon ≤ |f._B - g._B|) →
      f.about_equal (.ModifiedGamma g) epsilon = false) ∧
    (f.about_equal (.ModifiedGamma g) epsilon = true ↔
      (∃ d, round32 (f._power - g._power) = .finite d ∧ |d| < epsilon) ∧
      (∃ d, round32 (f._threshold - g._threshold) = .finite d ∧ |d| < epsilon) ∧
      (∃ d, round32 (f._A - g._A) = .finite d ∧ |d| < epsilon) ∧
      (∃ d, round32 (f._B - g._B) = .finite d ∧ |d| < epsilon)) ∧
    ((round32 (f._power - g._power) = .finite (f._power - g._power) ∧
        round32 (f._threshold - g._threshold) = .finite (f._threshold - g._threshold) ∧
        round32 (f._A - g._A) = .finite (f._A - g._A) ∧
        round32 (f._B - g._B) = .finite (f._B - g._B)) →
      (|f._power - g._power| < epsilon ∧ |f._threshold - g._threshold| < epsilon ∧
        |f._A - g._A| < epsilon ∧ |f._B - g._B| < epsilon) →
      f.about_equal (.ModifiedGamma g) epsilon = true) ∧
    f.about_equal (.ModifiedGamma g) epsilon = g.about_equal (.ModifiedGamma f) epsilon := by
  refine ⟨rfl, ?_, ?_, ?_, ?_⟩
  · intro heps h
    rw [← Bool.not_eq_true, about_equal_iff]
    intro ⟨h1, h2, h3, h4⟩
    rcases h with h | h | h | h
    · rw [fabsDifferenceBelow_of_le heps h] at h1; exact Bool.noConfusion h1
    · rw [fabsDifferenceBelow_of_le heps h] at h2; exact Bool.noConfusion h2
    · rw [fabsDifferenceBelow_of_le heps h] at h3; exact Bool.noConfusion h3
    · rw [fabsDifferenceBelow_of_le heps h] at h4; exact Bool.noConfusion h4
  · rw [about_equal_iff, fabsDifferenceBelow_iff, fabsDifferenceBelow_iff,
      fabsDifferenceBelow_iff, fabsDifferenceBelow_iff]
  · intro ⟨e1, e2, e3, e4⟩ ⟨h1, h2, h3, h4⟩
    rw [about_equal_iff, fabsDifferenceBelow_exact _ e1, fabsDifferenceBelow_exact _ e2,
      fabsDifferenceBelow_exact _ e3, fabsDifferenceBelow_exact _ e4]
    simp [h1, h2, h3, h4]
  · rw [Bool.eq_iff_iff, about_equal_iff, about_equal_iff,
      fabsDifferenceBelow_comm f._power, fabsDifferenceBelow_comm f._threshold,
      fabsDifferenceBelow_comm f._A, fabsDifferenceBelow_comm f._B]


theorem round32_half : round32 (1 / 2) = .finite (1 / 2) := by
  have h := round32_eq (x := 1 / 2) (e := -1) (n := 8388608) (by norm_num)
    (by norm_num [abs_of_pos]) (by norm_num [abs_of_pos]) (by norm_num) (by norm_num)
    (by norm_num [abs_of_pos])
  rw [h]
  norm_num

/-- C20 (amended) at `largePower` and `unitPower` with `epsilon = 1`, where the powers
differ by more: the result is false; and at `unitPower` and `halfThreshold` with
`epsilon = 1`, where the thresholds differ by 1/2 and the rest is equal: the result is
true. -/
theorem C20_about_equal_rounded_conjunction_witness :
    largePower.about_equal (.ModifiedGamma unitPower) 1 = false ∧
    unitPower.about_equal (.ModifiedGamma halfThreshold) 1 = true := by
  have hzero : round32 ((0 : ℚ) - 0) = .finite ((0 : ℚ) - 0) := by
    rw [sub_zero]; exact round32_zero
  have hones : round32 ((1 : ℚ) - 1) = .finite ((1 : ℚ) - 1) := by
    rw [sub_self]; exact round32_zero
  have hhalf : round32 ((0 : ℚ) - 1 / 2) = .finite ((0 : ℚ) - 1 / 2) := by
    rw [zero_sub]; exact round32_neg_finite round32_half
  exact ⟨(C20_about_equal_rounded_conjunction largePower unitPower 1 0).2.1 round32_one
      (Or.inl (by norm_num [largePower, unitPower, abs_of_pos])),
    (C20_about_equal_rounded_conjunction unitPower halfThreshold 1 0).2.2.2.1
      ⟨hones, hhalf, hzero, hones⟩
      (by norm_num [unitPower, halfThreshold, abs_of_pos])⟩

theorem f32Nearest_two_pow_31 : f32Nearest ((2 : ℚ) ^ 31) = (2 : ℚ) ^ 31 := by
  have h := f32Nearest_eq (x := (2 : ℚ) ^ 31) (e := 31) (n := 8388608) (by norm_num)
    (by norm_num [abs_of_pos]) (by norm_num [abs_of_pos]) (by norm_num) (by norm_num)
  rw [h]
  norm_num

theorem round32_of_abs_le {x b : ℚ} (hb : f32Nearest b = b) (hlt : b < (2 : ℚ) ^ 128)
    (h : |x| ≤ b) :
    round32 x = .finite (f32Nearest x) ∧ |f32Nearest x| ≤ b := by
  have h1 : f32Nearest x ≤ b := hb ▸ f32Nearest_mono (le_trans (le_abs_self x) h)
  have h2 : -b ≤ f32Nearest x := by
    have := f32Nearest_mono (x := -b) (y := x) (by linarith [neg_abs_le x])
    rwa [f32Nearest_neg, hb] at this
  have h3 : |f32Nearest x| ≤ b := abs_le.mpr ⟨h2, h1⟩
  refine ⟨?_, h3⟩
  unfold round32
  rw [if_neg (not_le.mpr (lt_of_le_of_lt h3 hlt))]

/-! ### `make_lut` -/

theorem f32Nearest_one : f32Nearest 1 = 1 := f32Nearest_of_round32 round32_one

theorem lutInput_finite (n : Int) (i : Nat) (hn1 : 1 ≤ n) (hn : (n : ℚ) ≤ (2 : ℚ) ^ 31)
    (hi : (i : Int) ≤ n) :
    round32 (i : ℚ) = .finite (f32Nearest i) ∧ round32 (n : ℚ) = .finite (f32Nearest n) ∧
    1 ≤ f32Nearest (n : ℚ) ∧
    lutInput (n + 1) i = .finite (f32Nearest (f32Nearest (i : ℚ) / f32Nearest (n : ℚ))) ∧
    0 ≤ f32Nearest (f32Nearest (i : ℚ) / f32Nearest (n : ℚ)) ∧
    f32Nearest (f32Nearest (i : ℚ) / f32Nearest (n : ℚ)) ≤ 1 := by
  have hin : (i : ℚ) ≤ (n : ℚ) := by exact_mod_cast hi
  have hi0 : (0 : ℚ) ≤ (i : ℚ) := Nat.cast_nonneg i
  have hnq : (1 : ℚ) ≤ (n : ℚ) := by exact_mod_cast hn1
  have hri := (round32_of_abs_le f32Nearest_two_pow_31 (by norm_num)
    (show |(i : ℚ)| ≤ (2 : ℚ) ^ 31 by rw [abs_of_nonneg hi0]; linarith)).1
  have hrn := (round32_of_abs_le f32Nearest_two_pow_31 (by norm_num)
    (show |(n : ℚ)| ≤ (2 : ℚ) ^ 31 by rw [abs_of_nonneg (by linarith)]; exact hn)).1
  have hfn : 1 ≤ f32Nearest (n : ℚ) := f32Nearest_one ▸ f32Nearest_mono hnq
  have hfi0 : 0 ≤ f32Nearest (i : ℚ) := f32Nearest_nonneg hi0
  have hfin : f32Nearest (i : ℚ) ≤ f32Nearest (n : ℚ) := f32Nearest_mono hin
  have hq0 : 0 ≤ f32Nearest (i : ℚ) / f32Nearest (n : ℚ) := div_nonneg hfi0 (by linarith)
  have hq1 : f32Nearest (i : ℚ) / f32Nearest (n : ℚ) ≤ 1 :=
    (div_le_one (by linarith)).mpr hfin
  have hrq := round32_of_abs_le f32Nearest_one (by norm_num)
    (show |f32Nearest (i : ℚ) / f32Nearest (n : ℚ)| ≤ 1 by rw [abs_of_nonneg hq0]; exact hq1)
  refine ⟨hri, hrn, hfn, ?_, f32Nearest_nonneg hq0, ?_⟩
  · unfold lutInput
    rw [show ((n + 1 - 1 : Int) : ℚ) = (n : ℚ) by push_cast; ring, hri, hrn]
    simp only [Flt.div, if_neg (show f32Nearest (n : ℚ) ≠ 0 by linarith), Flt.round]
    exact hrq.1
  · have := f32Nearest_mono hq1
    rwa [f32Nearest_one] at this

theorem make_lut_eq (pow : Flt → Flt → Flt) (f : ModifiedGammaTransferFunction)
    (bit_depth : Int) (h0 : 0 ≤ bit_depth) (h30 : bit_depth ≤ 30) :
    ModifiedGammaTransferFunction.make_lut pow f bit_depth =
      some ((List.range (2 ^ bit_depth.toNat)).map
        (fun i => lutEntry pow f (2 ^ bit_depth.toNat) i)) := by
  have hbl : bitLength bit_depth = some (2 ^ bit_depth.toNat) := by
    unfold bitLength
    rw [if_neg (by omega), if_pos (by omega)]
  have hlen : ((2 : Int) ^ bit_depth.toNat).toNat = 2 ^ bit_depth.toNat := by
    norm_cast
  rw [ModifiedGammaTransferFunction.make_lut, hbl]
  simp only [hlen]


theorem lutEntry_eq (pow : Flt → Flt → Flt) (f : ModifiedGammaTransferFunction)
    (bit_length : Int) (i : Nat) (p : ℚ) (hp : lutInput bit_length i = .finite p) :
    lutEntry pow f bit_length i =
      if f._threshold < p then
        pow (Flt.round (Flt.div (round32 (p + f._A)) (round32 (1 + f._A)))) (.finite f._power)
      else Flt.round (Flt.div (.finite p) (.finite f._B)) := by
  simp only [lutEntry, hp, Flt.gt, Flt.add, Flt.round, round32_one, decide_eq_true_eq]

theorem round32_third_float :
    round32 (11184811 / 33554432) = .finite (11184811 / 33554432) := by
  have h := round32_eq (x := 11184811 / 33554432) (e := -2) (n := 11184811) (by norm_num)
    (by norm_num [abs_of_pos]) (by norm_num [abs_of_pos]) (by norm_num) (by norm_num)
    (by norm_num [abs_of_pos])
  rw [h]
  norm_num

theorem round32_three : round32 3 = .finite 3 := by
  have h := round32_eq (x := 3) (e := 1) (n := 12582912) (by norm_num)
    (by norm_num [abs_of_pos]) (by norm_num [abs_of_pos]) (by norm_num) (by norm_num)
    (by norm_num [abs_of_pos])
  rw [h]
  norm_num

theorem round32_1023 : round32 1023 = .finite 1023 := by
  have h := round32_eq (x := 1023) (e := 9) (n := 16760832) (by norm_num)
    (by norm_num [abs_of_pos]) (by norm_num [abs_of_pos]) (by norm_num) (by norm_num)
    (by norm_num [abs_of_pos])
  rw [h]
  norm_num

theorem round32_1023th : round32 (1 / 1023) = .finite (1049601 / 1073741824) := by
  have h := round32_eq (x := 1 / 1023) (e := -10) (n := 8396808) (by norm_num)
    (by norm_num [abs_of_pos]) (by norm_num [abs_of_pos]) (by norm_num) (by norm_num)
    (by norm_num [abs_of_pos])
  rw [h]
  norm_num

theorem round32_1023th_float :
    round32 (1049601 / 1073741824) = .finite (1049601 / 1073741824) := by
  have h := round32_eq (x := 1049601 / 1073741824) (e := -10) (n := 8396808) (by norm_num)
    (by norm_num [abs_of_pos]) (by norm_num [abs_of_pos]) (by norm_num) (by norm_num)
    (by norm_num [abs_of_pos])
  rw [h]
  norm_num

theorem Flt.round_finite (q : ℚ) : Flt.round (.finite q) = round32 q := rfl

theorem Flt.div_finite (a : ℚ) {b : ℚ} (hb : b ≠ 0) :
    Flt.div (.finite a) (.finite b) = .finite (a / b) := by
  simp [Flt.div, hb]

theorem lutInput_4_1 : lutInput 4 1 = .finite (11184811 / 33554432) := by
  unfold lutInput
  rw [show (((4 : Int) - 1 : Int) : ℚ) = 3 by norm_num, Nat.cast_one, round32_one,
    round32_three, Flt.div_finite _ (by norm_num), Flt.round_finite, round32_third]

theorem lutInput_1024_1 : lutInput 1024 1 = .finite (1049601 / 1073741824) := by
  unfold lutInput
  rw [show (((1024 : Int) - 1 : Int) : ℚ) = 1023 by norm_num, Nat.cast_one, round32_one,
    round32_1023, Flt.div_finite _ (by norm_num), Flt.round_finite, round32_1023th]

theorem make_lut_entry (pow : Flt → Flt → Flt) (f : ModifiedGammaTransferFunction)
    (k i : Nat) (hk : k ≤ 30) (hi : i < 2 ^ k) :
    (ModifiedGammaTransferFunction.make_lut pow f (k : Int)).bind (fun lut => lut[i]?) =
      some (lutEntry pow f ((2 : Int) ^ k) i) := by
  rw [make_lut_eq pow f (k : Int) (by omega) (by omega)]
  simp only [Int.toNat_ofNat, Option.some_bind, List.getElem?_map]
  rw [List.getElem?_range hi]
  rfl

/-- C21 as stated fails.  At `bit_depth = 0` the table has one entry, whose `p` is 0 / 0, so
the entry is not a number.  At `bit_depth = 2` entry 1 of `halfThreshold` (threshold 1/2,
B 1) is 11184811 / 2^25, the `float` nearest to 1/3, and not `p / B` with `p = 1 / 3`.  At
`bit_depth = 10` with the threshold 1049601 / 2^30 the exact `p = 1 / 1023` of entry 1 is
above the threshold, but the `float` quotient equals the threshold, so the entry is taken
from the branch `p / B`. -/
theorem C21_entries_are_rounded :
    ModifiedGammaTransferFunction.make_lut firstPower halfThreshold 0 = some [Flt.nan] ∧
    ((ModifiedGammaTransferFunction.make_lut firstPower halfThreshold 2).bind
        (fun lut => lut[1]?) = some (.finite (11184811 / 33554432)) ∧
      ¬ (halfThreshold._threshold < (1 : ℚ) / (2 ^ 2 - 1)) ∧
      (11184811 / 33554432 : ℚ) ≠ (1 : ℚ) / (2 ^ 2 - 1) / halfThreshold._B) ∧
    ((ModifiedGammaTransferFunction.make_lut firstPower edgeThreshold 10).bind
        (fun lut => lut[1]?) = some (.finite (1049601 / 1073741824)) ∧
      edgeThreshold._threshold < (1 : ℚ) / (2 ^ 10 - 1) ∧
      lutInput 1024 1 = .finite edgeThreshold._threshold ∧
      lutEntry firstPower edgeThreshold 1024 1
        = Flt.round (Flt.div (lutInput 1024 1) (.finite edgeThreshold._B))) := by
  have hentry : lutEntry firstPower edgeThreshold 1024 1
      = Flt.round (Flt.div (lutInput 1024 1) (.finite edgeThreshold._B)) := by
    rw [lutEntry_eq _ _ _ _ _ lutInput_1024_1, lutInput_1024_1,
      if_neg (by norm_num [edgeThreshold])]
  refine ⟨?_, ⟨?_, ?_, ?_⟩, ⟨?_, ?_, ?_, hentry⟩⟩
  · simp [ModifiedGammaTransferFunction.make_lut, bitLength, lutEntry, lutInput, Flt.div,
      Flt.gt, Flt.round, round32_zero, List.range_succ]
  · have h := make_lut_entry firstPower halfThreshold 2 1 (by norm_num) (by norm_num)
    rw [show ((2 : Int) ^ 2) = 4 by norm_num, lutEntry_eq _ _ _ _ _ lutInput_4_1,
      show ((2 : Nat) : Int) = 2 from rfl, if_neg (by norm_num [halfThreshold])] at h
    rw [h, show halfThreshold._B = 1 from rfl, Flt.div_finite _ (by norm_num), div_one,
      Flt.round_finite, round32_third_float]
  · norm_num [halfThreshold]
  · norm_num [halfThreshold]
  · have h := make_lut_entry firstPower edgeThreshold 10 1 (by norm_num) (by norm_num)
    rw [show ((2 : Int) ^ 10) = 1024 by norm_num, hentry, lutInput_1024_1,
      show ((10 : Nat) : Int) = 10 from rfl] at h
    rw [h, show edgeThreshold._B = 1 from rfl, Flt.div_finite _ (by norm_num), div_one,
      Flt.round_finite, round32_1023th_float]
  · norm_num [edgeThreshold]
  · rw [lutInput_1024_1]; rfl

/-- C21 (amended): for every `bit_depth` from 1 to 30, `make_lut (bit_depth)` produces
exactly `2^bit_depth` entries.  The divisor `2^bit_depth - 1` converted to `float` is a
number `n ≥ 1`, and for every index `i < 2^bit_depth`, `p` is the `float` quotient of `i`
converted to `float` and `n`, with `0 ≤ p ≤ 1`; entry `i` is
`pow ((p + A) / (1 + A), power)` when `p > threshold` and `p / B` otherwise, each sum and
quotient rounded to `float`.  The first entry has `p = 0` and the last has `p = 1`. -/
theorem C21_make_lut_entries (pow : Flt → Flt → Flt) (f : ModifiedGammaTransferFunction)
    (bit_depth : Int) (h1 : 1 ≤ bit_depth) (h30 : bit_depth ≤ 30) :
    ∃ lut, ModifiedGammaTransferFunction.make_lut pow f bit_depth = some lut ∧
      lut.length = 2 ^ bit_depth.toNat ∧
      ∃ n : ℚ, round32 (((2 : Int) ^ bit_depth.toNat - 1 : Int) : ℚ) = .finite n ∧ 1 ≤ n ∧
        (∀ i : Nat, i < 2 ^ bit_depth.toNat →
          ∃ a p : ℚ, round32 (i : ℚ) = .finite a ∧ round32 (a / n) = .finite p ∧
            lutInput (2 ^ bit_depth.toNat) i = .finite p ∧ 0 ≤ p ∧ p ≤ 1 ∧
            lut[i]? = some
              (if f._threshold < p then
                pow (Flt.round (Flt.div (round32 (p + f._A)) (round32 (1 + f._A))))
                  (.finite f._power)
               else Flt.round (Flt.div (.finite p) (.finite f._B)))) ∧
        lutInput (2 ^ bit_depth.toNat) 0 = .finite 0 ∧
        lutInput (2 ^ bit_depth.toNat) (2 ^ bit_depth.toNat - 1) = .finite 1 := by
  have hpos : 1 ≤ bit_depth.toNat := by omega
  have hle : bit_depth.toNat ≤ 30 := by omega
  have hpow2 : (2 : Int) ≤ (2 : Int) ^ bit_depth.toNat := by
    calc (2 : Int) = 2 ^ 1 := by norm_num
      _ ≤ 2 ^ bit_depth.toNat := pow_le_pow_right₀ (by norm_num) hpos
  have hpow31 : (((2 : Int) ^ bit_depth.toNat - 1 : Int) : ℚ) ≤ (2 : ℚ) ^ 31 := by
    have h2 : (2 : ℚ) ^ bit_depth.toNat ≤ (2 : ℚ) ^ 31 :=
      pow_le_pow_right₀ (by norm_num) (by omega)
    push_cast
    linarith
  have hbl : ((2 : Int) ^ bit_depth.toNat - 1) + 1 = (2 : Int) ^ bit_depth.toNat := by ring
  have key : ∀ i : Nat, i < 2 ^ bit_depth.toNat →
      (i : Int) ≤ (2 : Int) ^ bit_depth.toNat - 1 := by
    intro i hi
    have : (i : Int) < (2 : Int) ^ bit_depth.toNat := by exact_mod_cast hi
    omega
  have hN := lutInput_finite ((2 : Int) ^ bit_depth.toNat - 1) 0 (by omega) hpow31
    (key 0 (by positivity))
  refine ⟨_, make_lut_eq pow f bit_depth (by omega) h30, by simp, _, hN.2.1, hN.2.2.1,
    ?_, ?_, ?_⟩
  · intro i hi
    have hI := lutInput_finite ((2 : Int) ^ bit_depth.toNat - 1) i (by omega) hpow31 (key i hi)
    rw [hbl] at hI
    refine ⟨_, _, hI.1, ?_, hI.2.2.2.1, hI.2.2.2.2.1, hI.2.2.2.2.2, ?_⟩
    · have h3 := hI.2.2.2.1
      unfold lutInput at h3
      rw [show (((2 : Int) ^ bit_depth.toNat - 1 : Int) : ℚ)
        = (((2 : Int) ^ bit_depth.toNat - 1 : Int) : ℚ) from rfl] at h3
      rw [hI.1, hI.2.1] at h3
      simp only [Flt.div, if_neg (show f32Nearest
        (((2 : Int) ^ bit_depth.toNat - 1 : Int) : ℚ) ≠ 0 by linarith [hI.2.2.1]),
        Flt.round] at h3
      exact h3
    · rw [List.getElem?_map, List.getElem?_range hi]
      simp only [Option.map_some']
      rw [lutEntry_eq pow f _ i _ hI.2.2.2.1]
  · have h0 := hN.2.2.2.1
    rw [hbl] at h0
    rw [h0]
    simp [f32Nearest_zero]
  · have hlast := lutInput_finite ((2 : Int) ^ bit_depth.toNat - 1)
      (2 ^ bit_depth.toNat - 1) (by omega) hpow31
      (by
        have : 1 ≤ 2 ^ bit_depth.toNat := Nat.one_le_two_pow
        rw [Nat.cast_sub this]
        push_cast
        exact le_refl _)
    rw [hbl] at hlast
    rw [hlast.2.2.2.1]
    have hcast : (((2 ^ bit_depth.toNat - 1 : Nat)) : ℚ)
        = (((2 : Int) ^ bit_depth.toNat - 1 : Int) : ℚ) := by
      have : 1 ≤ 2 ^ bit_depth.toNat := Nat.one_le_two_pow
      rw [Nat.cast_sub this]
      push_cast
      ring
    rw [hcast, div_self (by linarith [hlast.2.2.1]), f32Nearest_one]

/-- C21 (amended) at `halfThreshold` with `bit_depth = 8`: 256 entries. -/
theorem C21_make_lut_entries_witness :
    ∃ lut, ModifiedGammaTransferFunction.make_lut firstPower halfThreshold 8 = some lut ∧
      lut.length = 256 := by
  obtain ⟨lut, h, hl, _⟩ :=
    C21_make_lut_entries firstPower halfThreshold 8 (by decide) (by decide)
  exact ⟨lut, h, hl⟩

/-! ### `Time` -/

theorem round32_24 : round32 24 = .finite 24 := by
  have h := round32_eq (x := 24) (e := 4) (n := 12582912) (by norm_num)
    (by norm_num [abs_of_pos]) (by norm_num [abs_of_pos]) (by norm_num) (by norm_num)
    (by norm_num [abs_of_pos])
  rw [h]
  norm_num

theorem round32_60 : round32 60 = .finite 60 := by
  have h := round32_eq (x := 60) (e := 5) (n := 15728640) (by norm_num)
    (by norm_num [abs_of_pos]) (by norm_num [abs_of_pos]) (by norm_num) (by norm_num)
    (by norm_num [abs_of_pos])
  rw [h]
  norm_num

theorem round32_61 : round32 61 = .finite 61 := by
  have h := round32_eq (x := 61) (e := 5) (n := 15990784) (by norm_num)
    (by norm_num [abs_of_pos]) (by norm_num [abs_of_pos]) (by norm_num) (by norm_num)
    (by norm_num [abs_of_pos])
  rw [h]
  norm_num

theorem round32_1440 : round32 1440 = .finite 1440 := by
  have h := round32_eq (x := 1440) (e := 10) (n := 11796480) (by norm_num)
    (by norm_num [abs_of_pos]) (by norm_num [abs_of_pos]) (by norm_num) (by norm_num)
    (by norm_num [abs_of_pos])
  rw [h]
  norm_num

theorem round32_1464 : round32 1464 = .finite 1464 := by
  have h := round32_eq (x := 1464) (e := 10) (n := 11993088) (by norm_num)
    (by norm_num [abs_of_pos]) (by norm_num [abs_of_pos]) (by norm_num) (by norm_num)
    (by norm_num [abs_of_pos])
  rw [h]
  norm_num

theorem round32_3600 : round32 3600 = .finite 3600 := by
  have h := round32_eq (x := 3600) (e := 11) (n := 14745600) (by norm_num)
    (by norm_num [abs_of_pos]) (by norm_num [abs_of_pos]) (by norm_num) (by norm_num)
    (by norm_num [abs_of_pos])
  rw [h]
  norm_num

theorem round32_60000 : round32 60000 = .finite 60000 := by
  have h := round32_eq (x := 60000) (e := 15) (n := 15360000) (by norm_num)
    (by norm_num [abs_of_pos]) (by norm_num [abs_of_pos]) (by norm_num) (by norm_num)
    (by norm_num [abs_of_pos])
  rw [h]
  norm_num

theorem round32_61000 : round32 61000 = .finite 61000 := by
  have h := round32_eq (x := 61000) (e := 15) (n := 15616000) (by norm_num)
    (by norm_num [abs_of_pos]) (by norm_num [abs_of_pos]) (by norm_num) (by norm_num)
    (by norm_num [abs_of_pos])
  rw [h]
  norm_num

theorem round32_86400 : round32 86400 = .finite 86400 := by
  have h := round32_eq (x := 86400) (e := 16) (n := 11059200) (by norm_num)
    (by norm_num [abs_of_pos]) (by norm_num [abs_of_pos]) (by norm_num) (by norm_num)
    (by norm_num [abs_of_pos])
  rw [h]
  norm_num

theorem round32_3600000 : round32 3600000 = .finite 3600000 := by
  have h := round32_eq (x := 3600000) (e := 21) (n := 14400000) (by norm_num)
    (by norm_num [abs_of_pos]) (by norm_num [abs_of_pos]) (by norm_num) (by norm_num)
    (by norm_num [abs_of_pos])
  rw [h]
  norm_num


theorem Time.ofFrame_eq (frame frames_per_second : Int) (a b q scaled : ℚ)
    (ha : round32 (frame : ℚ) = .finite a) (hb : round32 (frames_per_second : ℚ) = .finite b)
    (hb0 : b ≠ 0) (hq : round32 (a / b) = .finite q)
    (hs : round32 (q * 1000) = .finite scaled)
    (hfit : (fitsInt (truncToInt scaled) && fitsInt ⌊q⌋) = true) :
    Time.ofFrame frame frames_per_second =
      some
        { h := if (if ⌊q⌋ > 60 then Int.tdiv ⌊q⌋ 60 else 0) > 60 then
                 Int.tdiv (if ⌊q⌋ > 60 then Int.tdiv ⌊q⌋ 60 else 0) 60 else 0,
          m := if (if ⌊q⌋ > 60 then Int.tdiv ⌊q⌋ 60 else 0) > 60 then
                 (if ⌊q⌋ > 60 then Int.tdiv ⌊q⌋ 60 else 0)
                   - Int.tdiv (if ⌊q⌋ > 60 then Int.tdiv ⌊q⌋ 60 else 0) 60 * 60
               else (if ⌊q⌋ > 60 then Int.tdiv ⌊q⌋ 60 else 0),
          s := if ⌊q⌋ > 60 then ⌊q⌋ - (Int.tdiv ⌊q⌋ 60) * 60 else ⌊q⌋,
          ms := Int.tmod (truncToInt scaled) 1000 } := by
  unfold Time.ofFrame
  rw [ha, hb, Flt.div_finite _ hb0, Flt.round_finite, hq]
  simp only
  rw [hs]
  simp only [hfit, if_true]
  split_ifs <;> rfl

/-- C27 (code defect): the tests `s > 60` and `m > 60` of the constructor miss the value 60.
For 1440 frames at 24 frames per second, exactly one minute, the constructor leaves
`s = 60` and `m = 0`; for 86400 frames, exactly one hour, it gives `m = 60` and `h = 0`.  A
normalised time has `s < 60` and `m < 60`, and the constructor does give `0:1:1.0` for
1464 frames. -/
theorem C27_time_sixty_not_carried :
    Time.ofFrame 1440 24 = some { h := 0, m := 0, s := 60, ms := 0 } ∧
    Time.ofFrame 86400 24 = some { h := 0, m := 60, s := 0, ms := 0 } ∧
    Time.ofFrame 1464 24 = some { h := 0, m := 1, s := 1, ms := 0 } := by
  refine ⟨?_, ?_, ?_⟩
  · have h1 : (⌊(60 : ℚ)⌋ : Int) = 60 := by norm_num
    have h2 : truncToInt (60000 : ℚ) = 60000 := by norm_num [truncToInt]
    rw [Time.ofFrame_eq 1440 24 1440 24 60 60000 (by exact_mod_cast round32_1440)
      (by exact_mod_cast round32_24) (by norm_num) (by norm_num; exact round32_60)
      (by norm_num; exact round32_60000) (by rw [h1, h2]; decide), h1, h2]
    decide
  · have h1 : (⌊(3600 : ℚ)⌋ : Int) = 3600 := by norm_num
    have h2 : truncToInt (3600000 : ℚ) = 3600000 := by norm_num [truncToInt]
    rw [Time.ofFrame_eq 86400 24 86400 24 3600 3600000 (by exact_mod_cast round32_86400)
      (by exact_mod_cast round32_24) (by norm_num) (by norm_num; exact round32_3600)
      (by norm_num; exact round32_3600000) (by rw [h1, h2]; decide), h1, h2]
    decide
  · have h1 : (⌊(61 : ℚ)⌋ : Int) = 61 := by norm_num
    have h2 : truncToInt (61000 : ℚ) = 61000 := by norm_num [truncToInt]
    rw [Time.ofFrame_eq 1464 24 1464 24 61 61000 (by exact_mod_cast round32_1464)
      (by exact_mod_cast round32_24) (by norm_num) (by norm_num; exact round32_61)
      (by norm_num; exact round32_61000) (by rw [h1, h2]; decide), h1, h2]
    decide

theorem Time.le_iff (a b : Time) :
    Time.le a b = true ↔
      a.h < b.h ∨ (a.h = b.h ∧ (a.m < b.m ∨ (a.m = b.m ∧
        (a.s < b.s ∨ (a.s = b.s ∧ a.ms ≤ b.ms))))) := by
  unfold Time.le
  split_ifs <;> simp <;> omega

theorem Time.eq_iff (a b : Time) : Time.eq a b = true ↔ a = b := by
  rcases a with ⟨ah, am, as, ams⟩
  rcases b with ⟨bh, bm, bs, bms⟩
  simp [Time.eq, and_assoc]

/-- C28: `operator<=` on `Time` is the lexicographic order on (h, m, s, ms); it is
reflexive, transitive and total, and `a <= b` and `b <= a` hold together exactly when
`a == b`. -/
theorem C28_time_le_lexicographic (a b c : Time) :
    (Time.le a b = true ↔
      a.h < b.h ∨ (a.h = b.h ∧ (a.m < b.m ∨ (a.m = b.m ∧
        (a.s < b.s ∨ (a.s = b.s ∧ a.ms ≤ b.ms)))))) ∧
    Time.le a a = true ∧
    (Time.le a b = true → Time.le b c = true → Time.le a c = true) ∧
    (Time.le a b = true ∨ Time.le b a = true) ∧
    ((Time.le a b = true ∧ Time.le b a = true) ↔ Time.eq a b = true) := by
  refine ⟨Time.le_iff a b, ?_, ?_, ?_, ?_⟩
  · rw [Time.le_iff]; omega
  · rw [Time.le_iff, Time.le_iff, Time.le_iff]; omega
  · rw [Time.le_iff, Time.le_iff]; omega
  · rw [Time.le_iff, Time.le_iff, Time.eq_iff]
    constructor
    · intro h
      rcases a with ⟨ah, am, as, ams⟩
      rcases b with ⟨bh, bm, bs, bms⟩
      simp only [Time.mk.injEq] at h ⊢
      omega
    · intro h
      subst h
      omega

/-- C28 at three times in ascending order. -/
theorem C28_time_le_lexicographic_witness :
    Time.le ⟨0, 59, 59, 999⟩ ⟨1, 0, 0, 0⟩ = true ∧ Time.le ⟨1, 0, 0, 0⟩ ⟨1, 0, 0, 1⟩ = true ∧
    Time.le ⟨0, 59, 59, 999⟩ ⟨1, 0, 0, 1⟩ = true :=
  ⟨by decide, by decide,
   (C28_time_le_lexicographic ⟨0, 59, 59, 999⟩ ⟨1, 0, 0, 0⟩ ⟨1, 0, 0, 1⟩).2.2.1
     (by decide) (by decide)⟩

/-! ### The picture node of a reel entry -/

theorem parse_bothPicturesFile :
    CPL.parse "dcp" bothPicturesFile idMap allOpen true = .ok bothPicturesCPL := rfl

/-- C25 as stated fails: for `bothPicturesReel`, which carries both elements, the picture
node is the mono-picture element; the parsed CPL has its duration 100 as length and the
asset is created from its id. -/
theorem C25_stereo_element_not_preferred :
    ¬ (∀ (i : CPLReel) (mp sp : Picture), i.asset_list.main_picture = some mp →
        i.asset_list.main_stereoscopic_picture = some sp → resolvePicture i = some sp) ∧
    CPL.parse "dcp" bothPicturesFile idMap allOpen true = .ok bothPicturesCPL ∧
    bothPicturesCPL._length = 100 := by
  refine ⟨?_, parse_bothPicturesFile, rfl⟩
  intro h
  have h1 := h bothPicturesReel _ _ rfl rfl
  exact absurd h1 (by decide)

/-- C25 (amended): the picture node of a reel entry is its mono-picture element whenever
there is one, also when the entry carries a stereoscopic-picture element as well: the edit
rate and duration of the mono-picture element give fps and length, and with both elements
present the asset is a `StereoPictureAsset` created from the id, entry point and duration of
the mono-picture element.  The stereoscopic-picture element is the picture node only when
no mono-picture element is present. -/
theorem C25_mono_element_preferred (directory : String) (asset_map : String → String)
    (ess : Essence) (require_mxfs : Bool) (c : CPL AssetObj) (i : CPLReel) :
    (∀ mp, i.asset_list.main_picture = some mp →
      resolvePicture i = some mp ∧
      ∀ c1, CPL.parseReel directory asset_map ess require_mxfs c i = .ok c1 →
        c1._fps = mp.edit_rate.numerator ∧ c1._length = c._length + mp.duration ∧
        ∃ r, c1._reels = c._reels ++ [r] ∧
          (i.asset_list.main_stereoscopic_picture.isSome = true →
            r.main_picture = none ∨
            r.main_picture = some (.StereoPictureAsset directory (asset_map mp.id)
              mp.edit_rate.numerator mp.entry_point mp.duration))) ∧
    (i.asset_list.main_picture = none →
      resolvePicture i = i.asset_list.main_stereoscopic_picture) := by
  constructor
  · intro mp hmp
    have hres : resolvePicture i = some mp := by simp [resolvePicture, hmp]
    refine ⟨hres, ?_⟩
    intro c1 hc1
    rw [parseReel_eq directory asset_map ess require_mxfs c i mp hres] at hc1
    split at hc1
    · simp at hc1
    · simp only [Except.ok.injEq] at hc1
      subst hc1
      refine ⟨by simp [pictureRate, hres], by simp [pictureDuration, hres], _, rfl, ?_⟩
      intro hsp
      have hsel : monoSelected i mp = false := by
        simp [monoSelected, Option.isSome_iff_ne_none.mp hsp]
      rw [lenientReel_picture]
      split
      · right
        simp [pictureAsset, hres, hsel]
      · left; rfl
  · intro hnone
    simp [resolvePicture, hnone]

/-- C25 (amended) at `bothPicturesReel`. -/
theorem C25_mono_element_preferred_witness :
    resolvePicture bothPicturesReel = some (monoNode "mono" 24 100) :=
  ((C25_mono_element_preferred "dcp" idMap allOpen true (cplOf []) bothPicturesReel).1
    (monoNode "mono" 24 100) rfl).1

/-! ### Progress notes of picture equality -/

/-- C24 (code defect): the loop of `StereoPictureMXF::equals` has no `note (PROGRESS, ...)`
call.  Comparing two stereo pictures of two identical frames examines both frames, returns
true and emits no `PROGRESS` note, where the mono variant emits one for each of the two
frames. -/
theorem C24_stereo_emits_no_progress_note :
    StereoPictureMXF.equals passingChecks bytewiseEquals (flatStereo 2) (flatStereo 2) ⟨0⟩
      = .ok (true, []) ∧
    MonoPictureAsset.equals (true, []) bytewiseEquals (flatPicture 2) (flatPicture 2) ⟨0⟩
      = (true, [progressNote (flatPicture 2) 0, progressNote (flatPicture 2) 1]) ∧
    progressCount [progressNote (flatPicture 2) 0, progressNote (flatPicture 2) 1] = 2 := by
  refine ⟨?_, ?_, ?_⟩
  · simp [StereoPictureMXF.equals, StereoPictureMXF.equalsFrames, passingChecks, flatStereo,
      bytewiseEquals]
  · simp [MonoPictureAsset.equals, MonoPictureAsset.equalsFrames, flatPicture, bytewiseEquals]
  · simp [progressCount, progressNote]

/-! ### Writing a package -/

theorem write_xml_eq {α : Type} (md : Metadata) (kind : ContentKind → String)
    (reel_to_cpl : Reel α → String) (sha1 : String → String) (fs : FileSystem) (c : CPL α) :
    CPL.write_xml md kind reel_to_cpl sha1 fs c =
      some (writeFile fs c.path (CPL.xml md kind reel_to_cpl c),
        CPL.written md kind reel_to_cpl sha1 c) := by
  simp [CPL.write_xml, make_digest, file_size, writeFile, CPL.written]


set_option maxRecDepth 100000 in
theorem composedCPL_size :
    (CPL.xml sampleMetadata (fun _ => "feature") (fun _ => "") composedCPL).utf8ByteSize
      = 586 := by
  decide

/-- C26 (code defect): `CPL::write_xml` stores the byte size of the written file in
`_length`, the member that holds the length of the CPL and that `CPL::equals` compares under
`METADATA`.  `composedCPL` has length 24; after `write_xml` its `_length` is 586, the size of
its document, and comparing the written CPL with the unwritten one yields "lengths
differ". -/
theorem C26_write_xml_overwrites_length :
    composedCPL._length = 24 ∧
    (CPL.write_xml sampleMetadata (fun _ => "feature") (fun _ => "")
        (fun text => toString text.length) (fun _ => none) composedCPL).map
      (fun r => (r.2._name, r.2._content_kind, r.2._fps, r.2._length))
      = some ("title", ContentKind.FEATURE, 24, 586) ∧
    CPL.equals 1 sampleReelEquals
        (CPL.written sampleMetadata (fun _ => "feature") (fun _ => "")
          (fun text => toString text.length) composedCPL)
        composedCPL ⟨1⟩
      = some ["lengths differ"] := by
  refine ⟨rfl, ?_, ?_⟩
  · rw [write_xml_eq]
    simp only [Option.map_some', CPL.written, composedCPL_size]
    rfl
  · simp [CPL.equals, CPL.equalsReels, CPL.ownNotes, pushIf, CPL.written, composedCPL_size]
    simp [composedCPL]

theorem string_append_left_cancel (p a b : String) (h : p ++ a = p ++ b) : a = b := by
  have h1 := congrArg String.data h
  simp only [String.data_append] at h1
  exact String.ext (List.append_cancel_left h1)

theorem pathAppend_ne (directory a b : String) (h : a ≠ b) :
    pathAppend directory a ≠ pathAppend directory b := by
  intro he
  apply h
  unfold pathAppend at he
  split_ifs at he
  · exact he
  · exact string_append_left_cancel _ _ _ he
  · exact string_append_left_cancel _ _ _ he

theorem suffix_ne (u v x y : String) (hlen : x.data.length = y.data.length) (hne : x ≠ y) :
    u ++ x ≠ v ++ y := by
  intro h
  have h1 := congrArg String.data h
  simp only [String.data_append] at h1
  exact hne (String.ext (List.append_inj' h1 hlen).2)

theorem suffix_ne_const (u x y : String) (hne : ¬ (x.data.isSuffixOf y.data) = true) :
    u ++ x ≠ y := by
  intro h
  apply hne
  rw [← h, String.data_append]
  simp

theorem writeCPLs_single {α : Type} (md : Metadata) (kind : ContentKind → String)
    (reel_to_cpl : Reel α → String) (sha1 : String → String) (fs : FileSystem) (c : CPL α) :
    DCP.writeCPLs md kind reel_to_cpl sha1 fs [c] =
      some (writeFile fs c.path (CPL.xml md kind reel_to_cpl c),
        [CPL.written md kind reel_to_cpl sha1 c]) := by
  simp [DCP.writeCPLs, write_xml_eq]

theorem writeCPLs_eq {α : Type} (md : Metadata) (kind : ContentKind → String)
    (reel_to_cpl : Reel α → String) (sha1 : String → String) :
    ∀ (cpls : List (CPL α)) (fs : FileSystem),
      ∃ fs1, DCP.writeCPLs md kind reel_to_cpl sha1 fs cpls =
        some (fs1, cpls.map (CPL.written md kind reel_to_cpl sha1)) := by
  intro cpls
  induction cpls with
  | nil => intro fs; exact ⟨fs, rfl⟩
  | cons c rest ih =>
    intro fs
    obtain ⟨fs1, h1⟩ := ih (writeFile fs c.path (CPL.xml md kind reel_to_cpl c))
    exact ⟨fs1, by simp [DCP.writeCPLs, write_xml_eq, h1]⟩

theorem pathAppend_suffix (directory name x : String) (h : ∃ p, name = p ++ x) :
    ∃ q, pathAppend directory name = q ++ x := by
  obtain ⟨p, rfl⟩ := h
  unfold pathAppend
  split_ifs
  · exact ⟨p, rfl⟩
  · exact ⟨directory ++ p, by rw [String.append_assoc]⟩
  · exact ⟨directory ++ "/" ++ p, by simp only [String.append_assoc]⟩

theorem ends_ne (a b x y : String) (ha : ∃ p, a = p ++ x) (hb : ∃ q, b = q ++ y)
    (hlen : x.data.length = y.data.length) (hne : x ≠ y) : a ≠ b := by
  obtain ⟨p, rfl⟩ := ha
  obtain ⟨q, rfl⟩ := hb
  exact suffix_ne p q x y hlen hne

theorem cplPath_suffix {α : Type} (c : CPL α) : ∃ q, c.path = q ++ "_cpl.xml" :=
  pathAppend_suffix _ _ _ ⟨c._uuid, rfl⟩

theorem pklPath_suffix {α : Type} (d : DCP α) (u : String) :
    ∃ q, DCP.pklPath d u = q ++ "_pkl.xml" :=
  pathAppend_suffix _ _ _ ⟨u, rfl⟩

theorem volindexPath_suffix (directory : String) :
    ∃ q, pathAppend directory "VOLINDEX.xml" = q ++ "NDEX.xml" :=
  pathAppend_suffix _ _ _ ⟨"VOLI", by decide⟩

theorem assetmapPath_suffix (directory : String) :
    ∃ q, pathAppend directory "ASSETMAP.xml" = q ++ "TMAP.xml" :=
  pathAppend_suffix _ _ _ ⟨"ASSE", by decide⟩

theorem write_xml_result (env : WriteEnv) (fs : FileSystem) (d : DCP AssetPtr)
    (fs1 : FileSystem) (cpls1 : List (CPL AssetPtr)) (hne : cpls1 ≠ [])
    (hw : DCP.writeCPLs env.md env.content_kind_to_string env.reel_to_cpl env.sha1 fs d._cpls
      = some (fs1, cpls1)) :
    ∃ fs2 pkl, DCP.write_xml env fs d = some (fs2, { d with _cpls := cpls1 }) ∧
      DCP.pklText env.md env.asset_to_pkl { d with _cpls := cpls1 } env.pkl_uuid = some pkl ∧
      fs2 (DCP.pklPath d env.pkl_uuid) = some pkl ∧
      ∀ (c : CPL AssetPtr), fs2 c.path = fs1 c.path := by
  obtain ⟨front, rest, hcons⟩ := List.exists_cons_of_ne_nil hne
  have hpkl : ∃ pkl, DCP.pklText env.md env.asset_to_pkl { d with _cpls := cpls1 } env.pkl_uuid
      = some pkl := by
    simp [DCP.pklText, hcons]
  obtain ⟨pkl, hpkl⟩ := hpkl
  have hpv : DCP.pklPath d env.pkl_uuid ≠ pathAppend d._directory "VOLINDEX.xml" :=
    ends_ne _ _ _ _ (pklPath_suffix d _) (volindexPath_suffix _) (by decide) (by decide)
  have hpa : DCP.pklPath d env.pkl_uuid ≠ pathAppend d._directory "ASSETMAP.xml" :=
    ends_ne _ _ _ _ (pklPath_suffix d _) (assetmapPath_suffix _) (by decide) (by decide)
  have hpp : DCP.pklPath ({ d with _cpls := cpls1 } : DCP AssetPtr) env.pkl_uuid
      = DCP.pklPath d env.pkl_uuid := rfl
  refine ⟨writeFile
      (writeFile (writeFile fs1 (DCP.pklPath d env.pkl_uuid) pkl)
        (pathAppend d._directory "VOLINDEX.xml") volindexText)
      (pathAppend d._directory "ASSETMAP.xml")
      (DCP.assetmapText env.md env.asset_to_assetmap { d with _cpls := cpls1 }
        env.assetmap_uuid env.pkl_uuid (pkl.utf8ByteSize : Int)),
    pkl, ?_, hpkl, ?_, ?_⟩
  · unfold DCP.write_xml
    rw [hw]
    simp only [hpkl, hpp]
    simp only [file_size, writeFile, if_neg hpv, if_true, Option.map_some']
  · simp [writeFile, hpa, hpv]
  · intro c
    have hcp : c.path ≠ DCP.pklPath d env.pkl_uuid :=
      ends_ne _ _ _ _ (cplPath_suffix c) (pklPath_suffix d _) (by decide) (by decide)
    have hcv : c.path ≠ pathAppend d._directory "VOLINDEX.xml" :=
      ends_ne _ _ _ _ (cplPath_suffix c) (volindexPath_suffix _) (by decide) (by decide)
    have hca : c.path ≠ pathAppend d._directory "ASSETMAP.xml" :=
      ends_ne _ _ _ _ (cplPath_suffix c) (assetmapPath_suffix _) (by decide) (by decide)
    simp [writeFile, hcp, hcv, hca]

/-- C22: `DCP::write_xml` on a DCP that owns CPLs writes every CPL first, so that every CPL
entry of the packing list carries the digest and size its own `write_xml` has just recorded.
For a DCP with one CPL, the packing list written holds, after the entries of the assets,
exactly one entry for the CPL, of type `text/xml`, whose `Hash` is the digest of the CPL file
as it is on disk after the call and whose `Size` is the number of bytes of that file. -/
theorem C22_pkl_lists_written_cpl (env : WriteEnv) (fs : FileSystem) (d : DCP AssetPtr) :
    (d._cpls ≠ [] →
      ∃ fs2 pkl,
        DCP.write_xml env fs d = some (fs2, DCP.written env d) ∧
        fs2 (DCP.pklPath d env.pkl_uuid) = some pkl ∧
        DCP.pklText env.md env.asset_to_pkl (DCP.written env d) env.pkl_uuid = some pkl) ∧
    (∀ c, d._cpls = [c] →
      ∃ fs2 pkl text c1,
        DCP.write_xml env fs d = some (fs2, { d with _cpls := [c1] }) ∧
        fs2 c.path = some text ∧
        fs2 (DCP.pklPath d env.pkl_uuid) = some pkl ∧
        [c1].map CPL.write_to_pkl =
          ["    <Asset>\n"
            ++ "      <Id>urn:uuid:" ++ c._uuid ++ "</Id>\n"
            ++ "      <Hash>" ++ env.sha1 text ++ "</Hash>\n"
            ++ "      <Size>" ++ toString text.utf8ByteSize ++ "</Size>\n"
            ++ "      <Type>text/xml</Type>\n"
            ++ "    </Asset>\n"] ∧
        pkl =
          "<?xml version=\"1.0\" encoding=\"UTF-8\"?>\n"
          ++ "<PackingList xmlns=\"http://www.smpte-ra.org/schemas/429-8/2007/PKL\">\n"
          ++ "  <Id>urn:uuid:" ++ env.pkl_uuid ++ "</Id>\n"
          ++ "  <AnnotationText>" ++ c._name ++ "</AnnotationText>\n"
          ++ "  <IssueDate>" ++ env.md.issue_date ++ "</IssueDate>\n"
          ++ "  <Issuer>" ++ env.md.issuer ++ "</Issuer>\n"
          ++ "  <Creator>" ++ env.md.creator ++ "</Creator>\n"
          ++ "  <AssetList>\n"
          ++ String.join ((DCP.assets { d with _cpls := [c1] }).map env.asset_to_pkl)
          ++ String.join ([c1].map CPL.write_to_pkl)
          ++ "  </AssetList>\n"
          ++ "</PackingList>\n") := by
  constructor
  · intro hne
    obtain ⟨fs1, hw⟩ := writeCPLs_eq env.md env.content_kind_to_string env.reel_to_cpl
      env.sha1 d._cpls fs
    obtain ⟨fs2, pkl, h1, h2, h3, _⟩ := write_xml_result env fs d fs1 _ (by simpa using hne) hw
    exact ⟨fs2, pkl, h1, h3, h2⟩
  · intro c hc
    have hw := writeCPLs_single env.md env.content_kind_to_string env.reel_to_cpl env.sha1 fs c
    rw [← hc] at hw
    obtain ⟨fs2, pkl, h1, h2, h3, h4⟩ := write_xml_result env fs d _ _ (by simp) hw
    refine ⟨fs2, pkl, CPL.xml env.md env.content_kind_to_string env.reel_to_cpl c, _, h1, ?_,
      h3, ?_, ?_⟩
    · rw [h4]
      simp [writeFile]
    · rfl
    · simp only [DCP.pklText, Option.some.injEq] at h2
      rw [← h2]
      rfl

/-- C22 at a DCP whose only CPL is `composedCPL`: the entry of the CPL carries the size 586
of the file written. -/
theorem C22_pkl_lists_written_cpl_witness :
    ∃ fs2 pkl text c1,
      DCP.write_xml sampleWriteEnv (fun _ => none) ⟨"dcp", [composedCPL]⟩
        = some (fs2, ⟨"dcp", [c1]⟩) ∧
      fs2 composedCPL.path = some text ∧
      fs2 (DCP.pklPath (⟨"dcp", [composedCPL]⟩ : DCP AssetPtr) "pkl") = some pkl ∧
      c1._length = text.utf8ByteSize ∧ text.utf8ByteSize = 586 := by
  obtain ⟨fs2, pkl, text, c1, h1, h2, h3, _, _⟩ :=
    (C22_pkl_lists_written_cpl sampleWriteEnv (fun _ => none) ⟨"dcp", [composedCPL]⟩).2
      composedCPL rfl
  have hfs := (write_xml_result sampleWriteEnv (fun _ => none) ⟨"dcp", [composedCPL]⟩ _ _
    (by simp) (writeCPLs_single sampleMetadata (fun _ => "feature") (fun _ => "")
      (fun text => toString text.length) (fun _ => none) composedCPL))
  obtain ⟨fs3, pkl3, g1, _, _, g4⟩ := hfs
  rw [g1] at h1
  simp only [Option.some.injEq, Prod.mk.injEq, DCP.mk.injEq, List.cons.injEq, and_true,
    true_and] at h1
  obtain ⟨hfs23, hc1⟩ := h1
  subst hfs23
  have htext : text = CPL.xml sampleMetadata (fun _ => "feature") (fun _ => "") composedCPL := by
    rw [g4 composedCPL] at h2
    simp only [writeFile, if_true, Option.some.injEq] at h2
    exact h2.symm
  refine ⟨fs3, pkl, text, c1, g1.trans (by rw [hc1]), h2, h3, ?_, ?_⟩
  · rw [← hc1, htext]
    rfl
  · rw [htext]
    exact composedCPL_size

/-! ### Reading a package -/

theorem chunks_single (a : AssetMapAsset) (h : ¬ a.chunks.length ≠ 1) :
    ∃ chunk, a.chunks = [chunk] := by
  have h1 : a.chunks.length = 1 := not_not.mp h
  exact List.length_eq_one.mp h1

theorem classify_bad_chunk (env : ReadEnv) (directory : String) :
    ∀ (assets : List AssetMapAsset), (∃ a ∈ assets, a.chunks.length ≠ 1) →
      ∀ files, ∃ e, DCP.classify env directory assets files = .error e := by
  intro assets
  induction assets with
  | nil => intro h; simp at h
  | cons a rest ih =>
    intro h files
    by_cases ha : a.chunks.length ≠ 1
    · exact ⟨_, by rw [DCP.classify, if_pos ha]⟩
    · have hrest : ∃ b ∈ rest, b.chunks.length ≠ 1 := by
        obtain ⟨b, hb, hlen⟩ := h
        rcases List.mem_cons.mp hb with rfl | hb
        · exact absurd hlen ha
        · exact ⟨b, hb, hlen⟩
      obtain ⟨chunk, hch⟩ := chunks_single a ha
      rw [DCP.classify, if_neg ha]
      simp only [hch, List.head?_cons]
      split
      · exact ih hrest _
      · split
        · exact ih hrest _
        · split_ifs
          · exact ih hrest _
          · exact ih hrest _
          · exact ⟨_, rfl⟩
          · exact ih hrest _
          · exact ih hrest _

theorem classifiedFiles_cons (directory : String) (a : AssetMapAsset)
    (rest : List AssetMapAsset) (chunk : Chunk) (h : a.chunks = [chunk]) :
    classifiedFiles directory (a :: rest) =
      (if (ends_with (pathAppend directory chunk.path) ".mxf" ||
            ends_with (pathAppend directory chunk.path) ".ttf") = true then []
       else [pathAppend directory chunk.path]) ++ classifiedFiles directory rest := by
  simp only [classifiedFiles, List.filterMap_cons, h]
  split_ifs <;> simp_all

theorem classify_ok (env : ReadEnv) (directory : String) :
    ∀ (assets : List AssetMapAsset) (files files1 : Files),
      DCP.classify env directory assets files = .ok files1 →
      (∀ a ∈ assets, a.chunks.length = 1) ∧
      files1.cpls = files.cpls ++
        filesWithRoot env "CompositionPlaylist" (classifiedFiles directory assets) := by
  intro assets
  induction assets with
  | nil =>
    intro files files1 h
    simp only [DCP.classify, Except.ok.injEq] at h
    subst h
    simp [classifiedFiles, filesWithRoot]
  | cons a rest ih =>
    intro files files1 h
    by_cases ha : a.chunks.length ≠ 1
    · rw [DCP.classify, if_pos ha] at h
      simp at h
    · obtain ⟨chunk, hch⟩ := chunks_single a ha
      have hlen : ∀ _files0 : Files, (∀ b ∈ rest, b.chunks.length = 1) →
          ∀ b ∈ a :: rest, b.chunks.length = 1 := by
        intro _ hr b hb
        rcases List.mem_cons.mp hb with rfl | hb
        · exact not_not.mp ha
        · exact hr b hb
      rw [DCP.classify, if_neg ha] at h
      simp only [hch, List.head?_cons] at h
      rw [classifiedFiles_cons directory a rest chunk hch]
      split at h
      · rename_i hess
        obtain ⟨h1, h2⟩ := ih _ _ h
        exact ⟨hlen files h1, by simp [hess, h2]⟩
      · rename_i hess
        split at h
        · rename_i hroot
          obtain ⟨h1, h2⟩ := ih _ _ h
          exact ⟨hlen files h1, by simp [hess, h2, filesWithRoot, List.filter_cons, hroot]⟩
        · rename_i root hroot
          split_ifs at h with hc hp hpe hs
          · obtain ⟨h1, h2⟩ := ih _ _ h
            refine ⟨hlen files h1, ?_⟩
            simp [hess, h2, filesWithRoot, List.filter_cons, hroot, hc]
          · obtain ⟨h1, h2⟩ := ih _ _ h
            refine ⟨hlen files h1, ?_⟩
            simp [hess, h2, filesWithRoot, List.filter_cons, hroot, hc]
          · obtain ⟨h1, h2⟩ := ih _ _ h
            refine ⟨hlen files h1, ?_⟩
            simp [hess, h2, filesWithRoot, List.filter_cons, hroot, hc]
          · obtain ⟨h1, h2⟩ := ih _ _ h
            refine ⟨hlen files h1, ?_⟩
            simp [hess, h2, filesWithRoot, List.filter_cons, hroot, hc]

theorem classify_duplicate (env : ReadEnv) (directory : String)
    (hne : ∀ t, env.xml_root t = some "PackingList" → t ≠ "") :
    ∀ (assets : List AssetMapAsset) (files : Files),
      ((files.pkl ≠ "" ∧
          1 ≤ (filesWithRoot env "PackingList" (classifiedFiles directory assets)).length) ∨
        2 ≤ (filesWithRoot env "PackingList" (classifiedFiles directory assets)).length) →
      ∃ e, DCP.classify env directory assets files = .error e := by
  intro assets
  induction assets with
  | nil => intro files h; simp [classifiedFiles, filesWithRoot] at h
  | cons a rest ih =>
    intro files h
    by_cases ha : a.chunks.length ≠ 1
    · exact ⟨_, by rw [DCP.classify, if_pos ha]⟩
    · obtain ⟨chunk, hch⟩ := chunks_single a ha
      rw [classifiedFiles_cons directory a rest chunk hch] at h
      rw [DCP.classify, if_neg ha]
      simp only [hch, List.head?_cons]
      split
      · rename_i hess
        rw [if_pos hess, List.nil_append] at h
        exact ih files h
      · rename_i hess
        rw [if_neg hess, List.singleton_append] at h
        split
        · rename_i hroot
          have hcount : (filesWithRoot env "PackingList"
              (pathAppend directory chunk.path :: classifiedFiles directory rest)).length
              = (filesWithRoot env "PackingList" (classifiedFiles directory rest)).length := by
            simp [filesWithRoot, List.filter_cons, hroot]
          rw [hcount] at h
          exact ih files h
        · rename_i root hroot
          by_cases hp : root = "PackingList"
          · subst hp
            have hc : ¬ ("PackingList" = "CompositionPlaylist") := by decide
            simp only [hc, if_false, if_true]
            have hcount : (filesWithRoot env "PackingList"
                (pathAppend directory chunk.path :: classifiedFiles directory rest)).length
                = (filesWithRoot env "PackingList" (classifiedFiles directory rest)).length
                  + 1 := by
              simp [filesWithRoot, List.filter_cons, hroot]
            rw [hcount] at h
            split_ifs with hpe
            · apply ih
              left
              refine ⟨hne _ hroot, ?_⟩
              rcases h with ⟨h1, _⟩ | h2
              · exact absurd hpe h1
              · omega
            · exact ⟨_, rfl⟩
          · have hcount : (filesWithRoot env "PackingList"
                (pathAppend directory chunk.path :: classifiedFiles directory rest)).length
                = (filesWithRoot env "PackingList" (classifiedFiles directory rest)).length := by
              simp [filesWithRoot, List.filter_cons, hroot, hp]
            rw [hcount] at h
            split_ifs
            · exact ih _ h
            · exact ih _ h
            · exact ih _ h

theorem readCPLs_ok (env : ReadEnv) (assets : List AssetMapAsset) (require_mxfs : Bool) :
    ∀ (files : List String) (d d1 : DCP AssetObj),
      DCP.readCPLs env assets require_mxfs files d = (.ok (), d1) →
      ∃ cpls, d1 = { d with _cpls := d._cpls ++ cpls } ∧
        List.Forall₂
          (fun file c => ∃ cf, env.load_cpl file = some cf ∧
            CPL.parse d._directory cf (env.asset_from_id assets) env.ess require_mxfs = .ok c)
          files cpls := by
  intro files
  induction files with
  | nil =>
    intro d d1 h
    simp only [DCP.readCPLs, Prod.mk.injEq, true_and] at h
    exact ⟨[], by simp [h], List.Forall₂.nil⟩
  | cons file rest ih =>
    intro d d1 h
    rw [DCP.readCPLs] at h
    cases hl : env.load_cpl file with
    | none => rw [hl] at h; simp at h
    | some cf =>
      rw [hl] at h
      simp only at h
      cases hp : CPL.parse d._directory cf (env.asset_from_id assets) env.ess require_mxfs with
      | error e => rw [hp] at h; simp at h
      | ok c =>
        rw [hp] at h
        obtain ⟨cpls, hd1, hf⟩ := ih _ _ h
        refine ⟨c :: cpls, by simp [hd1], ?_⟩
        exact List.Forall₂.cons ⟨cf, hl, hp⟩ hf

theorem classify_pkl (env : ReadEnv) (directory : String)
    (hne : ∀ t, env.xml_root t = some "PackingList" → t ≠ "") :
    ∀ (assets : List AssetMapAsset) (files : Files),
      (∀ a ∈ assets, a.chunks.length = 1) →
      ((files.pkl = "" ∧
          (filesWithRoot env "PackingList" (classifiedFiles directory assets)).length ≤ 1) ∨
        (files.pkl ≠ "" ∧
          filesWithRoot env "PackingList" (classifiedFiles directory assets) = [])) →
      ∃ files1, DCP.classify env directory assets files = .ok files1 ∧
        files1.pkl =
          if files.pkl = "" then
            ((filesWithRoot env "PackingList" (classifiedFiles directory assets)).head?).getD ""
          else files.pkl := by
  intro assets
  induction assets with
  | nil =>
    intro files _ _
    refine ⟨files, rfl, ?_⟩
    by_cases hp : files.pkl = "" <;> simp [classifiedFiles, filesWithRoot, hp]
  | cons a rest ih =>
    intro files hall h
    have ha : ¬ a.chunks.length ≠ 1 := not_not.mpr (hall a (List.mem_cons_self _ _))
    have hrest : ∀ b ∈ rest, b.chunks.length = 1 :=
      fun b hb => hall b (List.mem_cons_of_mem _ hb)
    obtain ⟨chunk, hch⟩ := chunks_single a ha
    rw [classifiedFiles_cons directory a rest chunk hch] at h ⊢
    rw [DCP.classify, if_neg ha]
    simp only [hch, List.head?_cons]
    split
    · rename_i hess
      rw [if_pos hess, List.nil_append] at h
      simp only [List.nil_append]
      exact ih files hrest h
    · rename_i hess
      rw [if_neg hess, List.singleton_append] at h
      simp only [List.singleton_append]
      split
      · rename_i hroot
        have hcount : filesWithRoot env "PackingList"
            (pathAppend directory chunk.path :: classifiedFiles directory rest)
            = filesWithRoot env "PackingList" (classifiedFiles directory rest) := by
          simp [filesWithRoot, List.filter_cons, hroot]
        rw [hcount] at h ⊢
        exact ih files hrest h
      · rename_i root hroot
        by_cases hp : root = "PackingList"
        · subst hp
          have hc : ¬ ("PackingList" = "CompositionPlaylist") := by decide
          simp only [hc, if_false, if_true]
          have hcount : filesWithRoot env "PackingList"
              (pathAppend directory chunk.path :: classifiedFiles directory rest)
              = pathAppend directory chunk.path ::
                filesWithRoot env "PackingList" (classifiedFiles directory rest) := by
            simp [filesWithRoot, List.filter_cons, hroot]
          rw [hcount] at h ⊢
          rcases h with ⟨hpe, hlen⟩ | ⟨_, hnil⟩
          · have hnil : filesWithRoot env "PackingList" (classifiedFiles directory rest)
                = [] := by
              apply List.eq_nil_of_length_eq_zero
              simp only [List.length_cons] at hlen
              omega
            have htne := hne _ hroot
            obtain ⟨files1, h1, h2⟩ := ih { files with pkl := pathAppend directory chunk.path }
              hrest (Or.inr ⟨htne, hnil⟩)
            rw [if_pos hpe]
            refine ⟨files1, h1, ?_⟩
            rw [h2, if_pos hpe]
            simp [htne]
          · exact absurd hnil (List.cons_ne_nil _ _)
        · have hcount : filesWithRoot env "PackingList"
              (pathAppend directory chunk.path :: classifiedFiles directory rest)
              = filesWithRoot env "PackingList" (classifiedFiles directory rest) := by
            simp [filesWithRoot, List.filter_cons, hroot, hp]
          rw [hcount] at h ⊢
          by_cases hc : root = "CompositionPlaylist"
          · rw [if_pos hc]
            exact ih _ hrest h
          · rw [if_neg hc, if_neg hp]
            by_cases hs : root = "DCSubtitle"
            · rw [if_pos hs]
              exact ih _ hrest h
            · rw [if_neg hs]
              exact ih _ hrest h

theorem classify_congr (env : ReadEnv) (directory : String) (r2 : String → Option String)
    (hr : ∀ t, ends_with t ".mxf" = false → ends_with t ".ttf" = false →
      r2 t = env.xml_root t) :
    ∀ (assets : List AssetMapAsset) (files : Files),
      DCP.classify { env with xml_root := r2 } directory assets files
        = DCP.classify env directory assets files := by
  intro assets
  induction assets with
  | nil => intro files; rfl
  | cons a rest ih =>
    intro files
    rw [DCP.classify, DCP.classify]
    by_cases hlen : a.chunks.length ≠ 1
    · rw [if_pos hlen, if_pos hlen]
    · rw [if_neg hlen, if_neg hlen]
      cases hh : a.chunks.head? with
      | none => rfl
      | some chunk =>
        simp only
        by_cases hess : (ends_with (pathAppend directory chunk.path) ".mxf" ||
            ends_with (pathAppend directory chunk.path) ".ttf") = true
        · rw [if_pos hess, if_pos hess]
          exact ih files
        · rw [if_neg hess, if_neg hess]
          have he : ends_with (pathAppend directory chunk.path) ".mxf" = false ∧
              ends_with (pathAppend directory chunk.path) ".ttf" = false := by
            simpa using hess
          rw [hr _ he.1 he.2]
          simp only [ih]

theorem readCPLs_congr (env : ReadEnv) (r2 : String → Option String)
    (assets : List AssetMapAsset) (require_mxfs : Bool) :
    ∀ (files : List String) (d : DCP AssetObj),
      DCP.readCPLs { env with xml_root := r2 } assets require_mxfs files d
        = DCP.readCPLs env assets require_mxfs files d := by
  intro files
  induction files with
  | nil => intro d; rfl
  | cons file rest ih =>
    intro d
    rw [DCP.readCPLs, DCP.readCPLs]
    cases env.load_cpl file with
    | none => rfl
    | some cpl =>
      simp only
      cases CPL.parse d._directory cpl (env.asset_from_id assets) env.ess require_mxfs with
      | error e => rfl
      | ok c => exact ih _

theorem readCPLs_of_parsed (env : ReadEnv) (assets : List AssetMapAsset)
    (require_mxfs : Bool) (directory : String) :
    ∀ (files : List String) (cpls : List (CPL AssetObj)) (d : DCP AssetObj),
      d._directory = directory →
      List.Forall₂
        (fun file c => ∃ cf, env.load_cpl file = some cf ∧
          CPL.parse directory cf (env.asset_from_id assets) env.ess require_mxfs = .ok c)
        files cpls →
      DCP.readCPLs env assets require_mxfs files d
        = (.ok (), { d with _cpls := d._cpls ++ cpls }) := by
  intro files cpls d hd h
  induction h generalizing d with
  | nil => simp [DCP.readCPLs]
  | cons hfc _ ih =>
    obtain ⟨cf, hl, hp⟩ := hfc
    rw [DCP.readCPLs, hl]
    simp only
    rw [hd, hp]
    simp only
    rw [ih _ rfl]
    simp

/-- C23: when the asset map loads, `DCP::read` fails and leaves the DCP as it was (no CPL
added) if some entry of the asset map does not have exactly one chunk (whatever file it
names), if no classified file has a `CompositionPlaylist` root, or if more than one
classified file has a `PackingList` root (the empty path not being a readable file).  No
classified file ends in `.mxf` or `.ttf`, and the outcome of the read does not depend on
what XML root such a file has.  When every entry has one chunk, there is a CPL file and
exactly one packing list, which loads, and every CPL file loads and parses, the read
succeeds and pushes one CPL for each classified file with a `CompositionPlaylist` root, in
asset map order; and whenever the read succeeds the CPLs pushed are those. -/
theorem C23_read_classifies_asset_map (env : ReadEnv) (require_mxfs : Bool)
    (d : DCP AssetObj) (assets : List AssetMapAsset)
    (hmap : DCP.loadAssetMap env d._directory = .ok assets) :
    ((∃ a ∈ assets, a.chunks.length ≠ 1) →
      ∃ e, DCP.read env require_mxfs d = (.error e, d)) ∧
    (filesWithRoot env "CompositionPlaylist" (classifiedFiles d._directory assets) = [] →
      ∃ e, DCP.read env require_mxfs d = (.error e, d)) ∧
    (env.xml_root "" = none →
      2 ≤ (filesWithRoot env "PackingList" (classifiedFiles d._directory assets)).length →
      ∃ e, DCP.read env require_mxfs d = (.error e, d)) ∧
    (∀ t ∈ classifiedFiles d._directory assets,
      ends_with t ".mxf" = false ∧ ends_with t ".ttf" = false) ∧
    (∀ r2 : String → Option String,
      (∀ t, ends_with t ".mxf" = false → ends_with t ".ttf" = false →
        r2 t = env.xml_root t) →
      DCP.read { env with xml_root := r2 } require_mxfs d = DCP.read env require_mxfs d) ∧
    (∀ (pkl : String) (cpls : List (CPL AssetObj)),
      (∀ a ∈ assets, a.chunks.length = 1) →
      env.xml_root "" = none →
      filesWithRoot env "CompositionPlaylist" (classifiedFiles d._directory assets) ≠ [] →
      filesWithRoot env "PackingList" (classifiedFiles d._directory assets) = [pkl] →
      env.load_pkl pkl = true →
      List.Forall₂
        (fun file c => ∃ cf, env.load_cpl file = some cf ∧
          CPL.parse d._directory cf (env.asset_from_id assets) env.ess require_mxfs = .ok c)
        (filesWithRoot env "CompositionPlaylist" (classifiedFiles d._directory assets))
        cpls →
      DCP.read env require_mxfs d = (.ok (), { d with _cpls := d._cpls ++ cpls })) ∧
    (∀ d1, DCP.read env require_mxfs d = (.ok (), d1) →
      ∃ cpls, d1 = { d with _cpls := d._cpls ++ cpls } ∧
        List.Forall₂
          (fun file c => ∃ cf, env.load_cpl file = some cf ∧
            CPL.parse d._directory cf (env.asset_from_id assets) env.ess require_mxfs = .ok c)
          (filesWithRoot env "CompositionPlaylist" (classifiedFiles d._directory assets))
          cpls) := by
  refine ⟨?_, ?_, ?_, ?_, ?_, ?_, ?_⟩
  · intro h
    obtain ⟨e, he⟩ := classify_bad_chunk env d._directory assets h ⟨[], "", []⟩
    exact ⟨e, by simp only [DCP.read, hmap, he]⟩
  · intro h
    cases hc : DCP.classify env d._directory assets ⟨[], "", []⟩ with
    | error e => exact ⟨e, by simp only [DCP.read, hmap, hc]⟩
    | ok files =>
      have h2 := (classify_ok env d._directory assets _ _ hc).2
      rw [h] at h2
      have h3 : files.cpls = [] := by simpa using h2
      exact ⟨.FileError "no CPL files found" "",
        by simp only [DCP.read, hmap, hc, h3, if_true]⟩
  · intro hempty h
    have hne : ∀ t, env.xml_root t = some "PackingList" → t ≠ "" := by
      intro t ht he
      rw [he, hempty] at ht
      exact Option.noConfusion ht
    obtain ⟨e, he⟩ := classify_duplicate env d._directory hne assets ⟨[], "", []⟩ (Or.inr h)
    exact ⟨e, by simp only [DCP.read, hmap, he]⟩
  · intro t ht
    simp only [classifiedFiles, List.mem_filterMap] at ht
    obtain ⟨a, _, ha⟩ := ht
    split at ha
    · split_ifs at ha with hess
      simp only [Option.some.injEq] at ha
      subst ha
      simpa using hess
    · exact Option.noConfusion ha
  · intro r2 hr
    have hmap2 : DCP.loadAssetMap { env with xml_root := r2 } d._directory
        = DCP.loadAssetMap env d._directory := rfl
    simp only [DCP.read, hmap2, hmap, classify_congr env d._directory r2 hr,
      readCPLs_congr env r2]
  · intro pkl cpls hall hempty hcpl hpkl hload hparse
    have hne : ∀ t, env.xml_root t = some "PackingList" → t ≠ "" := by
      intro t ht he
      rw [he, hempty] at ht
      exact Option.noConfusion ht
    obtain ⟨files, hc, hfp⟩ := classify_pkl env d._directory hne assets ⟨[], "", []⟩ hall
      (Or.inl ⟨rfl, by rw [hpkl]; simp⟩)
    have hcpls := (classify_ok env d._directory assets _ _ hc).2
    simp only [List.nil_append] at hcpls
    rw [hpkl] at hfp
    simp only [if_true, List.head?_cons, Option.getD_some] at hfp
    have hpne : pkl ≠ "" := by
      apply hne
      have hmem : pkl ∈ filesWithRoot env "PackingList"
          (classifiedFiles d._directory assets) := by rw [hpkl]; exact List.mem_singleton_self _
      simp only [filesWithRoot, List.mem_filter, decide_eq_true_eq] at hmem
      exact hmem.2
    simp only [DCP.read, hmap, hc]
    rw [if_neg (by rw [hcpls]; exact hcpl), if_neg (by rw [hfp]; exact hpne), hfp, hload]
    simp only [Bool.not_true, Bool.false_eq_true, if_false]
    rw [hcpls]
    exact readCPLs_of_parsed env assets require_mxfs d._directory _ cpls d rfl hparse
  · intro d1 h
    simp only [DCP.read, hmap] at h
    cases hc : DCP.classify env d._directory assets ⟨[], "", []⟩ with
    | error e => rw [hc] at h; simp at h
    | ok files =>
      rw [hc] at h
      simp only at h
      have h2 := (classify_ok env d._directory assets _ _ hc).2
      simp only [List.nil_append] at h2
      split_ifs at h with h3 h4 h5
      · simp at h
      · simp at h
      · simp at h
      · rw [← h2]
        exact readCPLs_ok env assets require_mxfs files.cpls d d1 h

theorem classifiedFiles_sampleAssets :
    classifiedFiles "dcp" sampleAssets = ["dcp/cpl.xml", "dcp/pkl.xml"] := by
  decide

/-- C23 at the package `dcp` whose asset map lists a CPL, a packing list and a picture MXF:
the read succeeds and pushes the CPL parsed from `dcp/cpl.xml`; with a picture entry of two
chunks it fails and the DCP is left without a CPL. -/
theorem C23_read_classifies_asset_map_witness :
    DCP.read (sampleReadEnv sampleAssets) true unreadDCP
      = (.ok (), { unreadDCP with _cpls := [threeReelCPL] }) ∧
    ∃ e, DCP.read (sampleReadEnv twoChunkAssets) true unreadDCP = (.error e, unreadDCP) := by
  have hcpl : filesWithRoot (sampleReadEnv sampleAssets) "CompositionPlaylist"
      (classifiedFiles unreadDCP._directory sampleAssets) = ["dcp/cpl.xml"] := by
    rw [show unreadDCP._directory = "dcp" from rfl, classifiedFiles_sampleAssets]
    decide
  have hpkl : filesWithRoot (sampleReadEnv sampleAssets) "PackingList"
      (classifiedFiles unreadDCP._directory sampleAssets) = ["dcp/pkl.xml"] := by
    rw [show unreadDCP._directory = "dcp" from rfl, classifiedFiles_sampleAssets]
    decide
  constructor
  · have h := (C23_read_classifies_asset_map (sampleReadEnv sampleAssets) true unreadDCP
      sampleAssets rfl).2.2.2.2.2.1 "dcp/pkl.xml" [threeReelCPL] (by decide) (by decide)
      (by rw [hcpl]; exact List.cons_ne_nil _ _) hpkl rfl
      (by
        rw [hcpl]
        exact List.Forall₂.cons ⟨threeReelFile, rfl, parse_threeReelFile⟩ List.Forall₂.nil)
    exact h
  · exact (C23_read_classifies_asset_map (sampleReadEnv twoChunkAssets) true unreadDCP
      twoChunkAssets rfl).1
      ⟨⟨"p1", [⟨"picture.mxf"⟩, ⟨"picture2.mxf"⟩]⟩, by decide, by decide⟩

end Libdcp
